import Mathlib

/-!
# Verification of the yocto_bvh two-level bounding volume hierarchy

A shallow embedding of `src/yocto/yocto_bvh.h` (ray-intersection and
closest-point queries over a two-level BVH) into Lean 4, together with
proofs and refutations of the specification claims.

Modelling conventions:
* IEEE `float` scalars are modelled by exact rationals `ℚ`.  The source's
  arithmetic is pure field arithmetic except for `sqrtf` (modelled by
  `Rat.sqrt`, exact on perfect squares) and the infinities produced by the
  ray/bbox slab test when a direction component is zero (modelled by an
  explicit case split with the same net acceptance behaviour).
* C out-parameters are modelled by threading explicit cell values: a query
  takes the cells' incoming values and returns their final values.
* The fixed-size traversal stacks (`int node_stack[64]`, 256 for overlaps)
  are modelled by lists; the source only asserts non-overflow.  Loops whose
  termination depends on tree well-formedness take a fuel argument;
  exhausted fuel — like the source's undefined behaviour on reading a null
  `radius` pointer — is modelled by the `crash` outcome.
* `ym_*` helpers live in `yocto_math.h`, which is not part of the sources;
  they are modelled from the spec's description of the math collaborator
  (3-vectors, affine transforms with inverse, AABB expansion, rays).
-/

set_option allowUnsafeReducibility true

set_option maxRecDepth 100000

attribute [semireducible] Rat.add Rat.sub Rat.mul Rat.div Rat.inv Rat.neg

namespace YoctoBVH

/-- Modelled from the spec: the math collaborator's 2-vector (`ym_vec2f`). -/
structure Vec2 where
  x : ℚ
  y : ℚ
deriving DecidableEq, Repr

/-- Modelled from the spec: the math collaborator's 3-vector (`ym_vec3f`). -/
structure Vec3 where
  x : ℚ
  y : ℚ
  z : ℚ
deriving DecidableEq, Repr

namespace Vec3

def add (a b : Vec3) : Vec3 := ⟨a.x + b.x, a.y + b.y, a.z + b.z⟩

def sub (a b : Vec3) : Vec3 := ⟨a.x - b.x, a.y - b.y, a.z - b.z⟩

def smul (t : ℚ) (a : Vec3) : Vec3 := ⟨t * a.x, t * a.y, t * a.z⟩

instance : Add Vec3 := ⟨Vec3.add⟩

instance : Sub Vec3 := ⟨Vec3.sub⟩

instance : Zero Vec3 := ⟨⟨0, 0, 0⟩⟩

/-- Constructor `ym_vec3f(r)` filling all components with one scalar. -/
def splat (r : ℚ) : Vec3 := ⟨r, r, r⟩

/-- Componentwise access `(&v.x)[axis]` used by the source to loop over axes. -/
def comp (v : Vec3) (axis : ℕ) : ℚ :=
  match axis with
  | 0 => v.x
  | 1 => v.y
  | _ => v.z

/-- Componentwise minimum, used by AABB expansion. -/
def cmin (a b : Vec3) : Vec3 := ⟨min a.x b.x, min a.y b.y, min a.z b.z⟩

/-- Componentwise maximum, used by AABB expansion. -/
def cmax (a b : Vec3) : Vec3 := ⟨max a.x b.x, max a.y b.y, max a.z b.z⟩

end Vec3

/-- `ym_dot`. -/
def ym_dot (a b : Vec3) : ℚ := a.x * b.x + a.y * b.y + a.z * b.z

/-- `ym_cross`. -/
def ym_cross (a b : Vec3) : Vec3 :=
  ⟨a.y * b.z - a.z * b.y, a.z * b.x - a.x * b.z, a.x * b.y - a.y * b.x⟩

/-- `ym_distsqr`: squared Euclidean distance. -/
def ym_distsqr (a b : Vec3) : ℚ := ym_dot (a.sub b) (a.sub b)

/-- `ym_clamp`. -/
def ym_clamp (x lo hi : ℚ) : ℚ := if x < lo then lo else if x > hi then hi else x

/-- `ym_lerp` on vectors: `a*(1-u) + b*u`. -/
def ym_lerp (a b : Vec3) (u : ℚ) : Vec3 := (Vec3.smul (1 - u) a).add (Vec3.smul u b)

/-- Scalar linear interpolation (the source's `ym_lerp` on radii). -/
def ym_lerpq (a b u : ℚ) : ℚ := a * (1 - u) + b * u

/-- `ym_blerp` on vectors: barycentric interpolation with weights `(1-u-v, u, v)`. -/
def ym_blerp (a b c : Vec3) (u v : ℚ) : Vec3 :=
  ((Vec3.smul (1 - u - v) a).add (Vec3.smul u b)).add (Vec3.smul v c)

/-- Scalar barycentric interpolation (the source's `ym_blerp` on radii). -/
def ym_blerpq (a b c u v : ℚ) : ℚ := a * (1 - u - v) + b * u + c * v

/-- Modelled from the spec: the math collaborator's AABB (`ym_range3f`),
two 3-vectors min/max.  The source's "invalid" sentinel
(min = +∞, max = −∞, the identity for expansion) has no rational
representative; every fold that starts from the sentinel is modelled by
folding from the first element's expansion, which agrees on the nonempty
collections produced under the theorems' hypotheses. -/
structure Range3 where
  rmin : Vec3
  rmax : Vec3
deriving DecidableEq, Repr

/-- `ym_rexpand` of a range by a point. -/
def ym_rexpand (r : Range3) (p : Vec3) : Range3 := ⟨r.rmin.cmin p, r.rmax.cmax p⟩

/-- `ym_rexpand` of a range by a range. -/
def ym_rexpandr (r s : Range3) : Range3 := ⟨r.rmin.cmin s.rmin, r.rmax.cmax s.rmax⟩

/-- `ym_rcenter`. -/
def ym_rcenter (r : Range3) : Vec3 := Vec3.smul (1/2) (r.rmin.add r.rmax)

/-- `ym_rsize`. -/
def ym_rsize (r : Range3) : Vec3 := r.rmax.sub r.rmin

/-- Expansion from the invalid sentinel over a list of points (the source's
`bbox = ym_invalid_range3f; for p: bbox = ym_rexpand(bbox, p)` pattern).
`[]` (never reached under the theorems' nonemptiness hypotheses) maps to a
degenerate junk box. -/
def bboxOfPts : List Vec3 → Range3
  | [] => ⟨0, 0⟩
  | p :: ps => ps.foldl ym_rexpand ⟨p, p⟩

/-- Expansion from the invalid sentinel over a list of ranges. -/
def bboxOfRs : List Range3 → Range3
  | [] => ⟨0, 0⟩
  | r :: rs => rs.foldl ym_rexpandr r

/-- Membership of a point in an AABB (componentwise). -/
def memR (p : Vec3) (r : Range3) : Prop :=
  r.rmin.x ≤ p.x ∧ p.x ≤ r.rmax.x ∧ r.rmin.y ≤ p.y ∧ p.y ≤ r.rmax.y ∧
    r.rmin.z ≤ p.z ∧ p.z ≤ r.rmax.z

instance (p : Vec3) (r : Range3) : Decidable (memR p r) := by
  unfold memR; infer_instance

/-- `r₁ ⊆ r₂` as boxes (componentwise bounds). -/
def subR (r₁ r₂ : Range3) : Prop :=
  r₂.rmin.x ≤ r₁.rmin.x ∧ r₁.rmax.x ≤ r₂.rmax.x ∧
    r₂.rmin.y ≤ r₁.rmin.y ∧ r₁.rmax.y ≤ r₂.rmax.y ∧
    r₂.rmin.z ≤ r₁.rmin.z ∧ r₁.rmax.z ≤ r₂.rmax.z

instance (r₁ r₂ : Range3) : Decidable (subR r₁ r₂) := by
  unfold subR; infer_instance

/-- Modelled from the spec: the math collaborator's affine transform
(`ym_affine3f`): a 3×3 linear part (stored as rows) plus a translation. -/
structure Affine3 where
  rx : Vec3
  ry : Vec3
  rz : Vec3
  t : Vec3
deriving DecidableEq, Repr

/-- `ym_transform_point`. -/
def ym_transform_point (a : Affine3) (p : Vec3) : Vec3 :=
  ⟨ym_dot a.rx p + a.t.x, ym_dot a.ry p + a.t.y, ym_dot a.rz p + a.t.z⟩

/-- `ym_transform_vector` (linear part only). -/
def ym_transform_vector (a : Affine3) (v : Vec3) : Vec3 :=
  ⟨ym_dot a.rx v, ym_dot a.ry v, ym_dot a.rz v⟩

/-- `ym_identity_affine3f`. -/
def ym_identity_affine3f : Affine3 :=
  ⟨⟨1, 0, 0⟩, ⟨0, 1, 0⟩, ⟨0, 0, 1⟩, 0⟩

/-- Modelled from the spec: `ym_inverse` of an affine transform, by the
adjugate formula (junk when the determinant is zero; the theorems assume
a genuine inverse pair via `isInvPair`). -/
def ym_inverse (a : Affine3) : Affine3 :=
  let u := ym_cross a.ry a.rz
  let v := ym_cross a.rz a.rx
  let w := ym_cross a.rx a.ry
  let det := ym_dot a.rx u
  let m : Affine3 :=
    ⟨⟨u.x / det, v.x / det, w.x / det⟩,
     ⟨u.y / det, v.y / det, w.y / det⟩,
     ⟨u.z / det, v.z / det, w.z / det⟩, 0⟩
  { m with t := Vec3.smul (-1) (ym_transform_vector m a.t) }

/-- The pair `(xf, inv)` behaves as mutually inverse affine maps on points.
This is what `yb_set_shape_bvh` establishes by storing `ym_inverse(xform)`
for an invertible `xform`. -/
def isInvPair (xf inv : Affine3) : Prop :=
  ∀ p : Vec3, ym_transform_point xf (ym_transform_point inv p) = p

/-- `ym_ray3f`: origin, direction (not necessarily unit), parameter range. -/
structure Ray3 where
  o : Vec3
  d : Vec3
  tmin : ℚ
  tmax : ℚ
deriving DecidableEq, Repr

/-- `ray.eval(t)` / `yb__eval_ray`. -/
def Ray3.eval (r : Ray3) (t : ℚ) : Vec3 := r.o.add (Vec3.smul t r.d)

/-- `yb__transform_bbox`: transform an AABB by taking the hull of its eight
transformed corners. -/
def bboxCorners (bbox : Range3) : List Vec3 :=
  [⟨bbox.rmin.x, bbox.rmin.y, bbox.rmin.z⟩,
   ⟨bbox.rmin.x, bbox.rmin.y, bbox.rmax.z⟩,
   ⟨bbox.rmin.x, bbox.rmax.y, bbox.rmin.z⟩,
   ⟨bbox.rmin.x, bbox.rmax.y, bbox.rmax.z⟩,
   ⟨bbox.rmax.x, bbox.rmin.y, bbox.rmin.z⟩,
   ⟨bbox.rmax.x, bbox.rmin.y, bbox.rmax.z⟩,
   ⟨bbox.rmax.x, bbox.rmax.y, bbox.rmin.z⟩,
   ⟨bbox.rmax.x, bbox.rmax.y, bbox.rmax.z⟩]

def yb__transform_bbox (a : Affine3) (bbox : Range3) : Range3 :=
  bboxOfPts ((bboxCorners bbox).map (ym_transform_point a))

/-! ## Element-wise intersection functions -/

/-- `yb__intersect_point`: ray vs fat point.  Returns `some (ray_t, euv)`
exactly when the source returns true and writes its out-parameters.
(The source divides by `dot(d,d)`; on the degenerate rays with
`dot(d,d) = 0` the model takes `q/0 = 0` where IEEE produces NaN/∞ —
all theorems compare this model against itself, so the convention is
uniform on both sides.) -/
def yb__intersect_point (ray : Ray3) (p : Vec3) (r : ℚ) : Option (ℚ × Vec2) :=
  let w := p.sub ray.o
  let t := ym_dot w ray.d / ym_dot ray.d ray.d
  if t < ray.tmin ∨ t > ray.tmax then none
  else
    let rp := ray.eval t
    let prp := p.sub rp
    if ym_dot prp prp > r * r then none
    else some (t, ⟨0, 0⟩)

/-- `yb__intersect_line`: ray vs fat segment. -/
def yb__intersect_line (ray : Ray3) (v0 v1 : Vec3) (r0 r1 : ℚ) :
    Option (ℚ × Vec2) :=
  let u := ray.d
  let v := v1.sub v0
  let w := ray.o.sub v0
  let a := ym_dot u u
  let b := ym_dot u v
  let c := ym_dot v v
  let d := ym_dot u w
  let e := ym_dot v w
  let det := a * c - b * b
  if det = 0 then none
  else
    let t := (b * e - c * d) / det
    let s := (a * e - b * d) / det
    if t < ray.tmin ∨ t > ray.tmax then none
    else
      let s := ym_clamp s 0 1
      let p0 := Ray3.eval ⟨ray.o, ray.d, 0, 0⟩ t
      let p1 := Ray3.eval ⟨v0, v1.sub v0, 0, 0⟩ s
      let p01 := p0.sub p1
      let r := r0 * (1 - s) + r1 * s
      if ym_dot p01 p01 > r * r then none
      else some (t, ⟨s, 0⟩)

/-- `yb__intersect_triangle`: Möller–Trumbore ray/triangle test. -/
def yb__intersect_triangle (ray : Ray3) (v0 v1 v2 : Vec3) :
    Option (ℚ × Vec2) :=
  let edge1 := v1.sub v0
  let edge2 := v2.sub v0
  let pvec := ym_cross ray.d edge2
  let det := ym_dot edge1 pvec
  if det = 0 then none
  else
    let inv_det := 1 / det
    let tvec := ray.o.sub v0
    let u := ym_dot tvec pvec * inv_det
    if u < 0 ∨ u > 1 then none
    else
      let qvec := ym_cross tvec edge1
      let v := ym_dot ray.d qvec * inv_det
      if v < 0 ∨ u + v > 1 then none
      else
        let t := ym_dot edge2 qvec * inv_det
        if t < ray.tmin ∨ t > ray.tmax then none
        else some (t, ⟨u, v⟩)

/-- One axis of `yb__intersect_check_bbox`'s slab loop.  Returns the
clipped `(tmin, tmax)` or `none` once the intersection is empty.
A zero direction component makes the source compute `invd = ±∞`, whose
products with the offsets clip nothing when the origin lies inside the
slab (NaN compares false) and empty the range when it lies strictly
outside; the `d = 0` branch reproduces exactly that net behaviour. -/
def slabAxis (o d bmn bmx tmin tmax : ℚ) : Option (ℚ × ℚ) :=
  if d = 0 then
    if o < bmn ∨ o > bmx then none else some (tmin, tmax)
  else
    let invd := 1 / d
    let t0 := (bmn - o) * invd
    let t1 := (bmx - o) * invd
    let t0' := if invd < 0 then t1 else t0
    let t1' := if invd < 0 then t0 else t1
    let tmin' := if t0' > tmin then t0' else tmin
    let tmax' := if t1' < tmax then t1' else tmax
    if tmin' > tmax' then none else some (tmin', tmax')

/-- `yb__intersect_check_bbox`: slab test of a ray against an AABB over
the three axes.  Returns a boolean only; does not modify the ray. -/
def yb__intersect_check_bbox (ray : Ray3) (bbox : Range3) : Bool :=
  match slabAxis ray.o.x ray.d.x bbox.rmin.x bbox.rmax.x ray.tmin ray.tmax with
  | none => false
  | some (m1, x1) =>
    match slabAxis ray.o.y ray.d.y bbox.rmin.y bbox.rmax.y m1 x1 with
    | none => false
    | some (m2, x2) =>
      match slabAxis ray.o.z ray.d.z bbox.rmin.z bbox.rmax.z m2 x2 with
      | none => false
      | some _ => true

/-! ## Element-wise distance functions -/

/-- Largest `k ≤ bound` with `k² ≤ n` (structurally recursive so that
concrete witnesses evaluate in the kernel). -/
def natSqrtAux (n : ℕ) : ℕ → ℕ
  | 0 => 0
  | k + 1 => if (k + 1) * (k + 1) ≤ n then k + 1 else natSqrtAux n k

/-- Integer square root (rounded down). -/
def natSqrt (n : ℕ) : ℕ := natSqrtAux n n

/-- Model of `sqrtf` on the rationals (componentwise integer square root
of the reduced fraction, like Mathlib's `Rat.sqrt`): exact on perfect
squares (the only values reaching the theorems' evaluations), a rational
approximation elsewhere — just as `sqrtf` itself is approximate. -/
def sqrtq (q : ℚ) : ℚ := mkRat (natSqrt q.num.toNat) (natSqrt q.den)

/-- `yb__distance_point`: point vs fat point. Returns `some (dist, euv)`
when the source returns true. -/
def yb__distance_point (pos : Vec3) (dist_max : ℚ) (p : Vec3) (r : ℚ) :
    Option (ℚ × Vec2) :=
  let d2 := ym_distsqr pos p
  if d2 > (dist_max + r) * (dist_max + r) then none
  else some (sqrtq d2, ⟨0, 0⟩)

/-- `yb__closestuv_line`. -/
def yb__closestuv_line (pos v0 v1 : Vec3) : ℚ :=
  let ab := v1.sub v0
  let d := ym_dot ab ab
  let u := ym_dot (pos.sub v0) ab / d
  ym_clamp u 0 1

/-- `yb__distance_line`: point vs fat segment. -/
def yb__distance_line (pos : Vec3) (dist_max : ℚ) (v0 v1 : Vec3) (r0 r1 : ℚ) :
    Option (ℚ × Vec2) :=
  let u := yb__closestuv_line pos v0 v1
  let p := ym_lerp v0 v1 u
  let r := ym_lerpq r0 r1 u
  let d2 := ym_distsqr pos p
  if d2 > (dist_max + r) * (dist_max + r) then none
  else some (sqrtq d2, ⟨u, 0⟩)

/-- `yb__closestuv_triangle`: closest point on a triangle (all seven
Voronoi regions). -/
def yb__closestuv_triangle (pos v0 v1 v2 : Vec3) : Vec2 :=
  let ab := v1.sub v0
  let ac := v2.sub v0
  let ap := pos.sub v0
  let d1 := ym_dot ab ap
  let d2 := ym_dot ac ap
  if d1 ≤ 0 ∧ d2 ≤ 0 then ⟨0, 0⟩
  else
    let bp := pos.sub v1
    let d3 := ym_dot ab bp
    let d4 := ym_dot ac bp
    if d3 ≥ 0 ∧ d4 ≤ d3 then ⟨1, 0⟩
    else
      let vc := d1 * d4 - d3 * d2
      if vc ≤ 0 ∧ d1 ≥ 0 ∧ d3 ≤ 0 then ⟨d1 / (d1 - d3), 0⟩
      else
        let cp := pos.sub v2
        let d5 := ym_dot ab cp
        let d6 := ym_dot ac cp
        if d6 ≥ 0 ∧ d5 ≤ d6 then ⟨0, 1⟩
        else
          let vb := d5 * d2 - d1 * d6
          if vb ≤ 0 ∧ d2 ≥ 0 ∧ d6 ≤ 0 then ⟨0, d2 / (d2 - d6)⟩
          else
            let va := d3 * d6 - d5 * d4
            if va ≤ 0 ∧ d4 - d3 ≥ 0 ∧ d5 - d6 ≥ 0 then
              let w := (d4 - d3) / ((d4 - d3) + (d5 - d6))
              ⟨1 - w, w⟩
            else
              let denom := 1 / (va + vb + vc)
              let v := vb * denom
              let w := vc * denom
              ⟨v, w⟩

/-- `yb__distance_triangle`: point vs triangle with per-vertex radii. -/
def yb__distance_triangle (pos : Vec3) (dist_max : ℚ) (v0 v1 v2 : Vec3)
    (r0 r1 r2 : ℚ) : Option (ℚ × Vec2) :=
  let uv := yb__closestuv_triangle pos v0 v1 v2
  let p := ym_blerp v0 v1 v2 uv.x uv.y
  let r := ym_blerpq r0 r1 r2 uv.x uv.y
  let dd := ym_distsqr p pos
  if dd > (dist_max + r) * (dist_max + r) then none
  else some (sqrtq dd, uv)

/-- `yb__distance_check_bbox`: point vs AABB within a max distance
(sum of squared axis excesses, strict comparison). -/
def yb__distance_check_bbox (pos : Vec3) (dist_max : ℚ) (bbox_min bbox_max : Vec3) :
    Bool :=
  let ddx := (if pos.x < bbox_min.x then (bbox_min.x - pos.x) * (bbox_min.x - pos.x) else 0) +
    (if pos.x > bbox_max.x then (pos.x - bbox_max.x) * (pos.x - bbox_max.x) else 0)
  let ddy := (if pos.y < bbox_min.y then (bbox_min.y - pos.y) * (bbox_min.y - pos.y) else 0) +
    (if pos.y > bbox_max.y then (pos.y - bbox_max.y) * (pos.y - bbox_max.y) else 0)
  let ddz := (if pos.z < bbox_min.z then (bbox_min.z - pos.z) * (bbox_min.z - pos.z) else 0) +
    (if pos.z > bbox_max.z then (pos.z - bbox_max.z) * (pos.z - bbox_max.z) else 0)
  decide (ddx + ddy + ddz < dist_max * dist_max)

/-- `yb__overlap_bbox`: three-axis interval overlap of two AABBs. -/
def yb__overlap_bbox (b1min b1max b2min b2max : Vec3) : Bool :=
  !(b1max.x < b2min.x ∨ b1min.x > b2max.x ∨
    b1max.y < b2min.y ∨ b1min.y > b2max.y ∨
    b1max.z < b2min.z ∨ b1min.z > b2max.z)

/-! ## BVH data structure -/

/-- `YB__BVH_MINPRIMS`. -/
def YB__BVH_MINPRIMS : ℕ := 4

/-- `yb__bvhn`: a 32-byte BVH node.  For a leaf, `start`/`count` index into
the `sorted_prim` permutation; for an internal node, `start` points at its
two children in the node array.  The source leaves `axis` uninitialized on
leaves; the model defaults it to 0. -/
structure BVHNode where
  bbox : Range3
  start : ℕ
  count : ℕ
  isleaf : Bool
  axis : ℕ
deriving DecidableEq, Repr

def defaultNode : BVHNode := ⟨⟨0, 0⟩, 0, 0, true, 0⟩

/-- The per-shape primitive views.  The source stores one `const int*`
buffer reinterpreted through a union according to `etype`
(`yb_etype_point = 1`, `line = 2`, `triangle = 3`); the closed inductive
mirrors the spec's closed tagged variant, making the `assert(false)`
default switch arms unrepresentable. -/
inductive ShapeElems where
  | point (elem : List ℕ)
  | line (elem : List (ℕ × ℕ))
  | triangle (elem : List (ℕ × ℕ × ℕ))
deriving DecidableEq, Repr

def ShapeElems.etype : ShapeElems → ℕ
  | .point _ => 1
  | .line _ => 2
  | .triangle _ => 3

def ShapeElems.nelems : ShapeElems → ℕ
  | .point l => l.length
  | .line l => l.length
  | .triangle l => l.length

/-- `yb_shape_bvh`: node array plus borrowed views of the primitive data.
A null `radius` pointer is modelled by `none`. -/
structure ShapeBVH where
  elems : ShapeElems
  pos : List Vec3
  radius : Option (List ℚ)
  heuristic : ℕ
  nodes : ℕ → BVHNode
  nnodes : ℕ
  sorted_prim : List ℕ

def ShapeBVH.nelems (sh : ShapeBVH) : ℕ := sh.elems.nelems

/-- `yb_scene_bvh`: scene-level node array over per-shape BVHs with their
transforms and cached inverse transforms. -/
structure SceneBVH where
  shapes : List ShapeBVH
  xforms : List Affine3
  inv_xforms : List Affine3
  heuristic : ℕ
  nodes : ℕ → BVHNode
  nnodes : ℕ
  sorted_prim : List ℕ

def SceneBVH.nshapes (scene : SceneBVH) : ℕ := scene.shapes.length

/-- Crash-aware results: `crash` models undefined behaviour (a read through
a null `radius` pointer) and exhausted fuel; the theorems' hypotheses rule
both out. -/
inductive CrashOr (α : Type) where
  | crash
  | ok (a : α)
deriving DecidableEq, Repr

/-! ## BVH build functions -/

/-- `yb__bound_prim`: a staging record for the build.  The `sah_cost_left`
and `sah_cost_right` scratch fields of the source are write-only relative
to everything but the SAH scan; the model computes those costs in plain
lists instead of scratch fields. -/
structure BoundPrim where
  bbox : Range3
  center : Vec3
  pid : ℕ
deriving DecidableEq, Repr

instance : Inhabited BoundPrim := ⟨⟨⟨0, 0⟩, 0, 0⟩⟩

/-- Sort key of a record along an axis: `(&t.center.x)[axis]`. -/
def bpKey (a : BoundPrim) (axis : ℕ) : ℚ := a.center.comp axis

/-- The sift-down phase of `yb__heapsort_bound_prim`: starting at `index`
with the hole value `t`, walk down the heap of size `n`.  The extra fuel
argument makes the recursion structural (the source's loop advances
`child ← 2·child+1`, so `n` steps always suffice and the fuel chosen at
the call sites is never exhausted; the fallback places the hole value,
which keeps even the degenerate case a permutation). -/
def siftDown (arr : List BoundPrim) (t : BoundPrim) (index n axis : ℕ) :
    ℕ → List BoundPrim
  | 0 => arr.set index t
  | fuel + 1 =>
    let child := index * 2 + 1
    if child < n then
      let child' := if child + 1 < n ∧
          bpKey (arr.getD (child + 1) default) axis > bpKey (arr.getD child default) axis
        then child + 1 else child
      if bpKey (arr.getD child' default) axis > bpKey t axis then
        siftDown (arr.set index (arr.getD child' default)) t child' n axis fuel
      else arr.set index t
    else arr.set index t

/-- The outer loop of `yb__heapsort_bound_prim`: heapify (while
`parent > 0`) then repeatedly extract the maximum.  Each iteration
decreases `parent` or `n`, so the fuel chosen at the call site is never
exhausted. -/
def heapLoop (arr : List BoundPrim) (n parent axis : ℕ) : ℕ → List BoundPrim
  | 0 => arr
  | fuel + 1 =>
    if parent > 0 then
      let parent' := parent - 1
      let t := arr.getD parent' default
      heapLoop (siftDown arr t parent' n axis n) n parent' axis fuel
    else if n ≤ 1 then arr
    else
      let n' := n - 1
      let t := arr.getD n' default
      let arr' := arr.set n' (arr.getD 0 default)
      heapLoop (siftDown arr' t 0 n' axis n') n' 0 axis fuel

/-- `yb__heapsort_bound_prim` (the selected `yb__sort_bound_prim`):
in-place heapsort of a record array along an axis. -/
def yb__heapsort_bound_prim (arr : List BoundPrim) (axis : ℕ) : List BoundPrim :=
  if arr.length = 0 then arr
  else heapLoop arr arr.length (arr.length / 2) axis (2 * arr.length + 2)

/-- The subrange `[start, start+len)` of a list. -/
def subList (l : List α) (start len : ℕ) : List α := (l.drop start).take len

/-- `yb__sort_bound_prim(sorted_prim + start, len, axis)`: sort a subrange
in place (pointer arithmetic modelled by splicing the sorted subrange). -/
def sortSub (l : List BoundPrim) (start len axis : ℕ) : List BoundPrim :=
  l.take start ++ yb__heapsort_bound_prim (subList l start len) axis ++ l.drop (start + len)

/-- One sweep of the SAH cost computation: `cost[i]` is the half-surface
area of the bbox of the first `i+1` records times `i+1`.  The accumulator
starts as the invalid sentinel (`none`). -/
def sahSweep : List BoundPrim → Option Range3 → ℕ → List ℚ
  | [], _, _ => []
  | p :: rest, acc, i =>
    let sb := match acc with
      | none => p.bbox
      | some r => ym_rexpandr r p.bbox
    let sz := ym_rsize sb
    (sz.x * sz.y + sz.x * sz.z + sz.y * sz.z) * ((i : ℚ) + 1) ::
      sahSweep rest (some sb) (i + 1)

/-- One candidate position of the SAH scan: position `i = start + 2 + k`
(the source iterates `i` from `start+2` to `end-2` inclusive), updating
the running best `(cost, axis, mid)` when the cost improves strictly
(the source's `min_cost` starts at `HUGE_VALF`, modelled by `none`). -/
def sahScanStep (costLeft costRight : List ℚ) (start e a : ℕ)
    (best : Option (ℚ × ℕ × ℕ)) (k : ℕ) : Option (ℚ × ℕ × ℕ) :=
  let i := start + 2 + k
  if i ≤ e - 2 then
    let cost := costLeft.getD (i - 1 - start) 0 + costRight.getD (i - start) 0
    match best with
    | none => some (cost, a, i)
    | some (mc, ba, bm) =>
      if mc > cost then some (cost, a, i) else some (mc, ba, bm)
  else best

/-- The SAH scan over candidate split positions `i ∈ [start+2, e-2]` for
one axis. -/
def sahScan (costLeft costRight : List ℚ) (start e a : ℕ)
    (best : Option (ℚ × ℕ × ℕ)) : Option (ℚ × ℕ × ℕ) :=
  (List.range (e - 1 - (start + 2) + 1)).foldl (sahScanStep costLeft costRight start e a) best

/-- One axis pass of the SAH scan: sort the subrange along axis `a`,
compute the two cost sweeps, and update the running best `(cost, axis,
mid)`. -/
def sahAxisStep (start e : ℕ) (st : Option (ℚ × ℕ × ℕ) × List BoundPrim) (a : ℕ) :
    Option (ℚ × ℕ × ℕ) × List BoundPrim :=
  let count := e - start
  let prims' := sortSub st.2 start count a
  let sub := subList prims' start count
  let costLeft := sahSweep sub none 0
  let costRight := (sahSweep sub.reverse none 0).reverse
  (sahScan costLeft costRight start e a st.1, prims')

/-- `yb__split_axis`: choose the split axis and split index for the
subrange `[start, e)` according to the heuristic (`yb_htype_default = 0`,
`equalnum = 1`, `sah = 2`).  The SAH case sorts the subrange once per
axis.  Returns `(axis, mid, updated records)`; an out-of-range heuristic
(the source's `assert(false)` contract violation) yields junk `(0, 0)`. -/
def yb__split_axis (prims : List BoundPrim) (start e heuristic : ℕ) :
    ℕ × ℕ × List BoundPrim :=
  match heuristic with
  | 1 =>
    let bbox := bboxOfPts ((subList prims start (e - start)).map (·.center))
    let sz := ym_rsize bbox
    let axis := if sz.x ≥ sz.y ∧ sz.x ≥ sz.z then 0
      else if sz.y ≥ sz.x ∧ sz.y ≥ sz.z then 1 else 2
    (axis, (start + e) / 2, prims)
  | 0 | 2 =>
    let res := [0, 1, 2].foldl (sahAxisStep start e) (none, prims)
    match res.1 with
    | some (_, a, m) => (a, m, res.2)
    | none => (0, 0, res.2)
  | _ => (0, 0, prims)

/-- Whether a heuristic tag is one the source accepts without asserting. -/
def heuristicOk (h : ℕ) : Prop := h = 0 ∨ h = 1 ∨ h = 2

instance (h : ℕ) : Decidable (heuristicOk h) := by
  unfold heuristicOk; infer_instance

/-- Pointwise update of the node store. -/
def updNode (nodes : ℕ → BVHNode) (i : ℕ) (v : BVHNode) : ℕ → BVHNode :=
  fun j => if j = i then v else nodes j

/-- `yb__make_node`: initialize node `nodeid` for the records in
`[start, e)`, either as a leaf or by splitting and recursing into two
freshly allocated children.  `fuel` bounds the recursion depth (the
source recurses structurally; `none` = exhausted fuel, unreachable under
the theorems' hypotheses). -/
def yb__make_node (fuel : ℕ) (nodes : ℕ → BVHNode) (nnodes : ℕ)
    (prims : List BoundPrim) (nodeid start e heuristic : ℕ) :
    Option ((ℕ → BVHNode) × ℕ × List BoundPrim) :=
  match fuel with
  | 0 => none
  | fuel + 1 =>
    let bbox := bboxOfRs ((subList prims start (e - start)).map (·.bbox))
    if e - start ≤ YB__BVH_MINPRIMS then
      some (updNode nodes nodeid ⟨bbox, start, e - start, true, 0⟩, nnodes, prims)
    else
      let sp := yb__split_axis prims start e heuristic
      let axis := sp.1
      let mid := sp.2.1
      let prims₂ := sortSub sp.2.2 start (e - start) axis
      let c := nnodes
      let nodes₁ := updNode nodes nodeid ⟨bbox, c, 2, false, axis⟩
      match yb__make_node fuel nodes₁ (nnodes + 2) prims₂ c start mid heuristic with
      | none => none
      | some (nodes₂, nn₂, prims₃) =>
        match yb__make_node fuel nodes₂ nn₂ prims₃ (c + 1) mid e heuristic with
        | none => none
        | some (nodes₃, nn₃, prims₄) => some (nodes₃, nn₃, prims₄)

/-- The per-primitive staging bounds of `yb_build_shape_bvh`: points as
spheres of radius `r` (0 if the radius view is absent), lines as thick
rods (the source asserts `radius` but still guards each read), triangles
as the hull of their vertices. -/
def boundPrimsOfShape (sh : ShapeBVH) : List BoundPrim :=
  match sh.elems with
  | .point elem =>
    (List.range elem.length).map (fun i =>
      let f := elem.getD i 0
      let r0 := match sh.radius with
        | some rad => rad.getD f 0
        | none => 0
      let p := sh.pos.getD f 0
      let bbox := ym_rexpand (ym_rexpand ⟨p.sub (Vec3.splat r0), p.sub (Vec3.splat r0)⟩
        (p.sub (Vec3.splat r0))) (p.add (Vec3.splat r0))
      ⟨bbox, ym_rcenter bbox, i⟩)
  | .line elem =>
    (List.range elem.length).map (fun i =>
      let f := elem.getD i (0, 0)
      let r0 := match sh.radius with
        | some rad => rad.getD f.1 0
        | none => 0
      let r1 := match sh.radius with
        | some rad => rad.getD f.2 0
        | none => 0
      let p0 := sh.pos.getD f.1 0
      let p1 := sh.pos.getD f.2 0
      let bbox := bboxOfPts [p0.sub (Vec3.splat r0), p0.add (Vec3.splat r0),
        p1.sub (Vec3.splat r1), p1.add (Vec3.splat r1)]
      ⟨bbox, ym_rcenter bbox, i⟩)
  | .triangle elem =>
    (List.range elem.length).map (fun i =>
      let f := elem.getD i (0, 0, 0)
      let bbox := bboxOfPts [sh.pos.getD f.1 0, sh.pos.getD f.2.1 0, sh.pos.getD f.2.2 0]
      ⟨bbox, ym_rcenter bbox, i⟩)

/-- The build-time AABB of primitive `i` of a shape (the `bbox` field the
staging record for `i` starts with). -/
def primBuildBBox (sh : ShapeBVH) (i : ℕ) : Range3 :=
  ((boundPrimsOfShape sh).getD i default).bbox

/-- `yb_build_shape_bvh`: stage the bounds, run the recursive builder into
a fresh node store, and record the primitive permutation. -/
def yb_build_shape_bvh (sh : ShapeBVH) : Option ShapeBVH :=
  let bps := boundPrimsOfShape sh
  match yb__make_node (sh.nelems + 1) (fun _ => defaultNode) 1 bps 0 0 sh.nelems
      sh.heuristic with
  | none => none
  | some (nodes, nn, bps') =>
    some { sh with nodes := nodes, nnodes := nn, sorted_prim := bps'.map (·.pid) }

/-- The staging record of shape `i` for the scene build: the shape's root
AABB transformed by `xforms[i]` via its eight corners. -/
def boundPrimsOfScene (shapes : List ShapeBVH) (xforms : List Affine3) :
    List BoundPrim :=
  (List.range shapes.length).map (fun i =>
    let sh := shapes.getD i ⟨.point [], [], none, 0, fun _ => defaultNode, 0, []⟩
    let xf := xforms.getD i ym_identity_affine3f
    let bbox := yb__transform_bbox xf (sh.nodes 0).bbox
    ⟨bbox, ym_rcenter bbox, i⟩)

/-- `yb_build_scene_bvh`: build every shape BVH, then build the scene's
own node array over the transformed shape-root AABBs. -/
def yb_build_scene_bvh (scene : SceneBVH) : Option SceneBVH :=
  let rec buildShapes : List ShapeBVH → Option (List ShapeBVH)
    | [] => some []
    | sh :: rest =>
      match yb_build_shape_bvh sh with
      | none => none
      | some sh' =>
        match buildShapes rest with
        | none => none
        | some rest' => some (sh' :: rest')
  match buildShapes scene.shapes with
  | none => none
  | some shapes' =>
    let bps := boundPrimsOfScene shapes' scene.xforms
    match yb__make_node (scene.shapes.length + 1) (fun _ => defaultNode) 1 bps 0 0
        scene.shapes.length scene.heuristic with
    | none => none
    | some (nodes, nn, bps') =>
      some { scene with
        shapes := shapes', nodes := nodes, nnodes := nn,
        sorted_prim := bps'.map (·.pid) }

/-- The default shape used for out-of-range `shapes[i]` reads. -/
def emptyShape : ShapeBVH := ⟨.point [], [], none, 0, fun _ => defaultNode, 0, []⟩

/-! ## Refit -/

/-- `yb__recompute_scene_bounds`: post-order recomputation of the scene
node bboxes, processing the listed nodes in order (the source's
`for (i) { recurse(child i); expand }` loop becomes the recursive call on
the child list followed by expanding over the recomputed child bboxes;
identical whenever the child subtrees are disjoint, as in every built
tree).  NOTE: the leaf case reads `bvh->shapes[0]->nodes[0].bbox` —
shape 0's root — for every referenced shape `idx`, exactly as the source
does on line 1584. -/
def yb__recompute_scene_bounds (scene : SceneBVH) :
    ℕ → List ℕ → (ℕ → BVHNode) → Option (ℕ → BVHNode)
  | 0, _, _ => none
  | _ + 1, [], nodes => some nodes
  | fuel + 1, nodeid :: rest, nodes =>
    let node := nodes nodeid
    if node.isleaf then
      let pts := (List.range node.count).flatMap (fun i =>
        let idx := scene.sorted_prim.getD (node.start + i) 0
        let bbox := ((scene.shapes.getD 0 emptyShape).nodes 0).bbox
        let xf := scene.xforms.getD idx ym_identity_affine3f
        (bboxCorners bbox).map (ym_transform_point xf))
      yb__recompute_scene_bounds scene fuel rest
        (updNode nodes nodeid { node with bbox := bboxOfPts pts })
    else
      match yb__recompute_scene_bounds scene fuel
          ((List.range node.count).map (node.start + ·)) nodes with
      | none => none
      | some nds =>
        let bbox := bboxOfRs ((List.range node.count).map (fun i => (nds (node.start + i)).bbox))
        yb__recompute_scene_bounds scene fuel rest
          (updNode nds nodeid { node with bbox := bbox })

/-- `yb_refit_scene_bvh`: store the new transforms (and their inverses),
then recompute all node bounds from the root. -/
def yb_refit_scene_bvh (scene : SceneBVH) (xforms : List Affine3) :
    Option SceneBVH :=
  let scene' := { scene with xforms := xforms, inv_xforms := xforms.map ym_inverse }
  match yb__recompute_scene_bounds scene' (3 ^ (scene.nnodes + 1)) [0] scene'.nodes with
  | none => none
  | some nodes' => some { scene' with nodes := nodes' }

/-! ## BVH ray intersection -/

/-- Fold a crash-aware step over a list. -/
def crashFold (f : σ → α → CrashOr σ) : List α → σ → CrashOr σ
  | [], s => .ok s
  | a :: as, s =>
    match f s a with
    | .crash => .crash
    | .ok s' => crashFold f as s'

/-- The primitive indices referenced by a leaf, in iteration order
(`bvh->sorted_prim[node->start + i]` for `i < node->count`). -/
def leafPrims (sorted_prim : List ℕ) (node : BVHNode) : List ℕ :=
  (List.range node.count).map (fun i => sorted_prim.getD (node.start + i) 0)

/-- The node indices an internal node pushes, so that the head of the
resulting stack is processed first.  The source pushes `start + i` for
increasing `i` when the ray direction along the split axis is
non-negative (so `start + count - 1` is popped first), and in decreasing
order otherwise. -/
def childPush (node : BVHNode) (d : Vec3) : List ℕ :=
  let ids := (List.range node.count).map (node.start + ·)
  if d.comp node.axis ≥ 0 then ids.reverse else ids

/-- The state of `yb__intersect_bvh` on a shape BVH: the local ray (whose
`tmax` the primitive tests tighten in place) and the `eid`/`euv` output
cells.  `hit` is the local flag. -/
structure SITState where
  ray : Ray3
  hit : Bool
  eid : ℕ
  euv : Vec2
deriving DecidableEq, Repr

/-- One primitive test inside a shape leaf.  The point and line arms read
`sbvh->radius[f]` without a null check (unlike the build and the distance
queries), so an absent radius view is a crash. -/
def shapePrimStep (sh : ShapeBVH) (s : SITState) (idx : ℕ) : CrashOr SITState :=
  match sh.elems with
  | .point elem =>
    let f := elem.getD idx 0
    match sh.radius with
    | none => .crash
    | some rad =>
      match yb__intersect_point s.ray (sh.pos.getD f 0) (rad.getD f 0) with
      | none => .ok s
      | some (t, uv) => .ok ⟨{ s.ray with tmax := t }, true, idx, uv⟩
  | .line elem =>
    let f := elem.getD idx (0, 0)
    match sh.radius with
    | none => .crash
    | some rad =>
      match yb__intersect_line s.ray (sh.pos.getD f.1 0) (sh.pos.getD f.2 0)
          (rad.getD f.1 0) (rad.getD f.2 0) with
      | none => .ok s
      | some (t, uv) => .ok ⟨{ s.ray with tmax := t }, true, idx, uv⟩
  | .triangle elem =>
    let f := elem.getD idx (0, 0, 0)
    match yb__intersect_triangle s.ray (sh.pos.getD f.1 0) (sh.pos.getD f.2.1 0)
        (sh.pos.getD f.2.2 0) with
    | none => .ok s
    | some (t, uv) => .ok ⟨{ s.ray with tmax := t }, true, idx, uv⟩

/-- The stack-based walk of `yb__intersect_bvh` on a shape BVH
(`ntype ∈ {point, line, triangle}`; the `yb__ntype_bvh` arm is the scene
walk below). -/
def shapeILoop (sh : ShapeBVH) (early : Bool) :
    ℕ → List ℕ → SITState → CrashOr SITState
  | 0, _, _ => .crash
  | _ + 1, [], s => .ok s
  | fuel + 1, nid :: rest, s =>
    if early && s.hit then .ok s
    else
      let node := sh.nodes nid
      if !yb__intersect_check_bbox s.ray node.bbox then shapeILoop sh early fuel rest s
      else if node.isleaf then
        match crashFold (shapePrimStep sh) (leafPrims sh.sorted_prim node) s with
        | .crash => .crash
        | .ok s' => shapeILoop sh early fuel rest s'
      else shapeILoop sh early fuel (childPush node s.ray.d ++ rest) s

/-- Traversal fuel: `3 ^ (nnodes + 1)` dominates the stack measure of any
well-formed tree. -/
def shapeFuel (sh : ShapeBVH) : ℕ := 3 ^ (sh.nnodes + 1)

/-- `yb__intersect_bvh` called on a shape BVH: run the walk from the root
and write the `ray_t` cell only on hit (`eid`/`euv` cells are written
during the walk). -/
def yb__intersect_shape (sh : ShapeBVH) (early : Bool) (tray : Ray3)
    (rayt0 : ℚ) (eid0 : ℕ) (euv0 : Vec2) : CrashOr (Bool × ℚ × ℕ × Vec2) :=
  match shapeILoop sh early (shapeFuel sh) [0] ⟨tray, false, eid0, euv0⟩ with
  | .crash => .crash
  | .ok s => .ok (s.hit, if s.hit then s.ray.tmax else rayt0, s.eid, s.euv)

/-- The state of `yb__intersect_bvh` on the scene BVH: the world ray and
the `sid`/`eid`/`euv` output cells. -/
structure SceneITState where
  ray : Ray3
  hit : Bool
  sid : ℕ
  eid : ℕ
  euv : Vec2
deriving DecidableEq, Repr

/-- One sub-BVH test inside a scene leaf: transform the ray into shape
space through the cached inverse and recurse; on an inner hit the outer
`ray.tmax` cell receives the inner result and `sid` the shape index. -/
def scenePrimStep (scene : SceneBVH) (early : Bool) (s : SceneITState)
    (idx : ℕ) : CrashOr SceneITState :=
  let inv := scene.inv_xforms.getD idx ym_identity_affine3f
  let sh := scene.shapes.getD idx emptyShape
  let tray : Ray3 := ⟨ym_transform_point inv s.ray.o, ym_transform_vector inv s.ray.d,
    s.ray.tmin, s.ray.tmax⟩
  match yb__intersect_shape sh early tray s.ray.tmax s.eid s.euv with
  | .crash => .crash
  | .ok (hit', t', eid', euv') =>
    .ok ⟨{ s.ray with tmax := t' }, s.hit || hit', if hit' then idx else s.sid, eid', euv'⟩

/-- The stack-based walk of `yb__intersect_bvh` on the scene BVH. -/
def sceneILoop (scene : SceneBVH) (early : Bool) :
    ℕ → List ℕ → SceneITState → CrashOr SceneITState
  | 0, _, _ => .crash
  | _ + 1, [], s => .ok s
  | fuel + 1, nid :: rest, s =>
    if early && s.hit then .ok s
    else
      let node := scene.nodes nid
      if !yb__intersect_check_bbox s.ray node.bbox then sceneILoop scene early fuel rest s
      else if node.isleaf then
        match crashFold (scenePrimStep scene early) (leafPrims scene.sorted_prim node) s with
        | .crash => .crash
        | .ok s' => sceneILoop scene early fuel rest s'
      else sceneILoop scene early fuel (childPush node s.ray.d ++ rest) s

def sceneFuel (scene : SceneBVH) : ℕ := 3 ^ (scene.nnodes + 1)

/-- The out-parameter cells of a ray query (`ray_t`, `sid`, `eid`, `euv`). -/
structure Isect where
  ray_t : ℚ
  sid : ℕ
  eid : ℕ
  euv : Vec2
deriving DecidableEq, Repr

/-- `yb_intersect_scene_bvh`: closest-hit query.  Takes the cells'
incoming values and returns `(hit, final cells)`. -/
def yb_intersect_scene_bvh (scene : SceneBVH) (ray : Ray3) (cells : Isect) :
    CrashOr (Bool × Isect) :=
  match sceneILoop scene false (sceneFuel scene) [0]
      ⟨ray, false, cells.sid, cells.eid, cells.euv⟩ with
  | .crash => .crash
  | .ok s => .ok (s.hit, ⟨if s.hit then s.ray.tmax else cells.ray_t, s.sid, s.eid, s.euv⟩)

/-- `yb_hit_scene_bvh`: any-hit query (the out cells are locals that the
wrapper discards). -/
def yb_hit_scene_bvh (scene : SceneBVH) (ray : Ray3) : CrashOr Bool :=
  match sceneILoop scene true (sceneFuel scene) [0] ⟨ray, false, 0, 0, ⟨0, 0⟩⟩ with
  | .crash => .crash
  | .ok s => .ok s.hit

/-! ## BVH closest-element lookup -/

/-- The state of `yb__neighbour_bvh`: the running `dist_max` bound (which
the distance predicates overwrite in place) and the `eid`/`euv` cells. -/
structure NBState where
  dist_max : ℚ
  hit : Bool
  eid : ℕ
  euv : Vec2
deriving DecidableEq, Repr

/-- One primitive test inside a shape leaf of the closest-point walk.
Unlike the ray walk, every radius read here is null-guarded
(`(sbvh->radius) ? sbvh->radius[f] : 0`). -/
def shapeNBStep (sh : ShapeBVH) (pt : Vec3) (s : NBState) (idx : ℕ) : NBState :=
  let rad := fun (f : ℕ) =>
    match sh.radius with
    | some r => r.getD f 0
    | none => 0
  match sh.elems with
  | .point elem =>
    let f := elem.getD idx 0
    match yb__distance_point pt s.dist_max (sh.pos.getD f 0) (rad f) with
    | none => s
    | some (d, uv) => ⟨d, true, idx, uv⟩
  | .line elem =>
    let f := elem.getD idx (0, 0)
    match yb__distance_line pt s.dist_max (sh.pos.getD f.1 0) (sh.pos.getD f.2 0)
        (rad f.1) (rad f.2) with
    | none => s
    | some (d, uv) => ⟨d, true, idx, uv⟩
  | .triangle elem =>
    let f := elem.getD idx (0, 0, 0)
    match yb__distance_triangle pt s.dist_max (sh.pos.getD f.1 0) (sh.pos.getD f.2.1 0)
        (sh.pos.getD f.2.2 0) (rad f.1) (rad f.2.1) (rad f.2.2) with
    | none => s
    | some (d, uv) => ⟨d, true, idx, uv⟩

/-- The stack-based walk of `yb__neighbour_bvh` on a shape BVH (children
are pushed in increasing order; no axis ordering). -/
def shapeNBLoop (sh : ShapeBVH) (early : Bool) (pt : Vec3) :
    ℕ → List ℕ → NBState → CrashOr NBState
  | 0, _, _ => .crash
  | _ + 1, [], s => .ok s
  | fuel + 1, nid :: rest, s =>
    if early && s.hit then .ok s
    else
      let node := sh.nodes nid
      if !yb__distance_check_bbox pt s.dist_max node.bbox.rmin node.bbox.rmax then
        shapeNBLoop sh early pt fuel rest s
      else if node.isleaf then
        shapeNBLoop sh early pt fuel rest
          ((leafPrims sh.sorted_prim node).foldl (shapeNBStep sh pt) s)
      else
        shapeNBLoop sh early pt fuel
          (((List.range node.count).map (node.start + ·)).reverse ++ rest) s

/-- `yb__neighbour_bvh` called on a shape BVH: the `dist` cell is written
only on hit. -/
def yb__neighbour_shape (sh : ShapeBVH) (early : Bool) (tpt : Vec3)
    (dist_max : ℚ) (dist0 : ℚ) (eid0 : ℕ) (euv0 : Vec2) :
    CrashOr (Bool × ℚ × ℕ × Vec2) :=
  match shapeNBLoop sh early tpt (shapeFuel sh) [0] ⟨dist_max, false, eid0, euv0⟩ with
  | .crash => .crash
  | .ok s => .ok (s.hit, if s.hit then s.dist_max else dist0, s.eid, s.euv)

/-- The scene-level state of `yb__neighbour_bvh`. -/
structure SceneNBState where
  dist_max : ℚ
  hit : Bool
  sid : ℕ
  eid : ℕ
  euv : Vec2
deriving DecidableEq, Repr

/-- One sub-BVH test inside a scene leaf of the closest-point walk: the
query point is transformed by the cached inverse, and the inner call both
bounds and overwrites the outer `dist_max`. -/
def sceneNBStep (scene : SceneBVH) (early : Bool) (pt : Vec3)
    (s : SceneNBState) (idx : ℕ) : CrashOr SceneNBState :=
  let inv := scene.inv_xforms.getD idx ym_identity_affine3f
  let sh := scene.shapes.getD idx emptyShape
  let tpt := ym_transform_point inv pt
  match yb__neighbour_shape sh early tpt s.dist_max s.dist_max s.eid s.euv with
  | .crash => .crash
  | .ok (hit', d', eid', euv') =>
    .ok ⟨d', s.hit || hit', if hit' then idx else s.sid, eid', euv'⟩

/-- The stack-based walk of `yb__neighbour_bvh` on the scene BVH. -/
def sceneNBLoop (scene : SceneBVH) (early : Bool) (pt : Vec3) :
    ℕ → List ℕ → SceneNBState → CrashOr SceneNBState
  | 0, _, _ => .crash
  | _ + 1, [], s => .ok s
  | fuel + 1, nid :: rest, s =>
    if early && s.hit then .ok s
    else
      let node := scene.nodes nid
      if !yb__distance_check_bbox pt s.dist_max node.bbox.rmin node.bbox.rmax then
        sceneNBLoop scene early pt fuel rest s
      else if node.isleaf then
        match crashFold (sceneNBStep scene early pt) (leafPrims scene.sorted_prim node) s with
        | .crash => .crash
        | .ok s' => sceneNBLoop scene early pt fuel rest s'
      else
        sceneNBLoop scene early pt fuel
          (((List.range node.count).map (node.start + ·)).reverse ++ rest) s

/-- The out-parameter cells of a closest-point query. -/
structure NIsect where
  dist : ℚ
  sid : ℕ
  eid : ℕ
  euv : Vec2
deriving DecidableEq, Repr

/-- `yb_neighbour_scene_bvh`: closest-element query, with the optional
`req_sid ≥ 0` restriction to a single shape. -/
def yb_neighbour_scene_bvh (scene : SceneBVH) (pt : Vec3) (max_dist : ℚ)
    (req_sid : ℤ) (cells : NIsect) : CrashOr (Bool × NIsect) :=
  if req_sid ≥ 0 then
    let inv := scene.inv_xforms.getD req_sid.toNat ym_identity_affine3f
    let sh := scene.shapes.getD req_sid.toNat emptyShape
    let tpt := ym_transform_point inv pt
    match yb__neighbour_shape sh false tpt max_dist cells.dist cells.eid cells.euv with
    | .crash => .crash
    | .ok (hit, d, eid, euv) =>
      .ok (hit, ⟨d, if hit then req_sid.toNat else cells.sid, eid, euv⟩)
  else
    match sceneNBLoop scene false pt (sceneFuel scene) [0]
        ⟨max_dist, false, cells.sid, cells.eid, cells.euv⟩ with
    | .crash => .crash
    | .ok s =>
      .ok (s.hit, ⟨if s.hit then s.dist_max else cells.dist, s.sid, s.eid, s.euv⟩)

/-! ## Overlap query -/

/-- The leaf/leaf double loop of `yb_overlap_shape_bounds`, in iteration
order.  NOTE: `bbox2` is computed from `bvh->shapes[idx1]->nodes[0].bbox`
— shape `idx1`'s root — exactly as the source does on line 1976. -/
def overlapLeafPairs (scene : SceneBVH) (exclude_self : Bool)
    (node1 node2 : BVHNode) : List (ℕ × ℕ) :=
  (List.range node1.count).flatMap (fun i1 =>
    (List.range node2.count).filterMap (fun i2 =>
      let idx1 := scene.sorted_prim.getD (node1.start + i1) 0
      let idx2 := scene.sorted_prim.getD (node2.start + i2) 0
      if exclude_self && idx1 == idx2 then none
      else
        let bbox1 := yb__transform_bbox (scene.xforms.getD idx1 ym_identity_affine3f)
          (((scene.shapes.getD idx1 emptyShape).nodes 0).bbox)
        let bbox2 := yb__transform_bbox (scene.xforms.getD idx2 ym_identity_affine3f)
          (((scene.shapes.getD idx1 emptyShape).nodes 0).bbox)
        if !yb__overlap_bbox bbox1.rmin bbox1.rmax bbox2.rmin bbox2.rmax then none
        else some (idx1, idx2)))

/-- The paired-stack walk of `yb_overlap_shape_bounds`.  The stack holds
raw node indices exactly as the source's `int node_stack[256]`; two are
popped per iteration.  Emitted pairs are accumulated in callback order. -/
def overlapLoop (scene : SceneBVH) (exclude_self : Bool) :
    ℕ → List ℕ → List (ℕ × ℕ) → CrashOr (List (ℕ × ℕ))
  | 0, _, _ => .crash
  | _ + 1, [], acc => .ok acc
  | _ + 1, [_], acc => .ok acc
  | fuel + 1, n1 :: n2 :: rest, acc =>
    let node1 := scene.nodes n1
    let node2 := scene.nodes n2
    if !yb__overlap_bbox node1.bbox.rmin node1.bbox.rmax node2.bbox.rmin node2.bbox.rmax then
      overlapLoop scene exclude_self fuel rest acc
    else if node1.isleaf && node2.isleaf then
      overlapLoop scene exclude_self fuel rest
        (acc ++ overlapLeafPairs scene exclude_self node1 node2)
    else if node1.isleaf then
      overlapLoop scene exclude_self fuel
        ((List.range node2.count).foldl (fun st i => (node2.start + i) :: n1 :: st) rest) acc
    else
      overlapLoop scene exclude_self fuel
        ((List.range node1.count).foldl (fun st i => n2 :: (node1.start + i) :: st) rest) acc

/-- `yb_overlap_shape_bounds`: returns the hit count and the emitted pairs
(the callback is modelled by accumulation in call order). -/
def yb_overlap_shape_bounds (scene : SceneBVH) (exclude_self : Bool) :
    CrashOr (ℕ × List (ℕ × ℕ)) :=
  match overlapLoop scene exclude_self (4 ^ (scene.nnodes + 2)) [0, 0] [] with
  | .crash => .crash
  | .ok l => .ok (l.length, l)

/-! ## Specification-side (brute force) definitions

These definitions follow the spec's words ("a brute-force test over all
primitives for the same ray"), for the refinement claims that compare the
traversal against brute force. -/

/-- The primitive-level ray test of shape `sh` against element `eidx`,
with absent radii read as zero (the hypotheses of the refinement theorems
require radii to be present, where this agrees with the source's
unguarded reads). -/
def primIsect (sh : ShapeBVH) (ray : Ray3) (eidx : ℕ) : Option (ℚ × Vec2) :=
  let rad := fun (f : ℕ) =>
    match sh.radius with
    | some r => r.getD f 0
    | none => 0
  match sh.elems with
  | .point elem =>
    let f := elem.getD eidx 0
    yb__intersect_point ray (sh.pos.getD f 0) (rad f)
  | .line elem =>
    let f := elem.getD eidx (0, 0)
    yb__intersect_line ray (sh.pos.getD f.1 0) (sh.pos.getD f.2 0) (rad f.1) (rad f.2)
  | .triangle elem =>
    let f := elem.getD eidx (0, 0, 0)
    yb__intersect_triangle ray (sh.pos.getD f.1 0) (sh.pos.getD f.2.1 0)
      (sh.pos.getD f.2.2 0)

/-- The ray of shape `sid`'s local frame (origin as point, direction as
vector, through the cached inverse transform). -/
def localRay (scene : SceneBVH) (sid : ℕ) (ray : Ray3) : Ray3 :=
  let inv := scene.inv_xforms.getD sid ym_identity_affine3f
  ⟨ym_transform_point inv ray.o, ym_transform_vector inv ray.d, ray.tmin, ray.tmax⟩

/-- The brute-force test of primitive `(sid, eid)` against the world ray. -/
def scenePrimIsect (scene : SceneBVH) (ray : Ray3) (sid eid : ℕ) : Option (ℚ × Vec2) :=
  primIsect (scene.shapes.getD sid emptyShape) (localRay scene sid ray) eid

/-- Brute force, existence form: some primitive of some shape intersects
the ray within its `[tmin, tmax]` range. -/
def anyHitBrute (scene : SceneBVH) (ray : Ray3) : Bool :=
  (List.range scene.nshapes).any (fun sid =>
    (List.range ((scene.shapes.getD sid emptyShape).nelems)).any (fun eid =>
      (scenePrimIsect scene ray sid eid).isSome))

/-- The ray parameters of all brute-force hits (index order). -/
def bruteTs (scene : SceneBVH) (ray : Ray3) : List ℚ :=
  (List.range scene.nshapes).flatMap (fun sid =>
    (List.range ((scene.shapes.getD sid emptyShape).nelems)).filterMap (fun eid =>
      (scenePrimIsect scene ray sid eid).map (·.1)))

/-- The smallest brute-force hit parameter. -/
def minHitT (scene : SceneBVH) (ray : Ray3) : Option ℚ :=
  match bruteTs scene ray with
  | [] => none
  | t :: ts => some (ts.foldl min t)

/-- One step of the brute-force fold: test primitive `p = (sid, eid)`
against the current ray (whose `tmax` carries the best hit so far) and
record the hit. -/
def bruteStep (scene : SceneBVH) (s : SceneITState) (p : ℕ × ℕ) : SceneITState :=
  match scenePrimIsect scene s.ray p.1 p.2 with
  | none => s
  | some (t, uv) => ⟨{ s.ray with tmax := t }, true, p.1, p.2, uv⟩

/-- The brute-force closest-hit fold over a list of primitives. -/
def bruteFold (scene : SceneBVH) (L : List (ℕ × ℕ)) (s : SceneITState) : SceneITState :=
  L.foldl (bruteStep scene) s

/-- The primitive order of the pruning-free walk of a shape BVH for a ray
of direction `d` (the bbox test only prunes; it never reorders). -/
def shapeTravGo (sh : ShapeBVH) (d : Vec3) : ℕ → List ℕ → List ℕ
  | 0, _ => []
  | _ + 1, [] => []
  | fuel + 1, nid :: rest =>
    let node := sh.nodes nid
    if node.isleaf then leafPrims sh.sorted_prim node ++ shapeTravGo sh d fuel rest
    else shapeTravGo sh d fuel (childPush node d ++ rest)

def shapeTravOrder (sh : ShapeBVH) (d : Vec3) : List ℕ :=
  shapeTravGo sh d (shapeFuel sh) [0]

/-- The shape-slot order of the pruning-free walk of the scene BVH. -/
def sceneTravGo (scene : SceneBVH) (d : Vec3) : ℕ → List ℕ → List ℕ
  | 0, _ => []
  | _ + 1, [] => []
  | fuel + 1, nid :: rest =>
    let node := scene.nodes nid
    if node.isleaf then leafPrims scene.sorted_prim node ++ sceneTravGo scene d fuel rest
    else sceneTravGo scene d fuel (childPush node d ++ rest)

/-- The `(sid, eid)` traversal order of the full two-level walk: shapes in
scene-walk order, and within each shape its primitives in the shape-walk
order for the transformed direction. -/
def sceneTravPairs (scene : SceneBVH) (ray : Ray3) : List (ℕ × ℕ) :=
  (sceneTravGo scene ray.d (sceneFuel scene) [0]).flatMap (fun sid =>
    (shapeTravOrder (scene.shapes.getD sid emptyShape) (localRay scene sid ray).d).map
      (fun e => (sid, e)))

/-- One primitive test of the shape-level reference fold (the crash-free
counterpart of `shapePrimStep`, defined through `primIsect`). -/
def shapeFoldStep (sh : ShapeBVH) (s : SITState) (e : ℕ) : SITState :=
  match primIsect sh s.ray e with
  | none => s
  | some (t, uv) => ⟨{ s.ray with tmax := t }, true, e, uv⟩

/-- The shape-level reference fold over a primitive list. -/
def shapeFold (sh : ShapeBVH) (L : List ℕ) (s : SITState) : SITState :=
  L.foldl (shapeFoldStep sh) s

/-- Whether the ray traversal's unguarded radius reads are safe: triangle
shapes never read the radius, others need a present array. -/
def radOk (sh : ShapeBVH) : Prop := sh.elems.etype = 3 ∨ sh.radius ≠ none

instance (sh : ShapeBVH) : Decidable (radOk sh) := by
  unfold radOk; infer_instance

/-- The termination measure of a traversal stack: internal nodes push two
children with strictly larger indices, so `Σ 3^(nn − id)` strictly
decreases at every pop. -/
def stackMeasure (nn : ℕ) (st : List ℕ) : ℕ :=
  (st.map (fun n => 3 ^ (nn - n))).sum

/-- All `(sid, eid)` pairs of a scene in index order. -/
def scenePairs (scene : SceneBVH) : List (ℕ × ℕ) :=
  (List.range scene.nshapes).flatMap (fun sid =>
    (List.range ((scene.shapes.getD sid emptyShape).nelems)).map (fun e => (sid, e)))

/-- The parameters of the hits among a pair list, tested against `ray`. -/
def pairTs (scene : SceneBVH) (ray : Ray3) (L : List (ℕ × ℕ)) : List ℚ :=
  L.filterMap (fun p => (scenePrimIsect scene ray p.1 p.2).map (·.1))

/-- The minimum of a rational list, `none` on `[]` (the shape of the
source's running-minimum loops). -/
def minList : List ℚ → Option ℚ
  | [] => none
  | t :: ts => some (ts.foldl min t)

/-- The `(sid, eid)` pairs contributed by the shape slots `L`, each shape
in its own walk order for the world direction `d` pushed through its
cached inverse transform. -/
def travPairsD (scene : SceneBVH) (d : Vec3) (L : List ℕ) : List (ℕ × ℕ) :=
  L.flatMap (fun idx =>
    (shapeTravOrder (scene.shapes.getD idx emptyShape)
      (ym_transform_vector (scene.inv_xforms.getD idx ym_identity_affine3f) d)).map
      (fun e => (idx, e)))

/-! ## Well-formed subtree predicate

`GoodTree nodes nn PB S id s e` says node `id` roots a well-formed
subtree covering the `sorted_prim` slot range `[s, e)`: leaves point at
their slot range and their bbox bounds every slot's primitive box
(`PB slot`), internal nodes have two children at `start`/`start+1` with
larger indices and bboxes inside the parent's.  `S` over-approximates the
node indices used by the subtree (for framing), `nn` bounds them. -/
inductive GoodTree (nodes : ℕ → BVHNode) (nn : ℕ) (PB : ℕ → Range3) (S : ℕ → Prop) :
    ℕ → ℕ → ℕ → Prop where
  | leaf (id s e : ℕ) :
      S id → id < nn →
      (nodes id).isleaf = true → (nodes id).start = s → (nodes id).count = e - s →
      s ≤ e →
      (∀ k, s ≤ k → k < e → subR (PB k) (nodes id).bbox) →
      GoodTree nodes nn PB S id s e
  | internal (id s m e : ℕ) :
      S id → id < nn →
      (nodes id).isleaf = false → (nodes id).count = 2 →
      id < (nodes id).start → (nodes id).start + 1 < nn →
      GoodTree nodes nn PB S (nodes id).start s m →
      GoodTree nodes nn PB S ((nodes id).start + 1) m e →
      subR (nodes (nodes id).start).bbox (nodes id).bbox →
      subR (nodes ((nodes id).start + 1)).bbox (nodes id).bbox →
      GoodTree nodes nn PB S id s e

/-- The builder's effect on the staging array restricted to `[s, e)`:
length preserved, slots outside `[s, e)` untouched, and every slot inside
still holds one of the records that were in `[s, e)` before. -/
def SubrangeStable (s e : ℕ) (l l' : List BoundPrim) : Prop :=
  l'.length = l.length ∧
  (∀ k, k < s ∨ e ≤ k → l'.getD k default = l.getD k default) ∧
  (∀ k, s ≤ k → k < e → l'.getD k default ∈ subList l s (e - s))

/-! ## Concrete instances used by witnesses and counterexamples -/

/-- A one-triangle shape before build: the spec's Scenario A triangle. -/
def triA : ShapeBVH :=
  { elems := .triangle [(0, 1, 2)], pos := [⟨0, 0, 0⟩, ⟨1, 0, 0⟩, ⟨0, 1, 0⟩],
    radius := none, heuristic := 0,
    nodes := fun _ => defaultNode, nnodes := 0, sorted_prim := [] }

/-- A one-shape scene holding `triA` under the identity transform. -/
def sceneA : SceneBVH :=
  { shapes := [triA], xforms := [ym_identity_affine3f],
    inv_xforms := [ym_identity_affine3f], heuristic := 0,
    nodes := fun _ => defaultNode, nnodes := 0, sorted_prim := [] }

/-- Scenario A's ray. -/
def rayA : Ray3 := ⟨⟨1/4, 1/4, -1⟩, ⟨0, 0, 1⟩, 0, 10⟩

/-- Scenario B's ray (same as `rayA` but `tmax = 1/2`, a miss). -/
def rayB : Ray3 := ⟨⟨1/4, 1/4, -1⟩, ⟨0, 0, 1⟩, 0, 1/2⟩

/-- A ray whose parameter at the fat point `(1,0,0)` is exactly `tmax = 1`. -/
def rayC6 : Ray3 := ⟨⟨0, 0, 0⟩, ⟨1, 0, 0⟩, 0, 1⟩

/-- A one-triangle shape with the given vertices. -/
def triS (a b c : Vec3) : ShapeBVH :=
  { elems := .triangle [(0, 1, 2)], pos := [a, b, c],
    radius := none, heuristic := 0,
    nodes := fun _ => defaultNode, nnodes := 0, sorted_prim := [] }

/-- Translation along x. -/
def translateX (dx : ℚ) : Affine3 := ⟨⟨1, 0, 0⟩, ⟨0, 1, 0⟩, ⟨0, 0, 1⟩, ⟨dx, 0, 0⟩⟩

/-- Two shapes with distinct root AABBs (roughly `[0,1]³` and `[10,11]³`)
under identity transforms: the refit bug's failing input. -/
def sceneC2x : SceneBVH :=
  { shapes := [triS ⟨0, 0, 0⟩ ⟨1, 1, 0⟩ ⟨0, 0, 1⟩, triS ⟨10, 10, 10⟩ ⟨11, 11, 10⟩ ⟨10, 10, 11⟩],
    xforms := [ym_identity_affine3f, ym_identity_affine3f],
    inv_xforms := [ym_identity_affine3f, ym_identity_affine3f], heuristic := 0,
    nodes := fun _ => defaultNode, nnodes := 0, sorted_prim := [] }

/-- Shape 0 with root `[0,1]³`, shape 1 with root `[0,20]³` translated by
`(10,0,0)`: the overlap-symmetry bug's failing input. -/
def sceneC3x : SceneBVH :=
  { shapes := [triS ⟨0, 0, 0⟩ ⟨1, 1, 1⟩ ⟨1, 0, 0⟩, triS ⟨0, 0, 0⟩ ⟨20, 20, 20⟩ ⟨20, 0, 0⟩],
    xforms := [ym_identity_affine3f, translateX 10],
    inv_xforms := [ym_identity_affine3f, translateX (-10)], heuristic := 0,
    nodes := fun _ => defaultNode, nnodes := 0, sorted_prim := [] }

/-- A one-point shape at the origin with the given radius view. -/
def ptShape (radius : Option (List ℚ)) : ShapeBVH :=
  { elems := .point [0], pos := [⟨0, 0, 0⟩], radius := radius, heuristic := 0,
    nodes := fun _ => defaultNode, nnodes := 0, sorted_prim := [] }

/-- A one-point shape with an absent (`null`) radius view. -/
def sceneC9x : SceneBVH :=
  { shapes := [ptShape none], xforms := [ym_identity_affine3f],
    inv_xforms := [ym_identity_affine3f], heuristic := 0,
    nodes := fun _ => defaultNode, nnodes := 0, sorted_prim := [] }

/-- A ray at the `sceneC9x` point. -/
def rayC9 : Ray3 := ⟨⟨-1, 0, 0⟩, ⟨1, 0, 0⟩, 0, 10⟩

/-- A one-point shape of radius `3/5` at the origin. -/
def sceneC10x : SceneBVH :=
  { shapes := [ptShape (some [3/5])], xforms := [ym_identity_affine3f],
    inv_xforms := [ym_identity_affine3f], heuristic := 0,
    nodes := fun _ => defaultNode, nnodes := 0, sorted_prim := [] }

/-- Six separated triangles: a build that exercises the SAH split and the
heapsort (nodes: one internal root and two leaves). -/
def tri6 : ShapeBVH :=
  { elems := .triangle [(0, 1, 2), (3, 4, 5), (6, 7, 8), (9, 10, 11), (12, 13, 14), (15, 16, 17)],
    pos := [⟨0, 0, 0⟩, ⟨1, 0, 0⟩, ⟨0, 1, 0⟩, ⟨5, 0, 0⟩, ⟨6, 0, 0⟩, ⟨5, 1, 0⟩,
      ⟨2, 3, 0⟩, ⟨3, 3, 0⟩, ⟨2, 4, 0⟩, ⟨8, 1, 2⟩, ⟨9, 1, 2⟩, ⟨8, 2, 2⟩,
      ⟨4, 7, 1⟩, ⟨5, 7, 1⟩, ⟨4, 8, 1⟩, ⟨0, 5, 5⟩, ⟨1, 5, 5⟩, ⟨0, 6, 5⟩],
    radius := none, heuristic := 0,
    nodes := fun _ => defaultNode, nnodes := 0, sorted_prim := [] }

/-! # Theorems -/

/-- C6 (counterexample): the claim says a ray-primitive predicate reports
a hit only when the parameter lies strictly inside `[tmin, tmax]`; but
`yb__intersect_point` accepts the fat point `(1,0,0)` of radius `1/2` on
the ray from the origin along `x` with `tmax = 1` at parameter exactly
`t = tmax = 1`. -/
theorem c6_counterexample :
    yb__intersect_point rayC6 ⟨1, 0, 0⟩ (1/2) = some (rayC6.tmax, ⟨0, 0⟩) := by
  decide

/-- C6 (amended): the ray predicates (fat point, fat segment, triangle)
treat `[tmin, tmax]` as inclusive at both ends: a hit is reported only
when `tmin ≤ t ≤ tmax`, and parameters exactly equal to `tmin` or `tmax`
are accepted (the source rejects only `t < tmin || t > tmax`). -/
theorem c6_inclusive_range :
    (∀ (ray : Ray3) (p : Vec3) (r t : ℚ) (uv : Vec2),
      yb__intersect_point ray p r = some (t, uv) → ray.tmin ≤ t ∧ t ≤ ray.tmax) ∧
    (∀ (ray : Ray3) (v0 v1 : Vec3) (r0 r1 t : ℚ) (uv : Vec2),
      yb__intersect_line ray v0 v1 r0 r1 = some (t, uv) → ray.tmin ≤ t ∧ t ≤ ray.tmax) ∧
    (∀ (ray : Ray3) (v0 v1 v2 : Vec3) (t : ℚ) (uv : Vec2),
      yb__intersect_triangle ray v0 v1 v2 = some (t, uv) → ray.tmin ≤ t ∧ t ≤ ray.tmax) := by
  refine ⟨?_, ?_, ?_⟩
  · intro ray p r t uv h
    simp only [yb__intersect_point] at h
    split_ifs at h with h1 h2
    push_neg at h1
    simp only [Option.some.injEq, Prod.mk.injEq] at h
    exact ⟨h.1 ▸ h1.1, h.1 ▸ h1.2⟩
  · intro ray v0 v1 r0 r1 t uv h
    simp only [yb__intersect_line] at h
    split_ifs at h with h0 h1 h2
    push_neg at h1
    simp only [Option.some.injEq, Prod.mk.injEq] at h
    exact ⟨h.1 ▸ h1.1, h.1 ▸ h1.2⟩
  · intro ray v0 v1 v2 t uv h
    simp only [yb__intersect_triangle] at h
    split_ifs at h with h0 h1 h2 h3
    push_neg at h3
    simp only [Option.some.injEq, Prod.mk.injEq] at h
    exact ⟨h.1 ▸ h3.1, h.1 ▸ h3.2⟩

/-- C6 (witness): the amended theorem applied to the `rayC6` point hit. -/
theorem c6_inclusive_range_witness : rayC6.tmin ≤ 1 ∧ (1 : ℚ) ≤ rayC6.tmax :=
  c6_inclusive_range.1 rayC6 ⟨1, 0, 0⟩ (1/2) 1 ⟨0, 0⟩ (by decide)

/-- C10: each point-distance predicate accepts a primitive whenever the
squared distance `d²` from the query point to the closest point on the
primitive is at most `(dist_max + r)²` with `r` the radius interpolated
there (in particular whenever `d ≤ dist_max + r`), and on acceptance
writes the raw distance `d` (the model's `sqrtq d²`), not `d − r`;
consequently `yb_neighbour_scene_bvh` on a built one-point scene of
radius `3/5` queried from distance `1` with `max_dist = 1/2` returns true
with reported `dist = 1 > 1/2`. -/
theorem c10_distance_radius_inflation :
    (∀ (pos : Vec3) (dm : ℚ) (p : Vec3) (r : ℚ),
      ym_distsqr pos p ≤ (dm + r) * (dm + r) →
      yb__distance_point pos dm p r = some (sqrtq (ym_distsqr pos p), ⟨0, 0⟩)) ∧
    (∀ (pos : Vec3) (dm : ℚ) (v0 v1 : Vec3) (r0 r1 : ℚ),
      ym_distsqr pos (ym_lerp v0 v1 (yb__closestuv_line pos v0 v1)) ≤
        (dm + ym_lerpq r0 r1 (yb__closestuv_line pos v0 v1)) *
          (dm + ym_lerpq r0 r1 (yb__closestuv_line pos v0 v1)) →
      yb__distance_line pos dm v0 v1 r0 r1 =
        some (sqrtq (ym_distsqr pos (ym_lerp v0 v1 (yb__closestuv_line pos v0 v1))),
          ⟨yb__closestuv_line pos v0 v1, 0⟩)) ∧
    (∀ (pos : Vec3) (dm : ℚ) (v0 v1 v2 : Vec3) (r0 r1 r2 : ℚ),
      ym_distsqr (ym_blerp v0 v1 v2 (yb__closestuv_triangle pos v0 v1 v2).x
          (yb__closestuv_triangle pos v0 v1 v2).y) pos ≤
        (dm + ym_blerpq r0 r1 r2 (yb__closestuv_triangle pos v0 v1 v2).x
            (yb__closestuv_triangle pos v0 v1 v2).y) *
          (dm + ym_blerpq r0 r1 r2 (yb__closestuv_triangle pos v0 v1 v2).x
            (yb__closestuv_triangle pos v0 v1 v2).y) →
      yb__distance_triangle pos dm v0 v1 v2 r0 r1 r2 =
        some (sqrtq (ym_distsqr (ym_blerp v0 v1 v2 (yb__closestuv_triangle pos v0 v1 v2).x
            (yb__closestuv_triangle pos v0 v1 v2).y) pos),
          yb__closestuv_triangle pos v0 v1 v2)) ∧
    ((yb_build_scene_bvh sceneC10x).map (fun sc =>
        yb_neighbour_scene_bvh sc ⟨1, 0, 0⟩ (1/2) (-1) ⟨99, 5, 5, ⟨0, 0⟩⟩) =
      some (.ok (true, ⟨1, 0, 0, ⟨0, 0⟩⟩)) ∧ (1 : ℚ) > 1/2) := by
  refine ⟨?_, ?_, ?_, by decide⟩
  · intro pos dm p r h
    simp only [yb__distance_point]
    rw [if_neg (not_lt.mpr h)]
  · intro pos dm v0 v1 r0 r1 h
    simp only [yb__distance_line]
    rw [if_neg (not_lt.mpr h)]
  · intro pos dm v0 v1 v2 r0 r1 r2 h
    simp only [yb__distance_triangle]
    rw [if_neg (not_lt.mpr h)]

/-- C10 (witness): the point-distance predicate accepts the origin point
of radius `3/5` from distance `1` with `dist_max = 1/2` and reports the
raw distance `1`. -/
theorem c10_distance_radius_inflation_witness :
    yb__distance_point ⟨1, 0, 0⟩ (1/2) ⟨0, 0, 0⟩ (3/5) =
      some (sqrtq (ym_distsqr ⟨1, 0, 0⟩ ⟨0, 0, 0⟩), ⟨0, 0⟩) :=
  c10_distance_radius_inflation.1 ⟨1, 0, 0⟩ (1/2) ⟨0, 0, 0⟩ (3/5) (by decide)

/-! ### State lemmas for the traversal loops -/

theorem shapePrimStep_cases (sh : ShapeBVH) (s : SITState) (idx : ℕ) (s' : SITState)
    (h : shapePrimStep sh s idx = .ok s') : s' = s ∨ s'.hit = true := by
  unfold shapePrimStep at h
  rcases helems : sh.elems with elem | elem | elem <;> rw [helems] at h <;> dsimp only at h
  · rcases hrad : sh.radius with _ | rad <;> rw [hrad] at h <;> dsimp only at h
    · exact absurd h (by simp)
    · rcases hp : yb__intersect_point s.ray (sh.pos.getD (elem.getD idx 0) 0)
          (rad.getD (elem.getD idx 0) 0) with _ | p <;> rw [hp] at h
      · exact Or.inl (by cases h; rfl)
      · cases p; cases h; exact Or.inr rfl
  · rcases hrad : sh.radius with _ | rad <;> rw [hrad] at h <;> dsimp only at h
    · exact absurd h (by simp)
    · rcases hp : yb__intersect_line s.ray (sh.pos.getD (elem.getD idx (0, 0)).1 0)
          (sh.pos.getD (elem.getD idx (0, 0)).2 0) (rad.getD (elem.getD idx (0, 0)).1 0)
          (rad.getD (elem.getD idx (0, 0)).2 0) with _ | p <;> rw [hp] at h
      · exact Or.inl (by cases h; rfl)
      · cases p; cases h; exact Or.inr rfl
  · rcases hp : yb__intersect_triangle s.ray (sh.pos.getD (elem.getD idx (0, 0, 0)).1 0)
        (sh.pos.getD (elem.getD idx (0, 0, 0)).2.1 0)
        (sh.pos.getD (elem.getD idx (0, 0, 0)).2.2 0) with _ | p <;> rw [hp] at h
    · exact Or.inl (by cases h; rfl)
    · cases p; cases h; exact Or.inr rfl

theorem crashFold_cases {σ α : Type} (f : σ → α → CrashOr σ) (P : σ → Prop)
    (hstep : ∀ s a s', f s a = .ok s' → s' = s ∨ P s')
    (hmono : ∀ s a s', f s a = .ok s' → P s → P s') :
    ∀ (L : List α) (s s' : σ), crashFold f L s = .ok s' → s' = s ∨ P s' := by
  intro L
  induction L with
  | nil => intro s s' h; cases h; exact Or.inl rfl
  | cons a as ih =>
    intro s s' h
    unfold crashFold at h
    rcases hf : f s a with _ | s₁ <;> rw [hf] at h
    · exact absurd h (by simp)
    · rcases hstep s a s₁ hf with rfl | hp
      · exact ih _ s' h
      · rcases ih s₁ s' h with rfl | hp'
        · exact Or.inr hp
        · exact Or.inr hp'

theorem shapePrimStep_mono (sh : ShapeBVH) (s : SITState) (idx : ℕ) (s' : SITState)
    (h : shapePrimStep sh s idx = .ok s') (hs : s.hit = true) : s'.hit = true := by
  rcases shapePrimStep_cases sh s idx s' h with rfl | h' <;> simp_all

theorem shapeILoop_cases (sh : ShapeBVH) (early : Bool) :
    ∀ (fuel : ℕ) (stack : List ℕ) (s s' : SITState),
      shapeILoop sh early fuel stack s = .ok s' → s' = s ∨ s'.hit = true := by
  intro fuel
  induction fuel with
  | zero => intro stack s s' h; exact absurd h (by simp [shapeILoop])
  | succ n ih =>
    intro stack s s' h
    match stack with
    | [] => cases h; exact Or.inl rfl
    | nid :: rest =>
      rw [shapeILoop] at h
      dsimp only at h
      split_ifs at h with h1 h2 h3
      · cases h; exact Or.inl rfl
      · exact ih rest s s' h
      · rcases hcf : crashFold (shapePrimStep sh) (leafPrims sh.sorted_prim (sh.nodes nid)) s
            with _ | s₁ <;> rw [hcf] at h
        · exact absurd h (by simp)
        · rcases crashFold_cases (shapePrimStep sh) (fun s => s.hit = true)
              (fun s a s' h => shapePrimStep_cases sh s a s' h)
              (fun s a s' h hs => shapePrimStep_mono sh s a s' h hs) _ s s₁ hcf with rfl | hp
          · exact ih rest _ s' h
          · rcases ih rest s₁ s' h with rfl | hp'
            · exact Or.inr hp
            · exact Or.inr hp'
      · exact ih _ s s' h

theorem yb__intersect_shape_nohit (sh : ShapeBVH) (early : Bool) (tray : Ray3)
    (rayt0 : ℚ) (eid0 : ℕ) (euv0 : Vec2) (t' : ℚ) (eid' : ℕ) (euv' : Vec2)
    (h : yb__intersect_shape sh early tray rayt0 eid0 euv0 = .ok (false, t', eid', euv')) :
    t' = rayt0 ∧ eid' = eid0 ∧ euv' = euv0 := by
  unfold yb__intersect_shape at h
  rcases hl : shapeILoop sh early (shapeFuel sh) [0] ⟨tray, false, eid0, euv0⟩
      with _ | s <;> rw [hl] at h
  · exact absurd h (by simp)
  · dsimp only at h
    rcases shapeILoop_cases sh early _ _ _ _ hl with rfl | hp
    · cases h; exact ⟨if_neg (by simp), rfl, rfl⟩
    · rw [hp] at h
      simp at h

theorem scenePrimStep_cases (scene : SceneBVH) (early : Bool) (s : SceneITState)
    (idx : ℕ) (s' : SceneITState) (h : scenePrimStep scene early s idx = .ok s') :
    s' = s ∨ s'.hit = true := by
  unfold scenePrimStep at h
  dsimp only at h
  rcases hi : yb__intersect_shape (scene.shapes.getD idx emptyShape) early _
      s.ray.tmax s.eid s.euv with _ | r <;> rw [hi] at h
  · exact absurd h (by simp)
  · obtain ⟨hit', t', eid', euv'⟩ := r
    cases h
    cases hit'
    · obtain ⟨rfl, rfl, rfl⟩ := yb__intersect_shape_nohit _ _ _ _ _ _ _ _ _ hi
      left
      cases s with
      | mk ray hit sid eid euv => cases ray; simp
    · right; simp

theorem scenePrimStep_mono (scene : SceneBVH) (early : Bool) (s : SceneITState)
    (idx : ℕ) (s' : SceneITState) (h : scenePrimStep scene early s idx = .ok s')
    (hs : s.hit = true) : s'.hit = true := by
  rcases scenePrimStep_cases scene early s idx s' h with rfl | h' <;> simp_all

theorem sceneILoop_cases (scene : SceneBVH) (early : Bool) :
    ∀ (fuel : ℕ) (stack : List ℕ) (s s' : SceneITState),
      sceneILoop scene early fuel stack s = .ok s' → s' = s ∨ s'.hit = true := by
  intro fuel
  induction fuel with
  | zero => intro stack s s' h; exact absurd h (by simp [sceneILoop])
  | succ n ih =>
    intro stack s s' h
    match stack with
    | [] => cases h; exact Or.inl rfl
    | nid :: rest =>
      rw [sceneILoop] at h
      dsimp only at h
      split_ifs at h with h1 h2 h3
      · cases h; exact Or.inl rfl
      · exact ih rest s s' h
      · rcases hcf : crashFold (scenePrimStep scene early)
            (leafPrims scene.sorted_prim (scene.nodes nid)) s with _ | s₁ <;> rw [hcf] at h
        · exact absurd h (by simp)
        · rcases crashFold_cases (scenePrimStep scene early) (fun s => s.hit = true)
              (fun s a s' h => scenePrimStep_cases scene early s a s' h)
              (fun s a s' h hs => scenePrimStep_mono scene early s a s' h hs) _ s s₁ hcf
              with rfl | hp
          · exact ih rest _ s' h
          · rcases ih rest s₁ s' h with rfl | hp'
            · exact Or.inr hp
            · exact Or.inr hp'
      · exact ih _ s s' h

theorem shapeNBStep_cases (sh : ShapeBVH) (pt : Vec3) (s : NBState) (idx : ℕ)
    (s₂ : NBState) (h : shapeNBStep sh pt s idx = s₂) : s₂ = s ∨ s₂.hit = true := by
  unfold shapeNBStep at h
  rcases helems : sh.elems with elem | elem | elem <;> rw [helems] at h <;> dsimp only at h
  · rcases hp : yb__distance_point pt s.dist_max (sh.pos.getD (elem.getD idx 0) 0)
        (match sh.radius with | some r => r.getD (elem.getD idx 0) 0 | none => 0)
        with _ | p <;> rw [hp] at h
    · exact Or.inl h.symm
    · cases p; exact Or.inr (h ▸ rfl)
  · rcases hp : yb__distance_line pt s.dist_max (sh.pos.getD (elem.getD idx (0, 0)).1 0)
        (sh.pos.getD (elem.getD idx (0, 0)).2 0)
        (match sh.radius with | some r => r.getD (elem.getD idx (0, 0)).1 0 | none => 0)
        (match sh.radius with | some r => r.getD (elem.getD idx (0, 0)).2 0 | none => 0)
        with _ | p <;> rw [hp] at h
    · exact Or.inl h.symm
    · cases p; exact Or.inr (h ▸ rfl)
  · rcases hp : yb__distance_triangle pt s.dist_max (sh.pos.getD (elem.getD idx (0, 0, 0)).1 0)
        (sh.pos.getD (elem.getD idx (0, 0, 0)).2.1 0)
        (sh.pos.getD (elem.getD idx (0, 0, 0)).2.2 0)
        (match sh.radius with | some r => r.getD (elem.getD idx (0, 0, 0)).1 0 | none => 0)
        (match sh.radius with | some r => r.getD (elem.getD idx (0, 0, 0)).2.1 0 | none => 0)
        (match sh.radius with | some r => r.getD (elem.getD idx (0, 0, 0)).2.2 0 | none => 0)
        with _ | p <;> rw [hp] at h
    · exact Or.inl h.symm
    · cases p; exact Or.inr (h ▸ rfl)

theorem foldNBStep_cases (sh : ShapeBVH) (pt : Vec3) :
    ∀ (L : List ℕ) (s : NBState),
      L.foldl (shapeNBStep sh pt) s = s ∨ (L.foldl (shapeNBStep sh pt) s).hit = true := by
  intro L
  induction L with
  | nil => intro s; exact Or.inl rfl
  | cons a as ih =>
    intro s
    rcases shapeNBStep_cases sh pt s a _ rfl with he | hp
    · rw [List.foldl_cons, he]; exact ih s
    · rw [List.foldl_cons]
      rcases ih (shapeNBStep sh pt s a) with he' | hp'
      · rw [he']; exact Or.inr hp
      · exact Or.inr hp'

theorem shapeNBLoop_cases (sh : ShapeBVH) (early : Bool) (pt : Vec3) :
    ∀ (fuel : ℕ) (stack : List ℕ) (s s' : NBState),
      shapeNBLoop sh early pt fuel stack s = .ok s' → s' = s ∨ s'.hit = true := by
  intro fuel
  induction fuel with
  | zero => intro stack s s' h; exact absurd h (by simp [shapeNBLoop])
  | succ n ih =>
    intro stack s s' h
    match stack with
    | [] => cases h; exact Or.inl rfl
    | nid :: rest =>
      rw [shapeNBLoop] at h
      dsimp only at h
      split_ifs at h with h1 h2 h3
      · cases h; exact Or.inl rfl
      · exact ih rest s s' h
      · rcases foldNBStep_cases sh pt (leafPrims sh.sorted_prim (sh.nodes nid)) s with he | hp
        · rw [he] at h; exact ih rest s s' h
        · rcases ih rest _ s' h with rfl | hp'
          · exact Or.inr hp
          · exact Or.inr hp'
      · exact ih _ s s' h

theorem yb__neighbour_shape_nohit (sh : ShapeBVH) (early : Bool) (tpt : Vec3)
    (dm dist0 : ℚ) (eid0 : ℕ) (euv0 : Vec2) (d' : ℚ) (eid' : ℕ) (euv' : Vec2)
    (h : yb__neighbour_shape sh early tpt dm dist0 eid0 euv0 = .ok (false, d', eid', euv')) :
    d' = dist0 ∧ eid' = eid0 ∧ euv' = euv0 := by
  unfold yb__neighbour_shape at h
  rcases hl : shapeNBLoop sh early tpt (shapeFuel sh) [0] ⟨dm, false, eid0, euv0⟩
      with _ | s <;> rw [hl] at h
  · exact absurd h (by simp)
  · dsimp only at h
    rcases shapeNBLoop_cases sh early tpt _ _ _ _ hl with rfl | hp
    · cases h; exact ⟨if_neg (by simp), rfl, rfl⟩
    · rw [hp] at h
      simp at h

theorem sceneNBStep_cases (scene : SceneBVH) (early : Bool) (pt : Vec3)
    (s : SceneNBState) (idx : ℕ) (s' : SceneNBState)
    (h : sceneNBStep scene early pt s idx = .ok s') : s' = s ∨ s'.hit = true := by
  unfold sceneNBStep at h
  dsimp only at h
  rcases hi : yb__neighbour_shape (scene.shapes.getD idx emptyShape) early _
      s.dist_max s.dist_max s.eid s.euv with _ | r <;> rw [hi] at h
  · exact absurd h (by simp)
  · obtain ⟨hit', d', eid', euv'⟩ := r
    cases h
    cases hit'
    · obtain ⟨rfl, rfl, rfl⟩ := yb__neighbour_shape_nohit _ _ _ _ _ _ _ _ _ _ hi
      left
      cases s; simp
    · right; simp

theorem sceneNBStep_mono (scene : SceneBVH) (early : Bool) (pt : Vec3)
    (s : SceneNBState) (idx : ℕ) (s' : SceneNBState)
    (h : sceneNBStep scene early pt s idx = .ok s') (hs : s.hit = true) : s'.hit = true := by
  rcases sceneNBStep_cases scene early pt s idx s' h with rfl | h' <;> simp_all

theorem sceneNBLoop_cases (scene : SceneBVH) (early : Bool) (pt : Vec3) :
    ∀ (fuel : ℕ) (stack : List ℕ) (s s' : SceneNBState),
      sceneNBLoop scene early pt fuel stack s = .ok s' → s' = s ∨ s'.hit = true := by
  intro fuel
  induction fuel with
  | zero => intro stack s s' h; exact absurd h (by simp [sceneNBLoop])
  | succ n ih =>
    intro stack s s' h
    match stack with
    | [] => cases h; exact Or.inl rfl
    | nid :: rest =>
      rw [sceneNBLoop] at h
      dsimp only at h
      split_ifs at h with h1 h2 h3
      · cases h; exact Or.inl rfl
      · exact ih rest s s' h
      · rcases hcf : crashFold (sceneNBStep scene early pt)
            (leafPrims scene.sorted_prim (scene.nodes nid)) s with _ | s₁ <;> rw [hcf] at h
        · exact absurd h (by simp)
        · rcases crashFold_cases (sceneNBStep scene early pt) (fun s => s.hit = true)
              (fun s a s' h => sceneNBStep_cases scene early pt s a s' h)
              (fun s a s' h hs => sceneNBStep_mono scene early pt s a s' h hs) _ s s₁ hcf
              with rfl | hp
          · exact ih rest _ s' h
          · rcases ih rest s₁ s' h with rfl | hp'
            · exact Or.inr hp
            · exact Or.inr hp'
      · exact ih _ s s' h

/-- C5: when a query returns false (no hit), every out-parameter cell —
`ray_t`/`dist`, `sid`, `eid`, `euv` — holds its pre-call value: the
closest-hit ray query and the closest-element query write their outputs
only on a confirmed hit (the any-hit query has no out-parameters). -/
theorem c5_outputs_unchanged_on_miss :
    (∀ (scene : SceneBVH) (ray : Ray3) (cells cells' : Isect),
      yb_intersect_scene_bvh scene ray cells = .ok (false, cells') → cells' = cells) ∧
    (∀ (scene : SceneBVH) (pt : Vec3) (max_dist : ℚ) (req_sid : ℤ) (cells cells' : NIsect),
      yb_neighbour_scene_bvh scene pt max_dist req_sid cells = .ok (false, cells') →
        cells' = cells) := by
  constructor
  · intro scene ray cells cells' h
    unfold yb_intersect_scene_bvh at h
    rcases hl : sceneILoop scene false (sceneFuel scene) [0]
        ⟨ray, false, cells.sid, cells.eid, cells.euv⟩ with _ | s <;> rw [hl] at h
    · exact absurd h (by simp)
    · dsimp only at h
      rcases sceneILoop_cases scene false _ _ _ _ hl with rfl | hp
      · cases h; simp
      · rw [hp] at h
        simp at h
  · intro scene pt max_dist req_sid cells cells' h
    unfold yb_neighbour_scene_bvh at h
    split_ifs at h with hreq
    · dsimp only at h
      rcases hi : yb__neighbour_shape (scene.shapes.getD req_sid.toNat emptyShape) false
          (ym_transform_point (scene.inv_xforms.getD req_sid.toNat ym_identity_affine3f) pt)
          max_dist cells.dist cells.eid cells.euv with _ | r <;> rw [hi] at h
      · exact absurd h (by simp)
      · obtain ⟨hit, d, eid, euv⟩ := r
        cases h
        obtain ⟨rfl, rfl, rfl⟩ := yb__neighbour_shape_nohit _ _ _ _ _ _ _ _ _ _ hi
        simp
    · rcases hl : sceneNBLoop scene false pt (sceneFuel scene) [0]
          ⟨max_dist, false, cells.sid, cells.eid, cells.euv⟩ with _ | s <;> rw [hl] at h
      · exact absurd h (by simp)
      · dsimp only at h
        rcases sceneNBLoop_cases scene false pt _ _ _ _ hl with rfl | hp
        · cases h; simp
        · rw [hp] at h
          simp at h

/-- C5 (witness): Scenario B — the Scenario A scene queried with
`tmax = 1/2` misses and leaves the cells `⟨99, 7, 7, (9,9)⟩` unchanged. -/
theorem c5_outputs_unchanged_on_miss_witness :
    (⟨99, 7, 7, ⟨9, 9⟩⟩ : Isect) = ⟨99, 7, 7, ⟨9, 9⟩⟩ :=
  c5_outputs_unchanged_on_miss.1 ((yb_build_scene_bvh sceneA).getD sceneA) rayB
    ⟨99, 7, 7, ⟨9, 9⟩⟩ ⟨99, 7, 7, ⟨9, 9⟩⟩ (by decide)

/-- C2 (code bug): `yb__recompute_scene_bounds` reads
`bvh->shapes[0]->nodes[0].bbox` for every scene-leaf shape instead of
`shapes[idx]`.  On a built two-shape scene whose shape roots are `[0,1]³`
and `[10,11]³` under identity transforms, the built root bbox is
`[0,11]³`, but refitting with the very same identity transforms shrinks
it to `[0,1]³` (both leaf slots take shape 0's root), so refitting with
the transforms the tree was built with is not a no-op on bboxes. -/
theorem c2_refit_reads_shape0 :
    (yb_build_scene_bvh sceneC2x).map (fun sc =>
      (yb_refit_scene_bvh sc [ym_identity_affine3f, ym_identity_affine3f]).map
        (fun sc' => ((sc.nodes 0).bbox, (sc'.nodes 0).bbox))) =
    some (some (⟨⟨0, 0, 0⟩, ⟨11, 11, 11⟩⟩, ⟨⟨0, 0, 0⟩, ⟨1, 1, 1⟩⟩)) := by
  decide

/-- C3 (code bug): `yb_overlap_shape_bounds` computes `bbox2` from
`bvh->shapes[idx1]->nodes[0].bbox` instead of `shapes[idx2]`, so the
emitted pair set is not symmetric.  With shape 0's root `[0,1]³` at the
identity and shape 1's root `[0,20]³` translated by `(10,0,0)`, the pair
`(1,0)` is emitted but `(0,1)` is not (with `exclude_self`); without
`exclude_self` the self-pairs `(0,0)` and `(1,1)` are also emitted. -/
theorem c3_overlap_asymmetric :
    (yb_build_scene_bvh sceneC3x).map (fun sc => yb_overlap_shape_bounds sc true) =
      some (.ok (1, [(1, 0)])) ∧
    (yb_build_scene_bvh sceneC3x).map (fun sc => yb_overlap_shape_bounds sc false) =
      some (.ok (3, [(0, 0), (1, 0), (1, 1)])) := by
  constructor
  · decide
  · decide

/-- C9 (code bug): on a point shape with an absent radius view, the build
and the closest-point query treat the radius as zero (the neighbour query
below succeeds with distance 2), but the ray traversal's leaf arms read
`sbvh->radius[f]` without the null check used everywhere else, an
undefined null-pointer read (the model's `crash`). -/
theorem c9_ray_traversal_reads_null_radius :
    (yb_build_scene_bvh sceneC9x).map (fun sc =>
      (yb_intersect_scene_bvh sc rayC9 ⟨99, 7, 7, ⟨9, 9⟩⟩,
        yb_neighbour_scene_bvh sc ⟨2, 0, 0⟩ 5 (-1) ⟨99, 7, 7, ⟨9, 9⟩⟩)) =
    some (.crash, .ok (true, ⟨2, 0, 0, ⟨0, 0⟩⟩)) := by
  decide

/-! ### Permutation lemmas for the builder -/

theorem set_cons_perm {α : Type} (d : α) :
    ∀ (l : List α) (i : ℕ) (v : α), i < l.length →
      ((l.set i v) ++ [l.getD i d]).Perm (v :: l) := by
  intro l
  induction l with
  | nil => intro i v h; simp at h
  | cons a l ih =>
    intro i v h
    cases i with
    | zero => exact (List.perm_append_singleton a l).cons v
    | succ i =>
      exact ((ih i v (by simpa using h)).cons a).trans (List.Perm.swap v a l)

theorem set_getD_perm {α : Type} (d : α) (l : List α) (i : ℕ) (h : i < l.length) :
    (l.set i (l.getD i d)).Perm l := by
  have h1 := set_cons_perm d l i (l.getD i d) h
  have h2 : ((l.set i (l.getD i d)) ++ [l.getD i d]).Perm ((l.getD i d) :: (l.set i (l.getD i d))) :=
    List.perm_append_singleton _ _
  exact (h2.symm.trans h1).cons_inv

theorem set_set_perm {α : Type} (d : α) (l : List α) (i j : ℕ) (t : α)
    (hij : i ≠ j) (hi : i < l.length) (hj : j < l.length) :
    ((l.set i (l.getD j d)).set j t).Perm (l.set i t) := by
  set v := l.getD j d with hv
  set m := l.set i v with hm
  have hmj : j < m.length := by simpa [hm] using hj
  have hmget : m.getD j d = v := by
    rw [hm, hv]
    rw [List.getD_eq_getElem?_getD, List.getElem?_set_ne (by omega), ← List.getD_eq_getElem?_getD]
  have h1 : ((m.set j t) ++ [v]).Perm (t :: m) := by
    have := set_cons_perm d m j t hmj
    rwa [hmget] at this
  have h2 : (m ++ [l.getD i d]).Perm (v :: l) := set_cons_perm d l i v hi
  have h3 : ((l.set i t) ++ [l.getD i d]).Perm (t :: l) := set_cons_perm d l i t hi
  have key : ((m.set j t) ++ [v] ++ [l.getD i d]).Perm ((l.set i t) ++ [l.getD i d] ++ [v]) := by
    refine (h1.append (List.Perm.refl [l.getD i d])).trans ?_
    refine List.Perm.trans ?_ ((h3.append (List.Perm.refl [v])).symm)
    have ha : (t :: m) ++ [l.getD i d] = t :: (m ++ [l.getD i d]) := rfl
    have hb : (t :: l) ++ [v] = t :: (l ++ [v]) := rfl
    rw [ha, hb]
    exact (h2.trans (List.perm_append_singleton v l).symm).cons t
  have e1 : (m.set j t) ++ [v] ++ [l.getD i d] = (m.set j t) ++ [v, l.getD i d] := by
    rw [List.append_assoc]; rfl
  have e2 : (l.set i t) ++ [l.getD i d] ++ [v] = (l.set i t) ++ [l.getD i d, v] := by
    rw [List.append_assoc]; rfl
  rw [e1, e2] at key
  have key2 : ((m.set j t) ++ [v, l.getD i d]).Perm ((l.set i t) ++ [v, l.getD i d]) :=
    key.trans (List.Perm.append_left _ (List.Perm.swap v (l.getD i d) []))
  exact (List.perm_append_right_iff _).mp key2

theorem siftDown_length (t : BoundPrim) :
    ∀ (fuel : ℕ) (arr : List BoundPrim) (index n axis : ℕ),
      (siftDown arr t index n axis fuel).length = arr.length := by
  intro fuel
  induction fuel with
  | zero => intro arr index n axis; simp [siftDown]
  | succ f ih =>
    intro arr index n axis
    rw [siftDown]
    dsimp only
    split_ifs <;>
      first
      | rw [ih, List.length_set]
      | exact List.length_set ..

theorem siftDown_perm (t : BoundPrim) :
    ∀ (fuel : ℕ) (arr : List BoundPrim) (index n axis : ℕ),
      index < n → n ≤ arr.length →
      (siftDown arr t index n axis fuel).Perm (arr.set index t) := by
  intro fuel
  induction fuel with
  | zero => intro arr index n axis _ _; simp [siftDown]
  | succ f ih =>
    intro arr index n axis hin hn
    rw [siftDown]
    dsimp only
    split_ifs with h1 h2 h3 h4
    · refine (ih (arr.set index (arr.getD (index * 2 + 1 + 1) default)) (index * 2 + 1 + 1)
        n axis (by omega) (by rwa [List.length_set])).trans ?_
      exact set_set_perm default arr index (index * 2 + 1 + 1) t (by omega) (by omega) (by omega)
    · exact List.Perm.refl _
    · refine (ih (arr.set index (arr.getD (index * 2 + 1) default)) (index * 2 + 1)
        n axis (by omega) (by rwa [List.length_set])).trans ?_
      exact set_set_perm default arr index (index * 2 + 1) t (by omega) (by omega) (by omega)
    · exact List.Perm.refl _
    · exact List.Perm.refl _

theorem heapLoop_perm :
    ∀ (fuel : ℕ) (arr : List BoundPrim) (n parent axis : ℕ),
      parent ≤ n → n ≤ arr.length →
      (heapLoop arr n parent axis fuel).Perm arr := by
  intro fuel
  induction fuel with
  | zero => intro arr n parent axis _ _; simp [heapLoop]
  | succ f ih =>
    intro arr n parent axis hp hn
    rw [heapLoop]
    dsimp only
    split_ifs with h1 h2
    · have hplen : parent - 1 < n := by omega
      have hperm : (siftDown arr (arr.getD (parent - 1) default) (parent - 1) n axis n).Perm arr := by
        refine (siftDown_perm _ n arr (parent - 1) n axis hplen hn).trans ?_
        exact set_getD_perm default arr (parent - 1) (by omega)
      refine List.Perm.trans ?_ hperm
      refine ih _ n (parent - 1) axis (by omega) ?_
      rw [siftDown_length]
      exact hn
    · exact List.Perm.refl _
    · set arr' := arr.set (n - 1) (arr.getD 0 default) with ha
      have hlen' : arr'.length = arr.length := List.length_set ..
      have hswap : (arr'.set 0 (arr.getD (n - 1) default)).Perm arr := by
        have := set_set_perm default arr (n - 1) 0 (arr.getD (n - 1) default)
          (by omega) (by omega) (by omega)
        refine this.trans ?_
        exact set_getD_perm default arr (n - 1) (by omega)
      have hperm : (siftDown arr' (arr.getD (n - 1) default) 0 (n - 1) axis (n - 1)).Perm arr := by
        refine List.Perm.trans ?_ hswap
        exact siftDown_perm _ (n - 1) arr' 0 (n - 1) axis (by omega) (by omega)
      refine List.Perm.trans ?_ hperm
      refine ih _ (n - 1) 0 axis (by omega) ?_
      rw [siftDown_length, hlen']
      omega

theorem yb__heapsort_bound_prim_perm (arr : List BoundPrim) (axis : ℕ) :
    (yb__heapsort_bound_prim arr axis).Perm arr := by
  unfold yb__heapsort_bound_prim
  split_ifs with h
  · exact List.Perm.refl _
  · exact heapLoop_perm _ arr arr.length (arr.length / 2) axis (by omega) le_rfl

theorem sortSub_perm (l : List BoundPrim) (start len axis : ℕ) :
    (sortSub l start len axis).Perm l := by
  unfold sortSub subList
  have hdd : (l.drop start).drop len = l.drop (start + len) := by
    rw [List.drop_drop, Nat.add_comm]
  conv_rhs => rw [← List.take_append_drop start l, ← List.take_append_drop len (l.drop start)]
  rw [hdd, ← List.append_assoc]
  exact ((List.Perm.refl _).append (yb__heapsort_bound_prim_perm _ axis)).append
    (List.Perm.refl _)

theorem sortSub_length (l : List BoundPrim) (start len axis : ℕ) :
    (sortSub l start len axis).length = l.length :=
  (sortSub_perm l start len axis).length_eq

theorem foldl_sahAxisStep_perm (start e : ℕ) :
    ∀ (L : List ℕ) (st : Option (ℚ × ℕ × ℕ) × List BoundPrim),
      (L.foldl (sahAxisStep start e) st).2.Perm st.2 := by
  intro L
  induction L with
  | nil => intro st; exact List.Perm.refl _
  | cons a as ih =>
    intro st
    rw [List.foldl_cons]
    exact (ih _).trans (sortSub_perm st.2 start (e - start) a)

theorem yb__split_axis_perm (prims : List BoundPrim) (start e heuristic : ℕ) :
    (yb__split_axis prims start e heuristic).2.2.Perm prims := by
  unfold yb__split_axis
  match heuristic with
  | 1 => exact List.Perm.refl _
  | 0 =>
    dsimp only
    rcases hr : ([0, 1, 2].foldl (sahAxisStep start e) (none, prims)).1 with _ | r
    · exact foldl_sahAxisStep_perm start e [0, 1, 2] (none, prims)
    · obtain ⟨c, a, m⟩ := r
      exact foldl_sahAxisStep_perm start e [0, 1, 2] (none, prims)
  | 2 =>
    dsimp only
    rcases hr : ([0, 1, 2].foldl (sahAxisStep start e) (none, prims)).1 with _ | r
    · exact foldl_sahAxisStep_perm start e [0, 1, 2] (none, prims)
    · obtain ⟨c, a, m⟩ := r
      exact foldl_sahAxisStep_perm start e [0, 1, 2] (none, prims)
  | (n + 3) => exact List.Perm.refl _

theorem yb__make_node_perm :
    ∀ (fuel : ℕ) (nodes : ℕ → BVHNode) (nnodes : ℕ) (prims : List BoundPrim)
      (nodeid start e heuristic : ℕ) (nodes' : ℕ → BVHNode) (nn' : ℕ)
      (prims' : List BoundPrim),
      yb__make_node fuel nodes nnodes prims nodeid start e heuristic =
        some (nodes', nn', prims') → prims'.Perm prims := by
  intro fuel
  induction fuel with
  | zero =>
    intro nodes nnodes prims nodeid start e heuristic nodes' nn' prims' h
    exact absurd h (by simp [yb__make_node])
  | succ f ih =>
    intro nodes nnodes prims nodeid start e heuristic nodes' nn' prims' h
    rw [yb__make_node] at h
    dsimp only at h
    split_ifs at h with hleaf
    · cases h; exact List.Perm.refl _
    · split at h
      · exact absurd h (by simp)
      · rename_i nodes₂ nn₂ prims₃ heq₂
        split at h
        · exact absurd h (by simp)
        · rename_i nodes₃ nn₃ prims₄ heq₃
          cases h
          refine ((ih _ _ _ _ _ _ _ _ _ _ heq₃).trans
            ((ih _ _ _ _ _ _ _ _ _ _ heq₂).trans ?_)).trans
            (yb__split_axis_perm prims start e heuristic)
          exact sortSub_perm _ start (e - start) _

theorem buildShapes_length :
    ∀ (l l' : List ShapeBVH), yb_build_scene_bvh.buildShapes l = some l' →
      l'.length = l.length := by
  intro l
  induction l with
  | nil =>
    intro l' h
    cases h
    rfl
  | cons sh rest ih =>
    intro l' h
    rw [yb_build_scene_bvh.buildShapes] at h
    split at h
    · exact absurd h (by simp)
    · rename_i sh' heq
      split at h
      · exact absurd h (by simp)
      · rename_i rest' heq'
        cases h
        simp [ih rest' heq']

/-- C7: after `yb_build_shape_bvh` (resp. `yb_build_scene_bvh`) the
`sorted_prim` array is a permutation of `{0, …, nelems−1}` (resp.
`{0, …, nshapes−1}`): every original primitive (resp. shape) index
appears exactly once. -/
theorem c7_sorted_prim_permutation :
    (∀ (sh sh' : ShapeBVH), yb_build_shape_bvh sh = some sh' →
      sh'.sorted_prim.Perm (List.range sh.nelems)) ∧
    (∀ (scene scene' : SceneBVH), yb_build_scene_bvh scene = some scene' →
      scene'.sorted_prim.Perm (List.range scene.nshapes)) := by
  constructor
  · intro sh sh' h
    unfold yb_build_shape_bvh at h
    dsimp only at h
    split at h
    · exact absurd h (by simp)
    · rename_i nodes nn bps' heq
      cases h
      have hp : bps'.Perm (boundPrimsOfShape sh) :=
        yb__make_node_perm _ _ _ _ _ _ _ _ _ _ _ heq
      have hmap : (boundPrimsOfShape sh).map (·.pid) = List.range sh.nelems := by
        rcases helems : sh.elems with elem | elem | elem <;>
          simp [boundPrimsOfShape, helems, List.map_map, Function.comp_def,
            ShapeBVH.nelems, ShapeElems.nelems]
      exact (hp.map (·.pid)).trans (by rw [hmap])
  · intro scene scene' h
    unfold yb_build_scene_bvh at h
    dsimp only at h
    split at h
    · exact absurd h (by simp)
    · rename_i shapes' heqs
      split at h
      · exact absurd h (by simp)
      · rename_i nodes nn bps' heq
        cases h
        have hp : bps'.Perm (boundPrimsOfScene shapes' scene.xforms) :=
          yb__make_node_perm _ _ _ _ _ _ _ _ _ _ _ heq
        have hlen : shapes'.length = scene.shapes.length := buildShapes_length _ _ heqs
        have hmap : (boundPrimsOfScene shapes' scene.xforms).map (·.pid) =
            List.range scene.nshapes := by
          simp [boundPrimsOfScene, List.map_map, Function.comp_def, hlen, SceneBVH.nshapes]
        exact (hp.map (·.pid)).trans (by rw [hmap])

/-- C7 (witness): the six-triangle SAH build produces a `sorted_prim`
(concretely `[1, 0, 3, 2, 5, 4]`) that is a permutation of `0..5`. -/
theorem c7_sorted_prim_permutation_witness :
    ((yb_build_shape_bvh tri6).getD tri6).sorted_prim.Perm (List.range tri6.nelems) :=
  c7_sorted_prim_permutation.1 tri6 ((yb_build_shape_bvh tri6).getD tri6) rfl

/-! ### AABB expansion lemmas -/

theorem subR_refl (r : Range3) : subR r r := by
  unfold subR; refine ⟨le_refl _, le_refl _, le_refl _, le_refl _, le_refl _, le_refl _⟩

theorem subR_trans {a b c : Range3} (h1 : subR a b) (h2 : subR b c) : subR a c := by
  unfold subR at *
  obtain ⟨a1, a2, a3, a4, a5, a6⟩ := h1
  obtain ⟨b1, b2, b3, b4, b5, b6⟩ := h2
  exact ⟨le_trans b1 a1, le_trans a2 b2, le_trans b3 a3, le_trans a4 b4,
    le_trans b5 a5, le_trans a6 b6⟩

theorem subR_rexpandr_left (a b : Range3) : subR a (ym_rexpandr a b) := by
  unfold subR ym_rexpandr Vec3.cmin Vec3.cmax
  refine ⟨min_le_left _ _, le_max_left _ _, min_le_left _ _, le_max_left _ _,
    min_le_left _ _, le_max_left _ _⟩

theorem subR_rexpandr_right (a b : Range3) : subR b (ym_rexpandr a b) := by
  unfold subR ym_rexpandr Vec3.cmin Vec3.cmax
  refine ⟨min_le_right _ _, le_max_right _ _, min_le_right _ _, le_max_right _ _,
    min_le_right _ _, le_max_right _ _⟩

theorem rexpandr_subR {a b c : Range3} (h1 : subR a c) (h2 : subR b c) :
    subR (ym_rexpandr a b) c := by
  unfold subR ym_rexpandr Vec3.cmin Vec3.cmax at *
  obtain ⟨a1, a2, a3, a4, a5, a6⟩ := h1
  obtain ⟨b1, b2, b3, b4, b5, b6⟩ := h2
  refine ⟨le_min a1 b1, max_le a2 b2, le_min a3 b3, max_le a4 b4, le_min a5 b5, max_le a6 b6⟩

theorem foldl_rexpandr_acc (L : List Range3) :
    ∀ (acc : Range3), subR acc (L.foldl ym_rexpandr acc) := by
  induction L with
  | nil => intro acc; exact subR_refl acc
  | cons r rs ih =>
    intro acc
    exact subR_trans (subR_rexpandr_left acc r) (ih (ym_rexpandr acc r))

theorem foldl_rexpandr_mem (L : List Range3) :
    ∀ (acc : Range3) (r : Range3), r ∈ L → subR r (L.foldl ym_rexpandr acc) := by
  induction L with
  | nil => intro acc r h; simp at h
  | cons x rs ih =>
    intro acc r h
    rcases List.mem_cons.mp h with rfl | h'
    · exact subR_trans (subR_rexpandr_right acc r) (foldl_rexpandr_acc rs _)
    · exact ih _ r h'

theorem bboxOfRs_mem {L : List Range3} {r : Range3} (h : r ∈ L) : subR r (bboxOfRs L) := by
  match L, h with
  | x :: rs, h =>
    unfold bboxOfRs
    rcases List.mem_cons.mp h with rfl | h'
    · exact foldl_rexpandr_acc rs r
    · exact foldl_rexpandr_mem rs x r h'

theorem foldl_rexpandr_lub {B : Range3} (L : List Range3) :
    ∀ (acc : Range3), subR acc B → (∀ r ∈ L, subR r B) →
      subR (L.foldl ym_rexpandr acc) B := by
  induction L with
  | nil => intro acc h _; exact h
  | cons x rs ih =>
    intro acc hacc hall
    refine ih _ (rexpandr_subR hacc (hall x (List.mem_cons_self x rs))) ?_
    intro r hr
    exact hall r (List.mem_cons_of_mem x hr)

theorem bboxOfRs_lub {B : Range3} {L : List Range3} (hne : L ≠ [])
    (h : ∀ r ∈ L, subR r B) : subR (bboxOfRs L) B := by
  match L, hne with
  | x :: rs, _ =>
    unfold bboxOfRs
    exact foldl_rexpandr_lub rs x (h x (List.mem_cons_self x rs))
      (fun r hr => h r (List.mem_cons_of_mem x hr))

/-! ### Subrange lemmas -/

theorem subList_length (l : List α) (s len : ℕ) (h : s + len ≤ l.length) :
    (subList l s len).length = len := by
  unfold subList
  rw [List.length_take, List.length_drop]
  omega

theorem subList_getD (d : α) (l : List α) (s len k : ℕ) (hk : k < len)
    (h : s + len ≤ l.length) : (subList l s len).getD k d = l.getD (s + k) d := by
  unfold subList
  rw [List.getD_eq_getElem?_getD, List.getD_eq_getElem?_getD]
  rw [List.getElem?_take_of_lt hk, List.getElem?_drop]

theorem getD_mem_subList (d : α) (l : List α) (s len k : ℕ) (hk1 : s ≤ k)
    (hk2 : k < s + len) (h : s + len ≤ l.length) : l.getD k d ∈ subList l s len := by
  have hlen : (subList l s len).length = len := subList_length l s len h
  have := subList_getD d l s len (k - s) (by omega) h
  rw [show s + (k - s) = k by omega] at this
  rw [← this]
  have hklen : k - s < (subList l s len).length := by omega
  rw [List.getD_eq_getElem?_getD, List.getElem?_eq_getElem hklen]
  exact List.getElem_mem _

theorem mem_subList_getD (d : α) {l : List α} {s len : ℕ} {x : α}
    (h : x ∈ subList l s len) (hlen : s + len ≤ l.length) :
    ∃ k, s ≤ k ∧ k < s + len ∧ l.getD k d = x := by
  obtain ⟨i, hi, hx⟩ := List.mem_iff_getElem.mp h
  have hilen : i < len := by
    have := subList_length l s len hlen
    omega
  refine ⟨s + i, by omega, by omega, ?_⟩
  rw [← subList_getD d l s len i hilen hlen]
  rw [List.getD_eq_getElem?_getD, List.getElem?_eq_getElem hi, hx]
  rfl

/-! ### SubrangeStable lemmas -/

theorem subrangeStable_refl (s e : ℕ) (l : List BoundPrim) (hs : s < e)
    (he : e ≤ l.length) : SubrangeStable s e l l := by
  refine ⟨rfl, fun k _ => rfl, fun k hk1 hk2 => ?_⟩
  exact getD_mem_subList default l s (e - s) k hk1 (by omega) (by omega)

theorem subrangeStable_trans {s e : ℕ} {l l' l'' : List BoundPrim}
    (h1 : SubrangeStable s e l l') (h2 : SubrangeStable s e l' l'')
    (hs : s < e) (he : e ≤ l.length) : SubrangeStable s e l l'' := by
  obtain ⟨hlen1, hout1, hin1⟩ := h1
  obtain ⟨hlen2, hout2, hin2⟩ := h2
  refine ⟨hlen2.trans hlen1, fun k hk => (hout2 k hk).trans (hout1 k hk), ?_⟩
  intro k hk1 hk2
  obtain ⟨j, hj1, hj2, hjx⟩ := mem_subList_getD default (hin2 k hk1 hk2) (by omega)
  rw [← hjx]
  exact hin1 j hj1 (by omega)

theorem yb__heapsort_length (arr : List BoundPrim) (axis : ℕ) :
    (yb__heapsort_bound_prim arr axis).length = arr.length :=
  (yb__heapsort_bound_prim_perm arr axis).length_eq

theorem sortSub_stable (l : List BoundPrim) (s e axis : ℕ) (hs : s < e)
    (he : e ≤ l.length) : SubrangeStable s e l (sortSub l s (e - s) axis) := by
  have hsublen : (subList l s (e - s)).length = e - s := subList_length l s (e - s) (by omega)
  have hsortlen : (yb__heapsort_bound_prim (subList l s (e - s)) axis).length = e - s := by
    rw [yb__heapsort_length, hsublen]
  have htakelen : (l.take s).length = s := by
    rw [List.length_take]; omega
  refine ⟨?_, ?_, ?_⟩
  · rw [sortSub_length]
  · intro k hk
    unfold sortSub
    rw [List.append_assoc]
    rcases hk with hk | hk
    · rw [List.getD_append _ _ _ _ (by rw [htakelen]; omega)]
      rw [List.getD_eq_getElem?_getD, List.getD_eq_getElem?_getD, List.getElem?_take_of_lt hk]
    · rw [List.getD_append_right _ _ _ _ (by rw [htakelen]; omega)]
      rw [List.getD_append_right _ _ _ _ (by rw [htakelen, hsortlen]; omega)]
      rw [htakelen, hsortlen]
      rw [List.getD_eq_getElem?_getD, List.getD_eq_getElem?_getD, List.getElem?_drop]
      rw [show s + (e - s) + (k - s - (e - s)) = k from by omega]
  · intro k hk1 hk2
    unfold sortSub
    rw [List.append_assoc]
    rw [List.getD_append_right _ _ _ _ (by rw [htakelen]; omega)]
    rw [List.getD_append _ _ _ _ (by rw [htakelen, hsortlen]; omega)]
    rw [htakelen]
    have hmem : (yb__heapsort_bound_prim (subList l s (e - s)) axis).getD (k - s) default ∈
        yb__heapsort_bound_prim (subList l s (e - s)) axis := by
      rw [List.getD_eq_getElem?_getD,
        List.getElem?_eq_getElem (by rw [hsortlen]; omega)]
      exact List.getElem_mem _
    exact (yb__heapsort_bound_prim_perm _ axis).mem_iff.mp hmem

theorem sahAxisStep_stable (s e : ℕ) (st : Option (ℚ × ℕ × ℕ) × List BoundPrim) (a : ℕ)
    (hs : s < e) (he : e ≤ st.2.length) :
    SubrangeStable s e st.2 (sahAxisStep s e st a).2 := by
  unfold sahAxisStep
  exact sortSub_stable st.2 s e a hs he

theorem foldl_sahAxisStep_stable (s e : ℕ) (hs : s < e) :
    ∀ (L : List ℕ) (st : Option (ℚ × ℕ × ℕ) × List BoundPrim), e ≤ st.2.length →
      SubrangeStable s e st.2 (L.foldl (sahAxisStep s e) st).2 := by
  intro L
  induction L with
  | nil => intro st he; exact subrangeStable_refl s e st.2 hs he
  | cons a as ih =>
    intro st he
    rw [List.foldl_cons]
    have h1 : SubrangeStable s e st.2 (sahAxisStep s e st a).2 :=
      sahAxisStep_stable s e st a hs he
    have hlen : (sahAxisStep s e st a).2.length = st.2.length := h1.1
    exact subrangeStable_trans h1 (ih _ (by omega)) hs he

theorem yb__split_axis_stable (prims : List BoundPrim) (s e h : ℕ) (hs : s < e)
    (he : e ≤ prims.length) :
    SubrangeStable s e prims (yb__split_axis prims s e h).2.2 := by
  unfold yb__split_axis
  match h with
  | 1 => exact subrangeStable_refl s e prims hs he
  | 0 =>
    dsimp only
    rcases hr : ([0, 1, 2].foldl (sahAxisStep s e) (none, prims)).1 with _ | r
    · exact foldl_sahAxisStep_stable s e hs [0, 1, 2] (none, prims) he
    · obtain ⟨c, a, m⟩ := r
      exact foldl_sahAxisStep_stable s e hs [0, 1, 2] (none, prims) he
  | 2 =>
    dsimp only
    rcases hr : ([0, 1, 2].foldl (sahAxisStep s e) (none, prims)).1 with _ | r
    · exact foldl_sahAxisStep_stable s e hs [0, 1, 2] (none, prims) he
    · obtain ⟨c, a, m⟩ := r
      exact foldl_sahAxisStep_stable s e hs [0, 1, 2] (none, prims) he
  | (n + 3) => exact subrangeStable_refl s e prims hs he

/-! ### Split bounds -/

theorem sahScanStep_bounds (costL costR : List ℚ) (s e a : ℕ)
    (best : Option (ℚ × ℕ × ℕ)) (k : ℕ) (ha : a ≤ 2)
    (hbest : ∀ c a' m, best = some (c, a', m) → a' ≤ 2 ∧ s + 2 ≤ m ∧ m ≤ e - 2) :
    ∀ c a' m, sahScanStep costL costR s e a best k = some (c, a', m) →
      a' ≤ 2 ∧ s + 2 ≤ m ∧ m ≤ e - 2 := by
  intro c a' m hm
  unfold sahScanStep at hm
  dsimp only at hm
  split_ifs at hm with hle
  · rcases best with _ | ⟨mc, ba, bm⟩
    · cases hm
      exact ⟨ha, by omega, hle⟩
    · dsimp only at hm
      split_ifs at hm with hcost
      · cases hm
        exact ⟨ha, by omega, hle⟩
      · cases hm
        exact hbest _ _ _ rfl
  · exact hbest _ _ _ hm

theorem sahScanStep_some (costL costR : List ℚ) (s e a : ℕ)
    (best : Option (ℚ × ℕ × ℕ)) (k : ℕ) (hbest : best ≠ none) :
    sahScanStep costL costR s e a best k ≠ none := by
  unfold sahScanStep
  dsimp only
  split_ifs with hle
  · rcases best with _ | ⟨mc, ba, bm⟩
    · simp
    · dsimp only
      split_ifs <;> simp
  · exact hbest

theorem sahScan_preserves (costL costR : List ℚ) (s e a : ℕ)
    (best : Option (ℚ × ℕ × ℕ)) (ha : a ≤ 2)
    (hbest : ∀ c a' m, best = some (c, a', m) → a' ≤ 2 ∧ s + 2 ≤ m ∧ m ≤ e - 2) :
    ∀ c a' m, sahScan costL costR s e a best = some (c, a', m) →
      a' ≤ 2 ∧ s + 2 ≤ m ∧ m ≤ e - 2 := by
  unfold sahScan
  generalize List.range (e - 1 - (s + 2) + 1) = L
  induction L generalizing best with
  | nil => exact hbest
  | cons k ks ih =>
    rw [List.foldl_cons]
    exact ih _ (sahScanStep_bounds costL costR s e a best k ha hbest)

theorem foldl_sahScanStep_ne_none (costL costR : List ℚ) (s e a : ℕ) :
    ∀ (L : List ℕ) (best : Option (ℚ × ℕ × ℕ)), best ≠ none →
      L.foldl (sahScanStep costL costR s e a) best ≠ none := by
  intro L
  induction L with
  | nil => intro best h; exact h
  | cons k ks ih =>
    intro best h
    rw [List.foldl_cons]
    exact ih _ (sahScanStep_some costL costR s e a best k h)

theorem sahScan_some (costL costR : List ℚ) (s e a : ℕ) (best : Option (ℚ × ℕ × ℕ))
    (hcnt : 4 ≤ e - s) : sahScan costL costR s e a best ≠ none := by
  unfold sahScan
  have hrange : List.range (e - 1 - (s + 2) + 1) = 0 :: (List.range (e - 1 - (s + 2))).map (· + 1) := by
    rw [List.range_succ_eq_map]
  rw [hrange, List.foldl_cons]
  apply foldl_sahScanStep_ne_none
  unfold sahScanStep
  dsimp only
  rw [if_pos (by omega)]
  rcases best with _ | ⟨mc, ba, bm⟩
  · simp
  · dsimp only
    split_ifs <;> simp

theorem sahAxisStep_bounds (s e : ℕ) (st : Option (ℚ × ℕ × ℕ) × List BoundPrim)
    (a : ℕ) (ha : a ≤ 2)
    (hst : ∀ c a' m, st.1 = some (c, a', m) → a' ≤ 2 ∧ s + 2 ≤ m ∧ m ≤ e - 2) :
    ∀ c a' m, (sahAxisStep s e st a).1 = some (c, a', m) →
      a' ≤ 2 ∧ s + 2 ≤ m ∧ m ≤ e - 2 := by
  unfold sahAxisStep
  dsimp only
  exact sahScan_preserves _ _ s e a st.1 ha hst

theorem sahAxisStep_some (s e : ℕ) (st : Option (ℚ × ℕ × ℕ) × List BoundPrim)
    (a : ℕ) (hcnt : 4 ≤ e - s) : (sahAxisStep s e st a).1 ≠ none := by
  unfold sahAxisStep
  dsimp only
  exact sahScan_some _ _ s e a st.1 hcnt

theorem yb__split_axis_bounds (prims : List BoundPrim) (s e h : ℕ)
    (hh : heuristicOk h) (hcnt : 4 < e - s) :
    (yb__split_axis prims s e h).1 ≤ 2 ∧ s < (yb__split_axis prims s e h).2.1 ∧
      (yb__split_axis prims s e h).2.1 < e := by
  have hsah : ∀ hv : ℕ, hv = 0 ∨ hv = 2 →
      (yb__split_axis prims s e hv).1 ≤ 2 ∧ s < (yb__split_axis prims s e hv).2.1 ∧
        (yb__split_axis prims s e hv).2.1 < e := by
    intro hv hhv
    have key : ∀ c a m, ([0, 1, 2].foldl (sahAxisStep s e) (none, prims)).1 = some (c, a, m) →
        a ≤ 2 ∧ s + 2 ≤ m ∧ m ≤ e - 2 := by
      have h0 : ∀ c a' m, (Prod.fst (α := Option (ℚ × ℕ × ℕ)) (β := List BoundPrim)
          (none, prims)) = some (c, a', m) → a' ≤ 2 ∧ s + 2 ≤ m ∧ m ≤ e - 2 := by
        intro c a' m hm; exact absurd hm (by simp)
      have h1 := sahAxisStep_bounds s e (none, prims) 0 (by omega) h0
      have h2 := sahAxisStep_bounds s e (sahAxisStep s e (none, prims) 0) 1 (by omega) h1
      have h3 := sahAxisStep_bounds s e
        (sahAxisStep s e (sahAxisStep s e (none, prims) 0) 1) 2 (by omega) h2
      simpa [List.foldl_cons] using h3
    have hne : ([0, 1, 2].foldl (sahAxisStep s e) (none, prims)).1 ≠ none := by
      have := sahAxisStep_some s e
        (sahAxisStep s e (sahAxisStep s e (none, prims) 0) 1) 2 (by omega)
      simpa [List.foldl_cons] using this
    rcases hhv with rfl | rfl <;>
    · unfold yb__split_axis
      dsimp only
      rcases hr : ([0, 1, 2].foldl (sahAxisStep s e) (none, prims)).1 with _ | ⟨c, a, m⟩
      · exact absurd hr hne
      · have := key c a m hr
        dsimp only
        exact ⟨this.1, by omega, by omega⟩
  rcases hh with rfl | rfl | rfl
  · exact hsah 0 (Or.inl rfl)
  · unfold yb__split_axis
    dsimp only
    refine ⟨?_, by omega, by omega⟩
    split_ifs <;> omega
  · exact hsah 2 (Or.inr rfl)

/-! ### Tree-invariant transport lemmas -/

theorem GoodTree_S {nodes : ℕ → BVHNode} {nn : ℕ} {PB : ℕ → Range3} {S : ℕ → Prop}
    {id s e : ℕ} (h : GoodTree nodes nn PB S id s e) : S id := by
  cases h <;> assumption

theorem GoodTree_le {nodes : ℕ → BVHNode} {nn : ℕ} {PB : ℕ → Range3} {S : ℕ → Prop}
    {id s e : ℕ} (h : GoodTree nodes nn PB S id s e) : s ≤ e := by
  induction h with
  | leaf id s e hS hlt hleaf hstart hcount hse hsub => exact hse
  | internal id s m e hS hlt hleaf hcount hid hstart hL hR hs1 hs2 ihL ihR => omega

theorem GoodTree_mono_S {nodes : ℕ → BVHNode} {nn : ℕ} {PB : ℕ → Range3}
    {S S' : ℕ → Prop} {id s e : ℕ} (hmono : ∀ j, S j → S' j)
    (h : GoodTree nodes nn PB S id s e) : GoodTree nodes nn PB S' id s e := by
  induction h with
  | leaf id s e hS hlt hleaf hstart hcount hse hsub =>
    exact .leaf id s e (hmono id hS) hlt hleaf hstart hcount hse hsub
  | internal id s m e hS hlt hleaf hcount hid hstart hL hR hs1 hs2 ihL ihR =>
    exact .internal id s m e (hmono id hS) hlt hleaf hcount hid hstart ihL ihR hs1 hs2

theorem GoodTree_congr_PB {nodes : ℕ → BVHNode} {nn : ℕ} {PB : ℕ → Range3}
    {S : ℕ → Prop} {id s e : ℕ} (PB' : ℕ → Range3)
    (h : GoodTree nodes nn PB S id s e) :
    (∀ k, s ≤ k → k < e → PB' k = PB k) → GoodTree nodes nn PB' S id s e := by
  induction h with
  | leaf id s e hS hlt hleaf hstart hcount hse hsub =>
    intro hpb
    exact .leaf id s e hS hlt hleaf hstart hcount hse
      (fun k hk1 hk2 => by rw [hpb k hk1 hk2]; exact hsub k hk1 hk2)
  | internal id s m e hS hlt hleaf hcount hid hstart hL hR hs1 hs2 ihL ihR =>
    intro hpb
    exact .internal id s m e hS hlt hleaf hcount hid hstart
      (ihL (fun k hk1 hk2 => hpb k hk1 (by have := GoodTree_le hR; omega)))
      (ihR (fun k hk1 hk2 => hpb k (by have := GoodTree_le hL; omega) hk2))
      hs1 hs2

theorem GoodTree_frame {nodes nodes' : ℕ → BVHNode} {nn nn' : ℕ} {PB : ℕ → Range3}
    {S : ℕ → Prop} {id s e : ℕ} (hnn : nn ≤ nn')
    (hagree : ∀ j, S j → nodes' j = nodes j)
    (h : GoodTree nodes nn PB S id s e) : GoodTree nodes' nn' PB S id s e := by
  induction h with
  | leaf id s e hS hlt hleaf hstart hcount hse hsub =>
    have heq : nodes' id = nodes id := hagree id hS
    exact .leaf id s e hS (by omega) (by rw [heq]; exact hleaf)
      (by rw [heq]; exact hstart) (by rw [heq]; exact hcount) hse
      (fun k hk1 hk2 => by rw [heq]; exact hsub k hk1 hk2)
  | internal id s m e hS hlt hleaf hcount hid hstart hL hR hs1 hs2 ihL ihR =>
    have heq : nodes' id = nodes id := hagree id hS
    have heqL : nodes' ((nodes id).start) = nodes ((nodes id).start) :=
      hagree _ (GoodTree_S hL)
    have heqR : nodes' ((nodes id).start + 1) = nodes ((nodes id).start + 1) :=
      hagree _ (GoodTree_S hR)
    exact .internal id s m e hS (by omega) (by rw [heq]; exact hleaf)
      (by rw [heq]; exact hcount) (by rw [heq]; exact hid) (by rw [heq]; omega)
      (by rw [heq]; exact ihL) (by rw [heq]; exact ihR)
      (by rw [heq, heqL]; exact hs1) (by rw [heq, heqR]; exact hs2)

theorem subrangeStable_widen {s m e : ℕ} {l l' : List BoundPrim}
    (h : SubrangeStable s m l l') (hm : m ≤ e) (he : e ≤ l.length) :
    SubrangeStable s e l l' := by
  obtain ⟨hlen, hout, hin⟩ := h
  refine ⟨hlen, fun k hk => hout k (by omega), fun k hk1 hk2 => ?_⟩
  by_cases hkm : k < m
  · obtain ⟨j, hj1, hj2, hjx⟩ := mem_subList_getD default (hin k hk1 hkm) (by omega)
    rw [← hjx]
    exact getD_mem_subList default l s (e - s) j hj1 (by omega) (by omega)
  · rw [hout k (by omega)]
    exact getD_mem_subList default l s (e - s) k hk1 (by omega) (by omega)

theorem subrangeStable_widen_left {s m e : ℕ} {l l' : List BoundPrim}
    (h : SubrangeStable m e l l') (hs : s ≤ m) (he : e ≤ l.length) :
    SubrangeStable s e l l' := by
  obtain ⟨hlen, hout, hin⟩ := h
  refine ⟨hlen, fun k hk => hout k (by omega), fun k hk1 hk2 => ?_⟩
  by_cases hkm : m ≤ k
  · obtain ⟨j, hj1, hj2, hjx⟩ := mem_subList_getD default (hin k hkm hk2) (by omega)
    rw [← hjx]
    exact getD_mem_subList default l s (e - s) j (by omega) (by omega) (by omega)
  · rw [hout k (by omega)]
    exact getD_mem_subList default l s (e - s) k hk1 (by omega) (by omega)

/-- The recursive builder's postconditions: node count grows, the staging
array is only permuted within `[s, e)`, nodes outside the written window
are untouched, the root's bbox is the hull of the subrange's bboxes at
entry, and the written nodes form a well-formed tree whose per-slot bboxes
contain the final staging records. -/
theorem yb__make_node_spec :
    ∀ (fuel : ℕ) (nodes : ℕ → BVHNode) (nn : ℕ) (prims : List BoundPrim)
      (nodeid s e heu : ℕ) (nodes' : ℕ → BVHNode) (nn' : ℕ)
      (prims' : List BoundPrim),
      heuristicOk heu → s < e → e ≤ prims.length → nodeid < nn →
      yb__make_node fuel nodes nn prims nodeid s e heu = some (nodes', nn', prims') →
      nn ≤ nn' ∧
      SubrangeStable s e prims prims' ∧
      (∀ j, j ≠ nodeid → (j < nn ∨ nn' ≤ j) → nodes' j = nodes j) ∧
      (nodes' nodeid).bbox = bboxOfRs ((subList prims s (e - s)).map (·.bbox)) ∧
      GoodTree nodes' nn' (fun k => (prims'.getD k default).bbox)
        (fun j => j = nodeid ∨ (nn ≤ j ∧ j < nn')) nodeid s e ∧
      (∀ j, nn ≤ j → j < nn' → ∃ a b, s ≤ a ∧ a < b ∧ b ≤ e ∧
        GoodTree nodes' nn' (fun k => (prims'.getD k default).bbox)
          (fun j' => j' = nodeid ∨ (nn ≤ j' ∧ j' < nn')) j a b) := by
  intro fuel
  induction fuel with
  | zero =>
    intro nodes nn prims nodeid s e heu nodes' nn' prims' _ _ _ _ h
    exact absurd h (by simp [yb__make_node])
  | succ f ih =>
    intro nodes nn prims nodeid s e heu nodes' nn' prims' hh hse hlen hid h
    rw [yb__make_node] at h
    dsimp only at h
    split_ifs at h with hleafq
    · -- leaf case
      cases h
      refine ⟨le_refl nn, subrangeStable_refl s e prims hse hlen, ?_, ?_, ?_, ?_⟩
      · intro j hj _
        simp [updNode, hj]
      · simp [updNode]
      · refine GoodTree.leaf nodeid s e (Or.inl rfl) hid (by simp [updNode])
          (by simp [updNode]) (by simp [updNode]) (le_of_lt hse) ?_
        intro k hk1 hk2
        have hbb : (updNode nodes nodeid
            ⟨bboxOfRs ((subList prims s (e - s)).map (·.bbox)), s, e - s, true, 0⟩
            nodeid).bbox = bboxOfRs ((subList prims s (e - s)).map (·.bbox)) := by
          simp [updNode]
        rw [hbb]
        exact bboxOfRs_mem (List.mem_map.mpr
          ⟨prims.getD k default, getD_mem_subList default prims s (e - s) k hk1
            (by omega) (by omega), rfl⟩)
      · intro j hj1 hj2
        omega
    · -- internal case
      have h4 : 4 < e - s := by
        simp only [YB__BVH_MINPRIMS] at hleafq
        omega
      obtain ⟨hax, hmid1, hmid2⟩ := yb__split_axis_bounds prims s e heu hh h4
      have hsplen : (yb__split_axis prims s e heu).2.2.length = prims.length :=
        (yb__split_axis_perm prims s e heu).length_eq
      have hp2len : (sortSub (yb__split_axis prims s e heu).2.2 s (e - s)
          (yb__split_axis prims s e heu).1).length = prims.length := by
        rw [sortSub_length, hsplen]
      split at h
      · exact absurd h (by simp)
      · rename_i nodes₂ nn₂ prims₃ heq₂
        obtain ⟨hA1, hA2, hA3, hA4, hA5, hA6⟩ :=
          ih _ _ _ _ _ _ _ _ _ _ hh hmid1 (by rw [hp2len]; omega) (by omega) heq₂
        have hp3len : prims₃.length = prims.length := by
          rw [hA2.1, hp2len]
        split at h
        · exact absurd h (by simp)
        · rename_i nodes₃ nn₃ prims₄ heq₃
          obtain ⟨hB1, hB2, hB3, hB4, hB5, hB6⟩ :=
            ih _ _ _ _ _ _ _ _ _ _ hh hmid2 (by rw [hp3len]; exact hlen)
              (by omega) heq₃
          cases h
          have hp4len : prims'.length = prims.length := by
            rw [hB2.1, hp3len]
          -- the parent node's record, read back through both frames
          have n3id : nodes' nodeid =
              ⟨bboxOfRs ((subList prims s (e - s)).map (·.bbox)), nn, 2, false,
                (yb__split_axis prims s e heu).1⟩ := by
            rw [hB3 nodeid (by omega) (Or.inl (by omega)),
              hA3 nodeid (by omega) (Or.inl (by omega))]
            simp [updNode]
          -- staging stability over the whole subrange
          have S1 : SubrangeStable s e prims (yb__split_axis prims s e heu).2.2 :=
            yb__split_axis_stable prims s e heu hse hlen
          have S2 : SubrangeStable s e (yb__split_axis prims s e heu).2.2
              (sortSub (yb__split_axis prims s e heu).2.2 s (e - s)
                (yb__split_axis prims s e heu).1) :=
            sortSub_stable _ s e _ hse (by rw [hsplen]; exact hlen)
          have S12 : SubrangeStable s e prims
              (sortSub (yb__split_axis prims s e heu).2.2 s (e - s)
                (yb__split_axis prims s e heu).1) :=
            subrangeStable_trans S1 S2 hse hlen
          have S3 := subrangeStable_widen hA2 (le_of_lt hmid2) (by rw [hp2len]; exact hlen)
          have S4 := subrangeStable_widen_left hB2 (le_of_lt hmid1)
            (by rw [hp3len]; exact hlen)
          have Sall : SubrangeStable s e prims prims' :=
            subrangeStable_trans (subrangeStable_trans S12 S3 hse hlen) S4 hse hlen
          -- transported left subtree
          have hagreeL : ∀ j, (j = nn ∨ (nn + 2 ≤ j ∧ j < nn₂)) →
              nodes' j = nodes₂ j := by
            intro j hj
            exact hB3 j (by omega) (Or.inl (by omega))
          have monoL : ∀ j, (j = nn ∨ (nn + 2 ≤ j ∧ j < nn₂)) →
              (j = nodeid ∨ (nn ≤ j ∧ j < nn')) := by
            intro j hj
            rcases hj with rfl | ⟨h1, h2⟩
            · exact Or.inr ⟨le_refl _, by omega⟩
            · exact Or.inr ⟨by omega, by omega⟩
          have monoR : ∀ j, (j = nn + 1 ∨ (nn₂ ≤ j ∧ j < nn')) →
              (j = nodeid ∨ (nn ≤ j ∧ j < nn')) := by
            intro j hj
            rcases hj with rfl | ⟨h1, h2⟩
            · exact Or.inr ⟨by omega, by omega⟩
            · exact Or.inr ⟨by omega, by omega⟩
          have T3 : GoodTree nodes' nn' (fun k => (prims'.getD k default).bbox)
              (fun j => j = nodeid ∨ (nn ≤ j ∧ j < nn')) nn s
              (yb__split_axis prims s e heu).2.1 := by
            refine GoodTree_mono_S monoL (GoodTree_congr_PB _
              (GoodTree_frame hB1 hagreeL hA5) ?_)
            intro k hk1 hk2
            show (prims'.getD k default).bbox = (prims₃.getD k default).bbox
            rw [hB2.2.1 k (Or.inl hk2)]
          have T4 : GoodTree nodes' nn' (fun k => (prims'.getD k default).bbox)
              (fun j => j = nodeid ∨ (nn ≤ j ∧ j < nn')) (nn + 1)
              (yb__split_axis prims s e heu).2.1 e :=
            GoodTree_mono_S monoR hB5
          -- child bboxes are inside the parent's hull
          have hchildL : subR (nodes' nn).bbox
              (bboxOfRs ((subList prims s (e - s)).map (·.bbox))) := by
            rw [hB3 nn (by omega) (Or.inl (by omega)), hA4]
            apply bboxOfRs_lub
            · intro hnil
              have := congrArg List.length hnil
              rw [List.length_map, subList_length _ _ _ (by rw [hp2len]; omega)] at this
              simp at this
              omega
            · intro r hr
              obtain ⟨x, hx, rfl⟩ := List.mem_map.mp hr
              obtain ⟨k, hk1, hk2, hkx⟩ := mem_subList_getD default hx
                (by rw [hp2len]; omega)
              rw [← hkx]
              exact bboxOfRs_mem (List.mem_map.mpr
                ⟨_, S12.2.2 k hk1 (by omega), rfl⟩)
          have hchildR : subR (nodes' (nn + 1)).bbox
              (bboxOfRs ((subList prims s (e - s)).map (·.bbox))) := by
            rw [hB4]
            apply bboxOfRs_lub
            · intro hnil
              have := congrArg List.length hnil
              rw [List.length_map, subList_length _ _ _ (by rw [hp3len]; omega)] at this
              simp at this
              omega
            · intro r hr
              obtain ⟨x, hx, rfl⟩ := List.mem_map.mp hr
              obtain ⟨k, hk1, hk2, hkx⟩ := mem_subList_getD default hx
                (by rw [hp3len]; omega)
              rw [← hkx, hA2.2.1 k (Or.inr (by omega))]
              exact bboxOfRs_mem (List.mem_map.mpr
                ⟨_, S12.2.2 k (by omega) (by omega), rfl⟩)
          have hstart_eq : (nodes' nodeid).start = nn := by rw [n3id]
          have hbb_eq : (nodes' nodeid).bbox =
              bboxOfRs ((subList prims s (e - s)).map (·.bbox)) := by rw [n3id]
          refine ⟨by omega, Sall, ?_, hbb_eq, ?_, ?_⟩
          · -- frame
            intro j hjne hjr
            have hr1 : j < nn₂ ∨ nn' ≤ j := by
              rcases hjr with hjr | hjr
              · exact Or.inl (by omega)
              · exact Or.inr (by omega)
            have hr2 : j < nn + 2 ∨ nn₂ ≤ j := by
              rcases hjr with hjr | hjr
              · exact Or.inl (by omega)
              · exact Or.inr (by omega)
            rw [hB3 j (by omega) hr1, hA3 j (by omega) hr2]
            simp [updNode, hjne]
          · -- the root's tree
            refine GoodTree.internal nodeid s (yb__split_axis prims s e heu).2.1 e
              (Or.inl rfl) (by omega) (by rw [n3id]) (by rw [n3id])
              (by rw [n3id]; exact hid) (by rw [hstart_eq]; omega) ?_ ?_ ?_ ?_
            · rw [hstart_eq]; exact T3
            · rw [hstart_eq]; exact T4
            · rw [hstart_eq, hbb_eq]; exact hchildL
            · rw [hstart_eq, hbb_eq]; exact hchildR
          · -- every written node roots a good subtree
            intro j hj1 hj2
            rcases Nat.lt_or_ge j (nn + 2) with hjc | hjc
            · rcases Nat.lt_or_ge j (nn + 1) with hj0 | hj0
              · have hje : j = nn := by omega
                subst hje
                exact ⟨s, (yb__split_axis prims s e heu).2.1, le_refl s, hmid1,
                  le_of_lt hmid2, T3⟩
              · have hje : j = nn + 1 := by omega
                subst hje
                exact ⟨(yb__split_axis prims s e heu).2.1, e, le_of_lt hmid1, hmid2,
                  le_refl e, T4⟩
            · rcases Nat.lt_or_ge j nn₂ with hjm | hjm
              · obtain ⟨a, b, ha, hab, hb, GT⟩ := hA6 j hjc hjm
                refine ⟨a, b, ha, hab, by omega,
                  GoodTree_mono_S monoL (GoodTree_congr_PB _
                    (GoodTree_frame hB1 hagreeL GT) ?_)⟩
                intro k hk1 hk2
                show (prims'.getD k default).bbox = (prims₃.getD k default).bbox
                rw [hB2.2.1 k (Or.inl (by omega))]
              · obtain ⟨a, b, ha, hab, hb, GT⟩ := hB6 j hjm hj2
                exact ⟨a, b, by omega, hab, hb, GoodTree_mono_S monoR GT⟩

/-! ### C8 prerequisites -/

theorem boundPrimsOfShape_length (sh : ShapeBVH) :
    (boundPrimsOfShape sh).length = sh.nelems := by
  rcases helems : sh.elems with elem | elem | elem <;>
    simp [boundPrimsOfShape, helems, ShapeBVH.nelems, ShapeElems.nelems]

theorem boundPrimsOfScene_length (shapes : List ShapeBVH) (xforms : List Affine3) :
    (boundPrimsOfScene shapes xforms).length = shapes.length := by
  simp [boundPrimsOfScene]

theorem pid_getD_of_mem {g : ℕ → BoundPrim} {N : ℕ} (hg : ∀ i, (g i).pid = i)
    {x : BoundPrim} (hx : x ∈ (List.range N).map g) :
    ((List.range N).map g).getD x.pid default = x := by
  obtain ⟨i, hi, rfl⟩ := List.mem_map.mp hx
  rw [hg i, List.getD_eq_getElem?_getD, List.getElem?_map,
    List.getElem?_range (List.mem_range.mp hi)]
  rfl

theorem boundPrimsOfShape_getD_pid (sh : ShapeBVH) {x : BoundPrim}
    (hx : x ∈ boundPrimsOfShape sh) :
    (boundPrimsOfShape sh).getD x.pid default = x := by
  rcases helems : sh.elems with elem | elem | elem <;>
  · unfold boundPrimsOfShape at hx ⊢
    rw [helems] at hx ⊢
    dsimp only at hx ⊢
    exact pid_getD_of_mem (fun i => rfl) hx

theorem primBuildBBox_of_mem (sh : ShapeBVH) {x : BoundPrim}
    (hx : x ∈ boundPrimsOfShape sh) : primBuildBBox sh x.pid = x.bbox := by
  unfold primBuildBBox
  rw [boundPrimsOfShape_getD_pid sh hx]

theorem boundPrimsOfScene_getD_pid (shapes : List ShapeBVH) (xforms : List Affine3)
    {x : BoundPrim} (hx : x ∈ boundPrimsOfScene shapes xforms) :
    (boundPrimsOfScene shapes xforms).getD x.pid default = x := by
  unfold boundPrimsOfScene at hx ⊢
  exact pid_getD_of_mem (fun i => rfl) hx

theorem subList_all (l : List α) : subList l 0 l.length = l := by
  simp [subList]

theorem GoodTree_local {nodes : ℕ → BVHNode} {nn : ℕ} {PB : ℕ → Range3}
    {S : ℕ → Prop} {id s e : ℕ} (h : GoodTree nodes nn PB S id s e) :
    ((nodes id).isleaf = true → ∀ k, (nodes id).start ≤ k →
      k < (nodes id).start + (nodes id).count → subR (PB k) (nodes id).bbox) ∧
    ((nodes id).isleaf = false →
      subR (nodes ((nodes id).start)).bbox (nodes id).bbox ∧
      subR (nodes ((nodes id).start + 1)).bbox (nodes id).bbox) := by
  cases h with
  | leaf id s e hS hlt hleaf hstart hcount hse hsub =>
    constructor
    · intro _ k hk1 hk2
      rw [hstart] at hk1
      rw [hstart, hcount] at hk2
      exact hsub k hk1 (by omega)
    · intro hfalse
      exact absurd hfalse (by simp [hleaf])
  | internal id s m e hS hlt hleaf hcount hid hstart hL hR hs1 hs2 =>
    constructor
    · intro htrue
      exact absurd htrue (by simp [hleaf])
    · intro _
      exact ⟨hs1, hs2⟩

theorem getD_map_pid (l : List BoundPrim) (k : ℕ) (hk : k < l.length) :
    (l.map (·.pid)).getD k 0 = (l.getD k default).pid := by
  rw [List.getD_eq_getElem?_getD, List.getD_eq_getElem?_getD, List.getElem?_map,
    List.getElem?_eq_getElem hk]
  rfl

theorem GoodTree_leaf_range {nodes : ℕ → BVHNode} {nn : ℕ} {PB : ℕ → Range3}
    {S : ℕ → Prop} {id s e : ℕ} (h : GoodTree nodes nn PB S id s e)
    (hleaf : (nodes id).isleaf = true) :
    (nodes id).start + (nodes id).count ≤ e := by
  cases h with
  | leaf id s e hS hlt hl hstart hcount hse hsub =>
    rw [hstart, hcount]
    omega
  | internal id s m e hS hlt hl hcount hid hstart hL hR hs1 hs2 =>
    exact absurd hleaf (by simp [hl])

/-- C8: after build, every internal node's bbox contains both children's
bboxes (stored at `start` and `start + 1`), and every leaf's bbox contains
the build-time AABB of every primitive it references through
`sorted_prim` — at the shape level (primitive AABBs) and at the scene
level (transformed shape-root AABBs). -/
theorem c8_bbox_containment :
    (∀ (sh sh' : ShapeBVH), heuristicOk sh.heuristic → 1 ≤ sh.nelems →
      yb_build_shape_bvh sh = some sh' →
      ∀ id, id < sh'.nnodes →
        (((sh'.nodes id).isleaf = true → ∀ k, (sh'.nodes id).start ≤ k →
            k < (sh'.nodes id).start + (sh'.nodes id).count →
            subR (primBuildBBox sh (sh'.sorted_prim.getD k 0)) (sh'.nodes id).bbox) ∧
         ((sh'.nodes id).isleaf = false →
            subR (sh'.nodes ((sh'.nodes id).start)).bbox (sh'.nodes id).bbox ∧
            subR (sh'.nodes ((sh'.nodes id).start + 1)).bbox (sh'.nodes id).bbox))) ∧
    (∀ (scene scene' : SceneBVH), heuristicOk scene.heuristic →
      1 ≤ scene.shapes.length → yb_build_scene_bvh scene = some scene' →
      ∀ id, id < scene'.nnodes →
        (((scene'.nodes id).isleaf = true → ∀ k, (scene'.nodes id).start ≤ k →
            k < (scene'.nodes id).start + (scene'.nodes id).count →
            subR ((boundPrimsOfScene scene'.shapes scene'.xforms).getD
              (scene'.sorted_prim.getD k 0) default).bbox (scene'.nodes id).bbox) ∧
         ((scene'.nodes id).isleaf = false →
            subR (scene'.nodes ((scene'.nodes id).start)).bbox (scene'.nodes id).bbox ∧
            subR (scene'.nodes ((scene'.nodes id).start + 1)).bbox
              (scene'.nodes id).bbox))) := by
  constructor
  · intro sh sh' hh hn hb id hid
    unfold yb_build_shape_bvh at hb
    dsimp only at hb
    split at hb
    · exact absurd hb (by simp)
    · rename_i nodes nn bps' heq
      cases hb
      dsimp only at hid ⊢
      have hlen : sh.nelems ≤ (boundPrimsOfShape sh).length := by
        rw [boundPrimsOfShape_length]
      obtain ⟨h1, h2, h3, h4, h5, h6⟩ :=
        yb__make_node_spec _ _ _ _ _ _ _ _ _ _ _ hh (by omega) hlen (by omega) heq
      have hGT : ∃ a b, b ≤ sh.nelems ∧
          GoodTree nodes nn (fun k => (bps'.getD k default).bbox)
            (fun j => j = 0 ∨ (1 ≤ j ∧ j < nn)) id a b := by
        rcases Nat.eq_zero_or_pos id with rfl | hpos
        · exact ⟨0, sh.nelems, le_refl _, h5⟩
        · obtain ⟨a, b, _, _, hb', GT⟩ := h6 id hpos hid
          exact ⟨a, b, hb', GT⟩
      obtain ⟨a, b, hbn, GT⟩ := hGT
      have hloc := GoodTree_local GT
      constructor
      · intro hleaf k hk1 hk2
        have hkb := GoodTree_leaf_range GT hleaf
        have hkn : k < sh.nelems := by omega
        have hk' : k < bps'.length := by
          rw [h2.1, boundPrimsOfShape_length]
          exact hkn
        rw [getD_map_pid bps' k hk']
        have hmem : bps'.getD k default ∈ boundPrimsOfShape sh := by
          have hsl : subList (boundPrimsOfShape sh) 0 (sh.nelems - 0) =
              boundPrimsOfShape sh := by
            rw [Nat.sub_zero, ← boundPrimsOfShape_length sh, subList_all]
          have := h2.2.2 k (by omega) hkn
          rw [hsl] at this
          exact this
        rw [primBuildBBox_of_mem sh hmem]
        exact hloc.1 hleaf k hk1 hk2
      · exact hloc.2
  · intro scene scene' hh hn hb id hid
    unfold yb_build_scene_bvh at hb
    dsimp only at hb
    split at hb
    · exact absurd hb (by simp)
    · rename_i shapes' heqS
      split at hb
      · exact absurd hb (by simp)
      · rename_i nodes nn bps' heq
        cases hb
        dsimp only at hid ⊢
        have hshlen : shapes'.length = scene.shapes.length := buildShapes_length _ _ heqS
        have hlen : scene.shapes.length ≤ (boundPrimsOfScene shapes' scene.xforms).length := by
          rw [boundPrimsOfScene_length, hshlen]
        obtain ⟨h1, h2, h3, h4, h5, h6⟩ :=
          yb__make_node_spec _ _ _ _ _ _ _ _ _ _ _ hh (by omega) hlen (by omega) heq
        have hGT : ∃ a b, b ≤ scene.shapes.length ∧
            GoodTree nodes nn (fun k => (bps'.getD k default).bbox)
              (fun j => j = 0 ∨ (1 ≤ j ∧ j < nn)) id a b := by
          rcases Nat.eq_zero_or_pos id with rfl | hpos
          · exact ⟨0, scene.shapes.length, le_refl _, h5⟩
          · obtain ⟨a, b, _, _, hb', GT⟩ := h6 id hpos hid
            exact ⟨a, b, hb', GT⟩
        obtain ⟨a, b, hbn, GT⟩ := hGT
        have hloc := GoodTree_local GT
        constructor
        · intro hleaf k hk1 hk2
          have hkb := GoodTree_leaf_range GT hleaf
          have hkn : k < scene.shapes.length := by omega
          have hk' : k < bps'.length := by
            rw [h2.1, boundPrimsOfScene_length, hshlen]
            exact hkn
          rw [getD_map_pid bps' k hk']
          have hmem : bps'.getD k default ∈ boundPrimsOfScene shapes' scene.xforms := by
            have hsl : subList (boundPrimsOfScene shapes' scene.xforms) 0
                (scene.shapes.length - 0) = boundPrimsOfScene shapes' scene.xforms := by
              rw [Nat.sub_zero, ← hshlen, ← boundPrimsOfScene_length shapes' scene.xforms,
                subList_all]
            have := h2.2.2 k (by omega) hkn
            rw [hsl] at this
            exact this
          rw [boundPrimsOfScene_getD_pid shapes' scene.xforms hmem]
          exact hloc.1 hleaf k hk1 hk2
        · exact hloc.2

theorem c8_bbox_containment_witness :
    subR ((((yb_build_shape_bvh tri6).getD tri6).nodes
        ((((yb_build_shape_bvh tri6).getD tri6).nodes 0).start)).bbox)
      ((((yb_build_shape_bvh tri6).getD tri6).nodes 0).bbox) ∧
    subR ((((yb_build_shape_bvh tri6).getD tri6).nodes
        ((((yb_build_shape_bvh tri6).getD tri6).nodes 0).start + 1)).bbox)
      ((((yb_build_shape_bvh tri6).getD tri6).nodes 0).bbox) :=
  (c8_bbox_containment.1 tri6 ((yb_build_shape_bvh tri6).getD tri6) (by decide)
    (by decide) rfl 0 (by decide)).2 (by decide)

/-! ### Slab-test conservativity -/

theorem memR_mono {p : Vec3} {r₁ r₂ : Range3} (hm : memR p r₁) (hs : subR r₁ r₂) :
    memR p r₂ := by
  obtain ⟨a1, a2, a3, a4, a5, a6⟩ := hm
  obtain ⟨b1, b2, b3, b4, b5, b6⟩ := hs
  exact ⟨by linarith, by linarith, by linarith, by linarith, by linarith, by linarith⟩

theorem slabAxis_conserv (o d bmn bmx tmin tmax t : ℚ)
    (ht1 : tmin ≤ t) (ht2 : t ≤ tmax) (hb1 : bmn ≤ o + t * d) (hb2 : o + t * d ≤ bmx) :
    ∃ lo hi, slabAxis o d bmn bmx tmin tmax = some (lo, hi) ∧ lo ≤ t ∧ t ≤ hi := by
  unfold slabAxis
  split_ifs with hd hout
  · exfalso
    subst hd
    simp only [mul_zero, add_zero] at hb1 hb2
    rcases hout with hout | hout <;> linarith
  · exact ⟨tmin, tmax, rfl, ht1, ht2⟩
  · dsimp only
    rcases lt_or_le ((1:ℚ)/d) 0 with hinv | hinv
    · have hdneg : d < 0 := by
        by_contra hpos
        push_neg at hpos
        have hdp : 0 < d := lt_of_le_of_ne hpos (Ne.symm hd)
        have : 0 < 1/d := by positivity
        linarith
      simp only [if_pos hinv]
      have h1 : (bmx - o) * (1/d) ≤ t := by
        rw [mul_one_div, div_le_iff_of_neg hdneg]
        nlinarith
      have h2 : t ≤ (bmn - o) * (1/d) := by
        rw [mul_one_div, le_div_iff_of_neg hdneg]
        nlinarith
      have hA : (if (bmx - o) * (1/d) > tmin then (bmx - o) * (1/d) else tmin) ≤ t := by
        split_ifs
        · exact h1
        · exact ht1
      have hB : t ≤ (if (bmn - o) * (1/d) < tmax then (bmn - o) * (1/d) else tmax) := by
        split_ifs
        · exact h2
        · exact ht2
      rw [if_neg (by push_neg; linarith)]
      exact ⟨_, _, rfl, hA, hB⟩
    · have hdpos : 0 < d := by
        by_contra hneg
        push_neg at hneg
        have hdn : d < 0 := lt_of_le_of_ne hneg hd
        have : 1/d < 0 := by
          apply div_neg_of_pos_of_neg
          · norm_num
          · exact hdn
        linarith
      simp only [if_neg (not_lt.mpr hinv)]
      have h1 : (bmn - o) * (1/d) ≤ t := by
        rw [mul_one_div, div_le_iff₀ hdpos]
        nlinarith
      have h2 : t ≤ (bmx - o) * (1/d) := by
        rw [mul_one_div, le_div_iff₀ hdpos]
        nlinarith
      have hA : (if (bmn - o) * (1/d) > tmin then (bmn - o) * (1/d) else tmin) ≤ t := by
        split_ifs
        · exact h1
        · exact ht1
      have hB : t ≤ (if (bmx - o) * (1/d) < tmax then (bmx - o) * (1/d) else tmax) := by
        split_ifs
        · exact h2
        · exact ht2
      rw [if_neg (by push_neg; linarith)]
      exact ⟨_, _, rfl, hA, hB⟩

theorem ray_eval_comp (ray : Ray3) (t : ℚ) :
    (ray.eval t).x = ray.o.x + t * ray.d.x ∧ (ray.eval t).y = ray.o.y + t * ray.d.y ∧
      (ray.eval t).z = ray.o.z + t * ray.d.z := by
  unfold Ray3.eval Vec3.add Vec3.smul
  exact ⟨rfl, rfl, rfl⟩

theorem check_bbox_conserv (ray : Ray3) (bbox : Range3) (t : ℚ)
    (ht1 : ray.tmin ≤ t) (ht2 : t ≤ ray.tmax) (hm : memR (ray.eval t) bbox) :
    yb__intersect_check_bbox ray bbox = true := by
  obtain ⟨ex, ey, ez⟩ := ray_eval_comp ray t
  obtain ⟨a1, a2, a3, a4, a5, a6⟩ := hm
  rw [ex] at a1 a2
  rw [ey] at a3 a4
  rw [ez] at a5 a6
  unfold yb__intersect_check_bbox
  obtain ⟨lox, hix, hslabx, hx1, hx2⟩ :=
    slabAxis_conserv ray.o.x ray.d.x bbox.rmin.x bbox.rmax.x ray.tmin ray.tmax t
      ht1 ht2 a1 a2
  rw [hslabx]
  dsimp only
  obtain ⟨loy, hiy, hslaby, hy1, hy2⟩ :=
    slabAxis_conserv ray.o.y ray.d.y bbox.rmin.y bbox.rmax.y lox hix t hx1 hx2 a3 a4
  rw [hslaby]
  dsimp only
  obtain ⟨loz, hiz, hslabz, hz1, hz2⟩ :=
    slabAxis_conserv ray.o.z ray.d.z bbox.rmin.z bbox.rmax.z loy hiy t hy1 hy2 a5 a6
  rw [hslabz]

/-! ### Primitive-predicate range and tightening -/

theorem yb__intersect_point_range {ray : Ray3} {p : Vec3} {r t : ℚ} {uv : Vec2}
    (h : yb__intersect_point ray p r = some (t, uv)) :
    ray.tmin ≤ t ∧ t ≤ ray.tmax := by
  unfold yb__intersect_point at h
  dsimp only at h
  split_ifs at h with h1 h2
  cases h
  push_neg at h1
  exact h1

theorem yb__intersect_line_range {ray : Ray3} {v0 v1 : Vec3} {r0 r1 t : ℚ} {uv : Vec2}
    (h : yb__intersect_line ray v0 v1 r0 r1 = some (t, uv)) :
    ray.tmin ≤ t ∧ t ≤ ray.tmax := by
  unfold yb__intersect_line at h
  dsimp only at h
  split_ifs at h with h1 h2 h3
  cases h
  push_neg at h2
  exact h2

theorem yb__intersect_triangle_range {ray : Ray3} {v0 v1 v2 : Vec3} {t : ℚ} {uv : Vec2}
    (h : yb__intersect_triangle ray v0 v1 v2 = some (t, uv)) :
    ray.tmin ≤ t ∧ t ≤ ray.tmax := by
  unfold yb__intersect_triangle at h
  dsimp only at h
  split_ifs at h with h1 h2 h3 h4
  cases h
  push_neg at h4
  exact h4

theorem primIsect_range {sh : ShapeBVH} {ray : Ray3} {e : ℕ} {t : ℚ} {uv : Vec2}
    (h : primIsect sh ray e = some (t, uv)) : ray.tmin ≤ t ∧ t ≤ ray.tmax := by
  unfold primIsect at h
  rcases helems : sh.elems with elem | elem | elem <;> rw [helems] at h <;>
    dsimp only at h
  · exact yb__intersect_point_range h
  · exact yb__intersect_line_range h
  · exact yb__intersect_triangle_range h

theorem yb__intersect_point_tighten (o d : Vec3) (tmin T T' : ℚ) (hT : T' ≤ T)
    (p : Vec3) (r : ℚ) :
    yb__intersect_point ⟨o, d, tmin, T'⟩ p r =
      (match yb__intersect_point ⟨o, d, tmin, T⟩ p r with
       | none => none
       | some (t, uv) => if t ≤ T' then some (t, uv) else none) := by
  unfold yb__intersect_point Ray3.eval
  dsimp only
  set tv := ym_dot (p.sub o) d / ym_dot d d with htv
  by_cases hmin : tv < tmin
  · rw [if_pos (Or.inl hmin : tv < tmin ∨ tv > T'),
      if_pos (Or.inl hmin : tv < tmin ∨ tv > T)]
  · by_cases hTT : tv > T
    · have hT2 : tv > T' := lt_of_le_of_lt hT hTT
      rw [if_pos (Or.inr hT2 : tv < tmin ∨ tv > T'),
        if_pos (Or.inr hTT : tv < tmin ∨ tv > T)]
    · rw [if_neg (by push_neg; exact ⟨not_lt.mp hmin, not_lt.mp hTT⟩ :
        ¬(tv < tmin ∨ tv > T))]
      by_cases hc2 : ym_dot (p.sub (o.add (Vec3.smul tv d)))
          (p.sub (o.add (Vec3.smul tv d))) > r * r
      · rw [if_pos hc2]
        split_ifs <;> rfl
      · rw [if_neg hc2]
        dsimp only
        by_cases hT' : tv > T'
        · rw [if_pos (Or.inr hT' : tv < tmin ∨ tv > T'), if_neg (not_le.mpr hT')]
        · rw [if_neg (by push_neg; exact ⟨not_lt.mp hmin, not_lt.mp hT'⟩ :
            ¬(tv < tmin ∨ tv > T')), if_pos (not_lt.mp hT')]

theorem yb__intersect_line_tighten (o d : Vec3) (tmin T T' : ℚ) (hT : T' ≤ T)
    (v0 v1 : Vec3) (r0 r1 : ℚ) :
    yb__intersect_line ⟨o, d, tmin, T'⟩ v0 v1 r0 r1 =
      (match yb__intersect_line ⟨o, d, tmin, T⟩ v0 v1 r0 r1 with
       | none => none
       | some (t, uv) => if t ≤ T' then some (t, uv) else none) := by
  unfold yb__intersect_line Ray3.eval
  dsimp only
  by_cases hdet : ym_dot d d * ym_dot (v1.sub v0) (v1.sub v0) -
      ym_dot d (v1.sub v0) * ym_dot d (v1.sub v0) = 0
  · rw [if_pos hdet, if_pos hdet]
  · rw [if_neg hdet, if_neg hdet]
    set tv := (ym_dot d (v1.sub v0) * ym_dot (v1.sub v0) (o.sub v0) -
      ym_dot (v1.sub v0) (v1.sub v0) * ym_dot d (o.sub v0)) /
      (ym_dot d d * ym_dot (v1.sub v0) (v1.sub v0) -
        ym_dot d (v1.sub v0) * ym_dot d (v1.sub v0)) with htv
    by_cases hmin : tv < tmin
    · rw [if_pos (Or.inl hmin : tv < tmin ∨ tv > T'),
        if_pos (Or.inl hmin : tv < tmin ∨ tv > T)]
    · by_cases hTT : tv > T
      · have hT2 : tv > T' := lt_of_le_of_lt hT hTT
        rw [if_pos (Or.inr hT2 : tv < tmin ∨ tv > T'),
          if_pos (Or.inr hTT : tv < tmin ∨ tv > T)]
      · rw [if_neg (by push_neg; exact ⟨not_lt.mp hmin, not_lt.mp hTT⟩ :
          ¬(tv < tmin ∨ tv > T))]
        set sv := ym_clamp ((ym_dot d d * ym_dot (v1.sub v0) (o.sub v0) -
          ym_dot d (v1.sub v0) * ym_dot d (o.sub v0)) /
          (ym_dot d d * ym_dot (v1.sub v0) (v1.sub v0) -
            ym_dot d (v1.sub v0) * ym_dot d (v1.sub v0))) 0 1 with hsv
        by_cases hc2 : ym_dot
            ((o.add (Vec3.smul tv d)).sub (v0.add (Vec3.smul sv (v1.sub v0))))
            ((o.add (Vec3.smul tv d)).sub (v0.add (Vec3.smul sv (v1.sub v0)))) >
            (r0 * (1 - sv) + r1 * sv) * (r0 * (1 - sv) + r1 * sv)
        · rw [if_pos hc2]
          split_ifs <;> rfl
        · rw [if_neg hc2]
          dsimp only
          by_cases hT' : tv > T'
          · rw [if_pos (Or.inr hT' : tv < tmin ∨ tv > T'), if_neg (not_le.mpr hT')]
          · rw [if_neg (by push_neg; exact ⟨not_lt.mp hmin, not_lt.mp hT'⟩ :
              ¬(tv < tmin ∨ tv > T')), if_pos (not_lt.mp hT')]

theorem yb__intersect_triangle_tighten (o d : Vec3) (tmin T T' : ℚ) (hT : T' ≤ T)
    (v0 v1 v2 : Vec3) :
    yb__intersect_triangle ⟨o, d, tmin, T'⟩ v0 v1 v2 =
      (match yb__intersect_triangle ⟨o, d, tmin, T⟩ v0 v1 v2 with
       | none => none
       | some (t, uv) => if t ≤ T' then some (t, uv) else none) := by
  unfold yb__intersect_triangle
  dsimp only
  by_cases hdet : ym_dot (v1.sub v0) (ym_cross d (v2.sub v0)) = 0
  · rw [if_pos hdet, if_pos hdet]
  · rw [if_neg hdet, if_neg hdet]
    by_cases hu : ym_dot (o.sub v0) (ym_cross d (v2.sub v0)) *
        (1 / ym_dot (v1.sub v0) (ym_cross d (v2.sub v0))) < 0 ∨
        ym_dot (o.sub v0) (ym_cross d (v2.sub v0)) *
        (1 / ym_dot (v1.sub v0) (ym_cross d (v2.sub v0))) > 1
    · rw [if_pos hu, if_pos hu]
    · rw [if_neg hu, if_neg hu]
      by_cases hv : ym_dot d (ym_cross (o.sub v0) (v1.sub v0)) *
          (1 / ym_dot (v1.sub v0) (ym_cross d (v2.sub v0))) < 0 ∨
          ym_dot (o.sub v0) (ym_cross d (v2.sub v0)) *
            (1 / ym_dot (v1.sub v0) (ym_cross d (v2.sub v0))) +
          ym_dot d (ym_cross (o.sub v0) (v1.sub v0)) *
            (1 / ym_dot (v1.sub v0) (ym_cross d (v2.sub v0))) > 1
      · rw [if_pos hv, if_pos hv]
      · rw [if_neg hv, if_neg hv]
        set tv := ym_dot (v2.sub v0) (ym_cross (o.sub v0) (v1.sub v0)) *
          (1 / ym_dot (v1.sub v0) (ym_cross d (v2.sub v0))) with htv
        by_cases hmin : tv < tmin
        · rw [if_pos (Or.inl hmin : tv < tmin ∨ tv > T'),
            if_pos (Or.inl hmin : tv < tmin ∨ tv > T)]
        · by_cases hTT : tv > T
          · have hT2 : tv > T' := lt_of_le_of_lt hT hTT
            rw [if_pos (Or.inr hT2 : tv < tmin ∨ tv > T'),
              if_pos (Or.inr hTT : tv < tmin ∨ tv > T)]
          · rw [if_neg (by push_neg; exact ⟨not_lt.mp hmin, not_lt.mp hTT⟩ :
              ¬(tv < tmin ∨ tv > T))]
            dsimp only
            by_cases hT' : tv > T'
            · rw [if_pos (Or.inr hT' : tv < tmin ∨ tv > T'), if_neg (not_le.mpr hT')]
            · rw [if_neg (by push_neg; exact ⟨not_lt.mp hmin, not_lt.mp hT'⟩ :
                ¬(tv < tmin ∨ tv > T')), if_pos (not_lt.mp hT')]

theorem primIsect_tighten (sh : ShapeBVH) (o d : Vec3) (tmin T T' : ℚ) (hT : T' ≤ T)
    (e : ℕ) :
    primIsect sh ⟨o, d, tmin, T'⟩ e =
      (match primIsect sh ⟨o, d, tmin, T⟩ e with
       | none => none
       | some (t, uv) => if t ≤ T' then some (t, uv) else none) := by
  unfold primIsect
  rcases helems : sh.elems with elem | elem | elem <;> dsimp only
  · exact yb__intersect_point_tighten o d tmin T T' hT _ _
  · exact yb__intersect_line_tighten o d tmin T T' hT _ _ _ _
  · exact yb__intersect_triangle_tighten o d tmin T T' hT _ _ _

/-! ### Hit points lie in the build-time primitive AABBs -/

theorem ym_clamp_mem (x lo hi : ℚ) (h : lo ≤ hi) :
    lo ≤ ym_clamp x lo hi ∧ ym_clamp x lo hi ≤ hi := by
  unfold ym_clamp
  split_ifs with h1 h2
  · exact ⟨le_refl _, h⟩
  · exact ⟨h, le_refl _⟩
  · exact ⟨not_lt.mp h1, not_lt.mp h2⟩

theorem comp_bound {a q r : ℚ} (h : (a - q) * (a - q) ≤ r * r) :
    min (a - r) (a + r) ≤ q ∧ q ≤ max (a - r) (a + r) := by
  constructor
  · rcases le_total 0 r with hr | hr
    · apply min_le_iff.mpr
      left
      nlinarith
    · apply min_le_iff.mpr
      right
      nlinarith
  · rcases le_total 0 r with hr | hr
    · apply le_max_iff.mpr
      right
      nlinarith
    · apply le_max_iff.mpr
      left
      nlinarith

theorem seg_corner_lower {m x0 x1 r0 r1 s qx : ℚ}
    (h1 : m ≤ x0 - r0) (h2 : m ≤ x0 + r0) (h3 : m ≤ x1 - r1) (h4 : m ≤ x1 + r1)
    (hs0 : 0 ≤ s) (hs1 : s ≤ 1)
    (hd : (qx - (x0 + s * (x1 - x0))) * (qx - (x0 + s * (x1 - x0))) ≤
      (r0 * (1 - s) + r1 * s) * (r0 * (1 - s) + r1 * s)) : m ≤ qx := by
  nlinarith [mul_nonneg (by linarith : (0:ℚ) ≤ 1 - s) (by linarith : (0:ℚ) ≤ x0 - r0 - m),
    mul_nonneg hs0 (by linarith : (0:ℚ) ≤ x1 - r1 - m),
    mul_nonneg (by linarith : (0:ℚ) ≤ 1 - s) (by linarith : (0:ℚ) ≤ x0 + r0 - m),
    mul_nonneg hs0 (by linarith : (0:ℚ) ≤ x1 + r1 - m),
    sq_nonneg (qx - (x0 + s * (x1 - x0)) + (r0 * (1 - s) + r1 * s)),
    sq_nonneg (qx - (x0 + s * (x1 - x0)) - (r0 * (1 - s) + r1 * s))]

theorem seg_corner_upper {m x0 x1 r0 r1 s qx : ℚ}
    (h1 : x0 - r0 ≤ m) (h2 : x0 + r0 ≤ m) (h3 : x1 - r1 ≤ m) (h4 : x1 + r1 ≤ m)
    (hs0 : 0 ≤ s) (hs1 : s ≤ 1)
    (hd : (qx - (x0 + s * (x1 - x0))) * (qx - (x0 + s * (x1 - x0))) ≤
      (r0 * (1 - s) + r1 * s) * (r0 * (1 - s) + r1 * s)) : qx ≤ m := by
  nlinarith [mul_nonneg (by linarith : (0:ℚ) ≤ 1 - s) (by linarith : (0:ℚ) ≤ m - (x0 - r0)),
    mul_nonneg hs0 (by linarith : (0:ℚ) ≤ m - (x1 - r1)),
    mul_nonneg (by linarith : (0:ℚ) ≤ 1 - s) (by linarith : (0:ℚ) ≤ m - (x0 + r0)),
    mul_nonneg hs0 (by linarith : (0:ℚ) ≤ m - (x1 + r1)),
    sq_nonneg (qx - (x0 + s * (x1 - x0)) + (r0 * (1 - s) + r1 * s)),
    sq_nonneg (qx - (x0 + s * (x1 - x0)) - (r0 * (1 - s) + r1 * s))]

theorem convex3_lower {m a b c u v q : ℚ} (ha : m ≤ a) (hb : m ≤ b) (hc : m ≤ c)
    (hu0 : 0 ≤ u) (hv0 : 0 ≤ v) (huv : u + v ≤ 1)
    (hq : q = (1 - u - v) * a + u * b + v * c) : m ≤ q := by
  nlinarith [mul_nonneg (by linarith : (0:ℚ) ≤ 1 - u - v) (by linarith : (0:ℚ) ≤ a - m),
    mul_nonneg hu0 (by linarith : (0:ℚ) ≤ b - m),
    mul_nonneg hv0 (by linarith : (0:ℚ) ≤ c - m)]

theorem convex3_upper {m a b c u v q : ℚ} (ha : a ≤ m) (hb : b ≤ m) (hc : c ≤ m)
    (hu0 : 0 ≤ u) (hv0 : 0 ≤ v) (huv : u + v ≤ 1)
    (hq : q = (1 - u - v) * a + u * b + v * c) : q ≤ m := by
  nlinarith [mul_nonneg (by linarith : (0:ℚ) ≤ 1 - u - v) (by linarith : (0:ℚ) ≤ m - a),
    mul_nonneg hu0 (by linarith : (0:ℚ) ≤ m - b),
    mul_nonneg hv0 (by linarith : (0:ℚ) ≤ m - c)]

theorem point_hit_in_bbox {ray : Ray3} {p : Vec3} {r t : ℚ} {uv : Vec2}
    (h : yb__intersect_point ray p r = some (t, uv)) :
    memR (ray.eval t)
      (ym_rexpand (ym_rexpand ⟨p.sub (Vec3.splat r), p.sub (Vec3.splat r)⟩
        (p.sub (Vec3.splat r))) (p.add (Vec3.splat r))) := by
  unfold yb__intersect_point at h
  dsimp only at h
  split_ifs at h with h1 h2
  cases h
  push_neg at h2
  set q := ray.eval (ym_dot (p.sub ray.o) ray.d / ym_dot ray.d ray.d) with hq
  unfold ym_dot Vec3.sub at h2
  dsimp only at h2
  have hx2 : (p.x - q.x) * (p.x - q.x) ≤ r * r := by
    nlinarith [mul_self_nonneg (p.y - q.y), mul_self_nonneg (p.z - q.z)]
  have hy2 : (p.y - q.y) * (p.y - q.y) ≤ r * r := by
    nlinarith [mul_self_nonneg (p.x - q.x), mul_self_nonneg (p.z - q.z)]
  have hz2 : (p.z - q.z) * (p.z - q.z) ≤ r * r := by
    nlinarith [mul_self_nonneg (p.x - q.x), mul_self_nonneg (p.y - q.y)]
  unfold memR ym_rexpand Vec3.cmin Vec3.cmax Vec3.sub Vec3.add Vec3.splat
  dsimp only
  simp only [min_self, max_self]
  exact ⟨(comp_bound hx2).1, (comp_bound hx2).2, (comp_bound hy2).1, (comp_bound hy2).2,
    (comp_bound hz2).1, (comp_bound hz2).2⟩

set_option maxHeartbeats 2000000 in
theorem line_hit_in_bbox {ray : Ray3} {v0 v1 : Vec3} {r0 r1 t : ℚ} {uv : Vec2}
    (h : yb__intersect_line ray v0 v1 r0 r1 = some (t, uv)) :
    memR (ray.eval t) (bboxOfPts [v0.sub (Vec3.splat r0), v0.add (Vec3.splat r0),
      v1.sub (Vec3.splat r1), v1.add (Vec3.splat r1)]) := by
  unfold yb__intersect_line at h
  dsimp only at h
  split_ifs at h with hdet hrange hdist
  cases h
  push_neg at hdist
  have hsm := ym_clamp_mem ((ym_dot ray.d ray.d * ym_dot (v1.sub v0) (ray.o.sub v0) -
    ym_dot ray.d (v1.sub v0) * ym_dot ray.d (ray.o.sub v0)) /
    (ym_dot ray.d ray.d * ym_dot (v1.sub v0) (v1.sub v0) -
      ym_dot ray.d (v1.sub v0) * ym_dot ray.d (v1.sub v0))) 0 1 (by norm_num)
  set sv := ym_clamp ((ym_dot ray.d ray.d * ym_dot (v1.sub v0) (ray.o.sub v0) -
    ym_dot ray.d (v1.sub v0) * ym_dot ray.d (ray.o.sub v0)) /
    (ym_dot ray.d ray.d * ym_dot (v1.sub v0) (v1.sub v0) -
      ym_dot ray.d (v1.sub v0) * ym_dot ray.d (v1.sub v0))) 0 1 with hsv
  set tv := (ym_dot ray.d (v1.sub v0) * ym_dot (v1.sub v0) (ray.o.sub v0) -
    ym_dot (v1.sub v0) (v1.sub v0) * ym_dot ray.d (ray.o.sub v0)) /
    (ym_dot ray.d ray.d * ym_dot (v1.sub v0) (v1.sub v0) -
      ym_dot ray.d (v1.sub v0) * ym_dot ray.d (v1.sub v0)) with htv
  unfold Ray3.eval ym_dot Vec3.add Vec3.smul Vec3.sub at hdist
  dsimp only at hdist
  have hx2 : (ray.o.x + tv * ray.d.x - (v0.x + sv * (v1.x - v0.x))) *
      (ray.o.x + tv * ray.d.x - (v0.x + sv * (v1.x - v0.x))) ≤
      (r0 * (1 - sv) + r1 * sv) * (r0 * (1 - sv) + r1 * sv) := by
    nlinarith [mul_self_nonneg (ray.o.y + tv * ray.d.y - (v0.y + sv * (v1.y - v0.y))),
      mul_self_nonneg (ray.o.z + tv * ray.d.z - (v0.z + sv * (v1.z - v0.z)))]
  have hy2 : (ray.o.y + tv * ray.d.y - (v0.y + sv * (v1.y - v0.y))) *
      (ray.o.y + tv * ray.d.y - (v0.y + sv * (v1.y - v0.y))) ≤
      (r0 * (1 - sv) + r1 * sv) * (r0 * (1 - sv) + r1 * sv) := by
    nlinarith [mul_self_nonneg (ray.o.x + tv * ray.d.x - (v0.x + sv * (v1.x - v0.x))),
      mul_self_nonneg (ray.o.z + tv * ray.d.z - (v0.z + sv * (v1.z - v0.z)))]
  have hz2 : (ray.o.z + tv * ray.d.z - (v0.z + sv * (v1.z - v0.z))) *
      (ray.o.z + tv * ray.d.z - (v0.z + sv * (v1.z - v0.z))) ≤
      (r0 * (1 - sv) + r1 * sv) * (r0 * (1 - sv) + r1 * sv) := by
    nlinarith [mul_self_nonneg (ray.o.x + tv * ray.d.x - (v0.x + sv * (v1.x - v0.x))),
      mul_self_nonneg (ray.o.y + tv * ray.d.y - (v0.y + sv * (v1.y - v0.y)))]
  unfold memR bboxOfPts Ray3.eval ym_rexpand Vec3.cmin Vec3.cmax Vec3.sub Vec3.add
    Vec3.smul Vec3.splat
  simp only [List.foldl_cons, List.foldl_nil]
  refine ⟨?_, ?_, ?_, ?_, ?_, ?_⟩
  · exact seg_corner_lower
      ((min_le_left _ _).trans ((min_le_left _ _).trans (min_le_left _ _)))
      ((min_le_left _ _).trans ((min_le_left _ _).trans (min_le_right _ _)))
      ((min_le_left _ _).trans (min_le_right _ _))
      (min_le_right _ _) hsm.1 hsm.2 hx2
  · exact seg_corner_upper
      ((le_max_left _ _).trans ((le_max_left _ _).trans (le_max_left _ _)))
      ((le_max_right _ _).trans ((le_max_left _ _).trans (le_max_left _ _)))
      ((le_max_right _ _).trans (le_max_left _ _))
      (le_max_right _ _) hsm.1 hsm.2 hx2
  · exact seg_corner_lower
      ((min_le_left _ _).trans ((min_le_left _ _).trans (min_le_left _ _)))
      ((min_le_left _ _).trans ((min_le_left _ _).trans (min_le_right _ _)))
      ((min_le_left _ _).trans (min_le_right _ _))
      (min_le_right _ _) hsm.1 hsm.2 hy2
  · exact seg_corner_upper
      ((le_max_left _ _).trans ((le_max_left _ _).trans (le_max_left _ _)))
      ((le_max_right _ _).trans ((le_max_left _ _).trans (le_max_left _ _)))
      ((le_max_right _ _).trans (le_max_left _ _))
      (le_max_right _ _) hsm.1 hsm.2 hy2
  · exact seg_corner_lower
      ((min_le_left _ _).trans ((min_le_left _ _).trans (min_le_left _ _)))
      ((min_le_left _ _).trans ((min_le_left _ _).trans (min_le_right _ _)))
      ((min_le_left _ _).trans (min_le_right _ _))
      (min_le_right _ _) hsm.1 hsm.2 hz2
  · exact seg_corner_upper
      ((le_max_left _ _).trans ((le_max_left _ _).trans (le_max_left _ _)))
      ((le_max_right _ _).trans ((le_max_left _ _).trans (le_max_left _ _)))
      ((le_max_right _ _).trans (le_max_left _ _))
      (le_max_right _ _) hsm.1 hsm.2 hz2

set_option maxHeartbeats 2000000 in
theorem triangle_hit_in_bbox {ray : Ray3} {v0 v1 v2 : Vec3} {t : ℚ} {uv : Vec2}
    (h : yb__intersect_triangle ray v0 v1 v2 = some (t, uv)) :
    memR (ray.eval t) (bboxOfPts [v0, v1, v2]) := by
  unfold yb__intersect_triangle at h
  dsimp only at h
  split_ifs at h with hdet hu hv hrange
  cases h
  push_neg at hu hv
  have hdet2 : ym_dot (v1.sub v0) (ym_cross ray.d (v2.sub v0)) ≠ 0 := hdet
  have hx : (ray.eval (ym_dot (v2.sub v0) (ym_cross (ray.o.sub v0) (v1.sub v0)) *
      (1 / ym_dot (v1.sub v0) (ym_cross ray.d (v2.sub v0))))).x =
      (1 - ym_dot (ray.o.sub v0) (ym_cross ray.d (v2.sub v0)) *
          (1 / ym_dot (v1.sub v0) (ym_cross ray.d (v2.sub v0))) -
        ym_dot ray.d (ym_cross (ray.o.sub v0) (v1.sub v0)) *
          (1 / ym_dot (v1.sub v0) (ym_cross ray.d (v2.sub v0)))) * v0.x +
      ym_dot (ray.o.sub v0) (ym_cross ray.d (v2.sub v0)) *
        (1 / ym_dot (v1.sub v0) (ym_cross ray.d (v2.sub v0))) * v1.x +
      ym_dot ray.d (ym_cross (ray.o.sub v0) (v1.sub v0)) *
        (1 / ym_dot (v1.sub v0) (ym_cross ray.d (v2.sub v0))) * v2.x := by
    have hd : ym_dot (v1.sub v0) (ym_cross ray.d (v2.sub v0)) ≠ 0 := hdet2
    unfold ym_dot ym_cross Vec3.sub at hd
    dsimp only at hd
    unfold Ray3.eval ym_dot ym_cross Vec3.sub Vec3.add Vec3.smul
    dsimp only
    field_simp
    ring
  have hy : (ray.eval (ym_dot (v2.sub v0) (ym_cross (ray.o.sub v0) (v1.sub v0)) *
      (1 / ym_dot (v1.sub v0) (ym_cross ray.d (v2.sub v0))))).y =
      (1 - ym_dot (ray.o.sub v0) (ym_cross ray.d (v2.sub v0)) *
          (1 / ym_dot (v1.sub v0) (ym_cross ray.d (v2.sub v0))) -
        ym_dot ray.d (ym_cross (ray.o.sub v0) (v1.sub v0)) *
          (1 / ym_dot (v1.sub v0) (ym_cross ray.d (v2.sub v0)))) * v0.y +
      ym_dot (ray.o.sub v0) (ym_cross ray.d (v2.sub v0)) *
        (1 / ym_dot (v1.sub v0) (ym_cross ray.d (v2.sub v0))) * v1.y +
      ym_dot ray.d (ym_cross (ray.o.sub v0) (v1.sub v0)) *
        (1 / ym_dot (v1.sub v0) (ym_cross ray.d (v2.sub v0))) * v2.y := by
    have hd : ym_dot (v1.sub v0) (ym_cross ray.d (v2.sub v0)) ≠ 0 := hdet2
    unfold ym_dot ym_cross Vec3.sub at hd
    dsimp only at hd
    unfold Ray3.eval ym_dot ym_cross Vec3.sub Vec3.add Vec3.smul
    dsimp only
    field_simp
    ring
  have hz : (ray.eval (ym_dot (v2.sub v0) (ym_cross (ray.o.sub v0) (v1.sub v0)) *
      (1 / ym_dot (v1.sub v0) (ym_cross ray.d (v2.sub v0))))).z =
      (1 - ym_dot (ray.o.sub v0) (ym_cross ray.d (v2.sub v0)) *
          (1 / ym_dot (v1.sub v0) (ym_cross ray.d (v2.sub v0))) -
        ym_dot ray.d (ym_cross (ray.o.sub v0) (v1.sub v0)) *
          (1 / ym_dot (v1.sub v0) (ym_cross ray.d (v2.sub v0)))) * v0.z +
      ym_dot (ray.o.sub v0) (ym_cross ray.d (v2.sub v0)) *
        (1 / ym_dot (v1.sub v0) (ym_cross ray.d (v2.sub v0))) * v1.z +
      ym_dot ray.d (ym_cross (ray.o.sub v0) (v1.sub v0)) *
        (1 / ym_dot (v1.sub v0) (ym_cross ray.d (v2.sub v0))) * v2.z := by
    have hd : ym_dot (v1.sub v0) (ym_cross ray.d (v2.sub v0)) ≠ 0 := hdet2
    unfold ym_dot ym_cross Vec3.sub at hd
    dsimp only at hd
    unfold Ray3.eval ym_dot ym_cross Vec3.sub Vec3.add Vec3.smul
    dsimp only
    field_simp
    ring
  unfold memR bboxOfPts ym_rexpand Vec3.cmin Vec3.cmax
  simp only [List.foldl_cons, List.foldl_nil]
  refine ⟨?_, ?_, ?_, ?_, ?_, ?_⟩
  · exact convex3_lower ((min_le_left _ _).trans (min_le_left _ _))
      ((min_le_left _ _).trans (min_le_right _ _)) (min_le_right _ _)
      hu.1 hv.1 hv.2 hx
  · exact convex3_upper ((le_max_left _ _).trans (le_max_left _ _))
      ((le_max_right _ _).trans (le_max_left _ _)) (le_max_right _ _)
      hu.1 hv.1 hv.2 hx
  · exact convex3_lower ((min_le_left _ _).trans (min_le_left _ _))
      ((min_le_left _ _).trans (min_le_right _ _)) (min_le_right _ _)
      hu.1 hv.1 hv.2 hy
  · exact convex3_upper ((le_max_left _ _).trans (le_max_left _ _))
      ((le_max_right _ _).trans (le_max_left _ _)) (le_max_right _ _)
      hu.1 hv.1 hv.2 hy
  · exact convex3_lower ((min_le_left _ _).trans (min_le_left _ _))
      ((min_le_left _ _).trans (min_le_right _ _)) (min_le_right _ _)
      hu.1 hv.1 hv.2 hz
  · exact convex3_upper ((le_max_left _ _).trans (le_max_left _ _))
      ((le_max_right _ _).trans (le_max_left _ _)) (le_max_right _ _)
      hu.1 hv.1 hv.2 hz

theorem range_map_getD {α : Type} [Inhabited α] (g : ℕ → α) {i N : ℕ} (h : i < N) :
    ((List.range N).map g).getD i default = g i := by
  rw [List.getD_eq_getElem?_getD, List.getElem?_map, List.getElem?_range h]
  rfl

theorem primIsect_hit_in_bbox {sh : ShapeBVH} {ray : Ray3} {e : ℕ} {t : ℚ} {uv : Vec2}
    (he : e < sh.nelems) (h : primIsect sh ray e = some (t, uv)) :
    memR (ray.eval t) (primBuildBBox sh e) := by
  unfold primIsect at h
  unfold primBuildBBox boundPrimsOfShape
  have he' := he
  unfold ShapeBVH.nelems at he'
  rcases helems : sh.elems with elem | elem | elem <;> rw [helems] at h he' <;>
    dsimp only at h <;> unfold ShapeElems.nelems at he' <;> dsimp only at he' <;>
    rw [range_map_getD _ he'] <;> dsimp only
  · exact point_hit_in_bbox h
  · exact line_hit_in_bbox h
  · exact triangle_hit_in_bbox h

theorem transform_eval (a : Affine3) (r : Ray3) (t tmn tmx : ℚ) :
    Ray3.eval ⟨ym_transform_point a r.o, ym_transform_vector a r.d, tmn, tmx⟩ t =
      ym_transform_point a (r.eval t) := by
  unfold Ray3.eval ym_transform_point ym_transform_vector ym_dot Vec3.add Vec3.smul
  dsimp only
  simp only [Vec3.mk.injEq]
  refine ⟨by ring, by ring, by ring⟩

theorem bboxOfPts_eq (L : List Vec3) :
    bboxOfPts L = bboxOfRs (L.map (fun p => ⟨p, p⟩)) := by
  cases L with
  | nil => rfl
  | cons p ps =>
    unfold bboxOfPts bboxOfRs
    rw [List.map_cons]
    dsimp only
    rw [List.foldl_map]
    rfl

theorem memR_iff_subR (p : Vec3) (r : Range3) : memR p r ↔ subR ⟨p, p⟩ r :=
  Iff.rfl

theorem bboxOfPts_mem {L : List Vec3} {q : Vec3} (h : q ∈ L) :
    memR q (bboxOfPts L) := by
  rw [bboxOfPts_eq, memR_iff_subR]
  exact bboxOfRs_mem (List.mem_map.mpr ⟨q, h, rfl⟩)

theorem row_min_corner (row : Vec3) (bbox : Range3) (p : Vec3) (hp : memR p bbox) :
    ∃ q ∈ bboxCorners bbox, ym_dot row q ≤ ym_dot row p := by
  obtain ⟨a1, a2, a3, a4, a5, a6⟩ := hp
  refine ⟨⟨if 0 ≤ row.x then bbox.rmin.x else bbox.rmax.x,
    if 0 ≤ row.y then bbox.rmin.y else bbox.rmax.y,
    if 0 ≤ row.z then bbox.rmin.z else bbox.rmax.z⟩, ?_, ?_⟩
  · unfold bboxCorners
    split_ifs <;> simp
  · unfold ym_dot
    dsimp only
    have t1 : row.x * (if 0 ≤ row.x then bbox.rmin.x else bbox.rmax.x) ≤ row.x * p.x := by
      split_ifs with h1
      · exact mul_le_mul_of_nonneg_left a1 h1
      · exact mul_le_mul_of_nonpos_left a2 (le_of_lt (lt_of_not_ge h1))
    have t2 : row.y * (if 0 ≤ row.y then bbox.rmin.y else bbox.rmax.y) ≤ row.y * p.y := by
      split_ifs with h1
      · exact mul_le_mul_of_nonneg_left a3 h1
      · exact mul_le_mul_of_nonpos_left a4 (le_of_lt (lt_of_not_ge h1))
    have t3 : row.z * (if 0 ≤ row.z then bbox.rmin.z else bbox.rmax.z) ≤ row.z * p.z := by
      split_ifs with h1
      · exact mul_le_mul_of_nonneg_left a5 h1
      · exact mul_le_mul_of_nonpos_left a6 (le_of_lt (lt_of_not_ge h1))
    exact add_le_add (add_le_add t1 t2) t3

theorem row_max_corner (row : Vec3) (bbox : Range3) (p : Vec3) (hp : memR p bbox) :
    ∃ q ∈ bboxCorners bbox, ym_dot row p ≤ ym_dot row q := by
  obtain ⟨a1, a2, a3, a4, a5, a6⟩ := hp
  refine ⟨⟨if 0 ≤ row.x then bbox.rmax.x else bbox.rmin.x,
    if 0 ≤ row.y then bbox.rmax.y else bbox.rmin.y,
    if 0 ≤ row.z then bbox.rmax.z else bbox.rmin.z⟩, ?_, ?_⟩
  · unfold bboxCorners
    split_ifs <;> simp
  · unfold ym_dot
    dsimp only
    have t1 : row.x * p.x ≤ row.x * (if 0 ≤ row.x then bbox.rmax.x else bbox.rmin.x) := by
      split_ifs with h1
      · exact mul_le_mul_of_nonneg_left a2 h1
      · exact mul_le_mul_of_nonpos_left a1 (le_of_lt (lt_of_not_ge h1))
    have t2 : row.y * p.y ≤ row.y * (if 0 ≤ row.y then bbox.rmax.y else bbox.rmin.y) := by
      split_ifs with h1
      · exact mul_le_mul_of_nonneg_left a4 h1
      · exact mul_le_mul_of_nonpos_left a3 (le_of_lt (lt_of_not_ge h1))
    have t3 : row.z * p.z ≤ row.z * (if 0 ≤ row.z then bbox.rmax.z else bbox.rmin.z) := by
      split_ifs with h1
      · exact mul_le_mul_of_nonneg_left a6 h1
      · exact mul_le_mul_of_nonpos_left a5 (le_of_lt (lt_of_not_ge h1))
    exact add_le_add (add_le_add t1 t2) t3

theorem transform_mem_hull (a : Affine3) {p : Vec3} {bbox : Range3}
    (hp : memR p bbox) :
    memR (ym_transform_point a p) (yb__transform_bbox a bbox) := by
  unfold yb__transform_bbox
  obtain ⟨qx1, hqx1, hqx1le⟩ := row_min_corner a.rx bbox p hp
  obtain ⟨qx2, hqx2, hqx2le⟩ := row_max_corner a.rx bbox p hp
  obtain ⟨qy1, hqy1, hqy1le⟩ := row_min_corner a.ry bbox p hp
  obtain ⟨qy2, hqy2, hqy2le⟩ := row_max_corner a.ry bbox p hp
  obtain ⟨qz1, hqz1, hqz1le⟩ := row_min_corner a.rz bbox p hp
  obtain ⟨qz2, hqz2, hqz2le⟩ := row_max_corner a.rz bbox p hp
  have m1 := bboxOfPts_mem (List.mem_map.mpr ⟨qx1, hqx1, rfl⟩ :
    ym_transform_point a qx1 ∈ (bboxCorners bbox).map (ym_transform_point a))
  have m2 := bboxOfPts_mem (List.mem_map.mpr ⟨qx2, hqx2, rfl⟩ :
    ym_transform_point a qx2 ∈ (bboxCorners bbox).map (ym_transform_point a))
  have m3 := bboxOfPts_mem (List.mem_map.mpr ⟨qy1, hqy1, rfl⟩ :
    ym_transform_point a qy1 ∈ (bboxCorners bbox).map (ym_transform_point a))
  have m4 := bboxOfPts_mem (List.mem_map.mpr ⟨qy2, hqy2, rfl⟩ :
    ym_transform_point a qy2 ∈ (bboxCorners bbox).map (ym_transform_point a))
  have m5 := bboxOfPts_mem (List.mem_map.mpr ⟨qz1, hqz1, rfl⟩ :
    ym_transform_point a qz1 ∈ (bboxCorners bbox).map (ym_transform_point a))
  have m6 := bboxOfPts_mem (List.mem_map.mpr ⟨qz2, hqz2, rfl⟩ :
    ym_transform_point a qz2 ∈ (bboxCorners bbox).map (ym_transform_point a))
  obtain ⟨b1, _, _, _, _, _⟩ := m1
  obtain ⟨_, b2, _, _, _, _⟩ := m2
  obtain ⟨_, _, b3, _, _, _⟩ := m3
  obtain ⟨_, _, _, b4, _, _⟩ := m4
  obtain ⟨_, _, _, _, b5, _⟩ := m5
  obtain ⟨_, _, _, _, _, b6⟩ := m6
  refine ⟨?_, ?_, ?_, ?_, ?_, ?_⟩
  · exact le_trans b1 (by unfold ym_transform_point; dsimp only; linarith)
  · refine le_trans ?_ b2
    unfold ym_transform_point
    dsimp only
    linarith
  · exact le_trans b3 (by unfold ym_transform_point; dsimp only; linarith)
  · refine le_trans ?_ b4
    unfold ym_transform_point
    dsimp only
    linarith
  · exact le_trans b5 (by unfold ym_transform_point; dsimp only; linarith)
  · refine le_trans ?_ b6
    unfold ym_transform_point
    dsimp only
    linarith

/-! ### Reference-fold lemmas -/

theorem shapeFoldStep_frame (sh : ShapeBVH) (s : SITState) (e : ℕ) :
    (shapeFoldStep sh s e).ray.o = s.ray.o ∧ (shapeFoldStep sh s e).ray.d = s.ray.d ∧
    (shapeFoldStep sh s e).ray.tmin = s.ray.tmin ∧
    (shapeFoldStep sh s e).ray.tmax ≤ s.ray.tmax ∧
    (s.hit = true → (shapeFoldStep sh s e).hit = true) := by
  unfold shapeFoldStep
  rcases hp : primIsect sh s.ray e with _ | ⟨t, uv⟩
  · exact ⟨rfl, rfl, rfl, le_refl _, fun h => h⟩
  · dsimp only
    exact ⟨rfl, rfl, rfl, (primIsect_range hp).2, fun _ => rfl⟩

theorem shapeFold_frame (sh : ShapeBVH) :
    ∀ (L : List ℕ) (s : SITState),
      (shapeFold sh L s).ray.o = s.ray.o ∧ (shapeFold sh L s).ray.d = s.ray.d ∧
      (shapeFold sh L s).ray.tmin = s.ray.tmin ∧
      (shapeFold sh L s).ray.tmax ≤ s.ray.tmax ∧
      (s.hit = true → (shapeFold sh L s).hit = true) := by
  intro L
  induction L with
  | nil => intro s; exact ⟨rfl, rfl, rfl, le_refl _, fun h => h⟩
  | cons e es ih =>
    intro s
    unfold shapeFold at *
    rw [List.foldl_cons]
    obtain ⟨io, id', imin, imax, ihit⟩ := ih (shapeFoldStep sh s e)
    obtain ⟨so, sd, smin, smax, shit⟩ := shapeFoldStep_frame sh s e
    exact ⟨io.trans so, id'.trans sd, imin.trans smin, le_trans imax smax,
      fun h => ihit (shit h)⟩

theorem shapeFold_hit (sh : ShapeBVH) :
    ∀ (L : List ℕ) (s : SITState),
      (shapeFold sh L s).hit = true ↔
        s.hit = true ∨ ∃ e ∈ L, primIsect sh s.ray e ≠ none := by
  intro L
  induction L with
  | nil =>
    intro s
    simp [shapeFold]
  | cons e es ih =>
    intro s
    unfold shapeFold at *
    rw [List.foldl_cons]
    rcases hp : primIsect sh s.ray e with _ | ⟨t, uv⟩
    · have hstep : shapeFoldStep sh s e = s := by
        unfold shapeFoldStep
        rw [hp]
      rw [hstep, ih s]
      simp only [List.mem_cons]
      constructor
      · rintro (h | ⟨x, hx, hne⟩)
        · exact Or.inl h
        · exact Or.inr ⟨x, Or.inr hx, hne⟩
      · rintro (h | ⟨x, hx | hx, hne⟩)
        · exact Or.inl h
        · subst hx
          exact absurd hp hne
        · exact Or.inr ⟨x, hx, hne⟩
    · have hstep : shapeFoldStep sh s e = ⟨{ s.ray with tmax := t }, true, e, uv⟩ := by
        unfold shapeFoldStep
        rw [hp]
      rw [hstep, ih _]
      constructor
      · intro _
        exact Or.inr ⟨e, List.mem_cons_self e es, by rw [hp]; simp⟩
      · intro _
        exact Or.inl rfl

theorem shapeFold_id (sh : ShapeBVH) :
    ∀ (L : List ℕ) (s : SITState), (∀ e ∈ L, primIsect sh s.ray e = none) →
      shapeFold sh L s = s := by
  intro L
  induction L with
  | nil => intro s _; rfl
  | cons e es ih =>
    intro s hall
    unfold shapeFold at *
    rw [List.foldl_cons]
    have hstep : shapeFoldStep sh s e = s := by
      unfold shapeFoldStep
      rw [hall e (List.mem_cons_self e es)]
    rw [hstep]
    exact ih s (fun x hx => hall x (List.mem_cons_of_mem e hx))

theorem crashFold_eq_fold {σ α : Type} (f : σ → α → CrashOr σ) (g : σ → α → σ)
    (hfg : ∀ s a, f s a = .ok (g s a)) :
    ∀ (L : List α) (s : σ), crashFold f L s = .ok (L.foldl g s) := by
  intro L
  induction L with
  | nil => intro s; rfl
  | cons a as ih =>
    intro s
    unfold crashFold
    rw [hfg]
    exact ih _

theorem shapePrimStep_ok {sh : ShapeBVH} (hrad : radOk sh) (s : SITState) (idx : ℕ) :
    shapePrimStep sh s idx = .ok (shapeFoldStep sh s idx) := by
  unfold shapePrimStep shapeFoldStep primIsect
  rcases helems : sh.elems with elem | elem | elem <;> dsimp only
  · have hr : sh.radius ≠ none := by
      rcases hrad with h | h
      · rw [helems] at h
        simp [ShapeElems.etype] at h
      · exact h
    rcases hrr : sh.radius with _ | rad
    · exact absurd hrr hr
    · dsimp only
      rcases hp : yb__intersect_point s.ray (sh.pos.getD (elem.getD idx 0) 0)
          (rad.getD (elem.getD idx 0) 0) with _ | ⟨t, uv⟩ <;> rfl
  · have hr : sh.radius ≠ none := by
      rcases hrad with h | h
      · rw [helems] at h
        simp [ShapeElems.etype] at h
      · exact h
    rcases hrr : sh.radius with _ | rad
    · exact absurd hrr hr
    · dsimp only
      rcases hp : yb__intersect_line s.ray (sh.pos.getD (elem.getD idx (0, 0)).1 0)
          (sh.pos.getD (elem.getD idx (0, 0)).2 0) (rad.getD (elem.getD idx (0, 0)).1 0)
          (rad.getD (elem.getD idx (0, 0)).2 0) with _ | ⟨t, uv⟩ <;> rfl
  · rcases hp : yb__intersect_triangle s.ray (sh.pos.getD (elem.getD idx (0, 0, 0)).1 0)
        (sh.pos.getD (elem.getD idx (0, 0, 0)).2.1 0)
        (sh.pos.getD (elem.getD idx (0, 0, 0)).2.2 0) with _ | ⟨t, uv⟩ <;> rfl

theorem stackMeasure_cons (nn n : ℕ) (st : List ℕ) :
    stackMeasure nn (n :: st) = 3 ^ (nn - n) + stackMeasure nn st := by
  unfold stackMeasure
  rw [List.map_cons, List.sum_cons]

theorem stackMeasure_append (nn : ℕ) (a b : List ℕ) :
    stackMeasure nn (a ++ b) = stackMeasure nn a + stackMeasure nn b := by
  unfold stackMeasure
  rw [List.map_append, List.sum_append]

theorem GoodTree_all_prims {nodes : ℕ → BVHNode} {nn : ℕ} {PB : ℕ → Range3}
    {S : ℕ → Prop} {id s e : ℕ} (h : GoodTree nodes nn PB S id s e) :
    ∀ k, s ≤ k → k < e → subR (PB k) (nodes id).bbox := by
  induction h with
  | leaf id s e hS hlt hleaf hstart hcount hse hsub => exact hsub
  | internal id s m e hS hlt hleaf hcount hid hstart hL hR hs1 hs2 ihL ihR =>
    intro k hk1 hk2
    rcases lt_or_ge k m with hkm | hkm
    · exact subR_trans (ihL k hk1 hkm) hs1
    · exact subR_trans (ihR k hkm hk2) hs2

/-! ### Traversal-order machinery -/

theorem childPush_eq (node : BVHNode) (d : Vec3) (hc : node.count = 2) :
    childPush node d = [node.start + 1, node.start] ∨
      childPush node d = [node.start, node.start + 1] := by
  unfold childPush
  rw [hc]
  have hr : (List.range 2).map (node.start + ·) = [node.start, node.start + 1] := by
    rfl
  rw [hr]
  split_ifs
  · exact Or.inl rfl
  · exact Or.inr rfl

theorem childPush_mem {node : BVHNode} {d : Vec3} (hc : node.count = 2) {x : ℕ}
    (hx : x ∈ childPush node d) : x = node.start ∨ x = node.start + 1 := by
  rcases childPush_eq node d hc with h | h <;> rw [h] at hx <;>
    simp only [List.mem_cons, List.mem_singleton] at hx <;> tauto

theorem children_measure_lt {nn nid st' : ℕ} (hid : nid < st') (hst : st' + 1 < nn) :
    3 ^ (nn - st') + 3 ^ (nn - (st' + 1)) < 3 ^ (nn - nid) := by
  have e1 : 3 ^ (nn - st') ≤ 3 ^ (nn - nid - 1) :=
    Nat.pow_le_pow_right (by norm_num) (by omega)
  have e2 : 3 ^ (nn - (st' + 1)) ≤ 3 ^ (nn - nid - 1) :=
    Nat.pow_le_pow_right (by norm_num) (by omega)
  have e3 : 3 ^ (nn - nid) = 3 * 3 ^ (nn - nid - 1) := by
    rw [← pow_succ']
    congr 1
    omega
  have e4 : 0 < 3 ^ (nn - nid - 1) := pow_pos (by norm_num) _
  omega

theorem childPush_measure {nn : ℕ} (node : BVHNode) (d : Vec3) (hc : node.count = 2)
    (hid : ∀ x ∈ childPush node d, True) {nid : ℕ} (h1 : nid < node.start)
    (h2 : node.start + 1 < nn) :
    stackMeasure nn (childPush node d) < 3 ^ (nn - nid) := by
  rcases childPush_eq node d hc with h | h <;> rw [h] <;>
    rw [stackMeasure_cons, stackMeasure_cons] <;>
    simp only [stackMeasure, List.map_nil, List.sum_nil] <;>
    have := children_measure_lt h1 h2 <;> omega

theorem shapeTravGo_stable (sh : ShapeBVH) (d : Vec3) (PB : ℕ → Range3)
    (S : ℕ → Prop) :
    ∀ (f f' : ℕ) (st : List ℕ),
      (∀ n ∈ st, ∃ a b, GoodTree sh.nodes sh.nnodes PB S n a b) →
      stackMeasure sh.nnodes st < f → stackMeasure sh.nnodes st < f' →
      shapeTravGo sh d f st = shapeTravGo sh d f' st := by
  intro f
  induction f with
  | zero =>
    intro f' st _ hm _
    omega
  | succ f ih =>
    intro f' st hst hm hm'
    cases st with
    | nil =>
      cases f' with
      | zero => omega
      | succ f'' => rfl
    | cons nid rest =>
      cases f' with
      | zero => omega
      | succ f'' =>
        obtain ⟨a, b, GT⟩ := hst nid (List.mem_cons_self nid rest)
        rw [stackMeasure_cons] at hm hm'
        have h3 : 0 < 3 ^ (sh.nnodes - nid) := pow_pos (by norm_num) _
        have hrest : ∀ n ∈ rest, ∃ a b, GoodTree sh.nodes sh.nnodes PB S n a b :=
          fun x hx => hst x (List.mem_cons_of_mem nid hx)
        simp only [shapeTravGo]
        cases GT with
        | leaf nid a b hS hlt hleaf hstart hcount hse hsub =>
          simp only [hleaf, if_true]
          rw [ih f'' rest hrest (by omega) (by omega)]
        | internal nid a m b hS hlt hleaf hcount hid hstart hL hR hs1 hs2 =>
          simp only [hleaf, Bool.false_eq_true, if_false]
          have hnew : ∀ n ∈ childPush (sh.nodes nid) d ++ rest,
              ∃ a b, GoodTree sh.nodes sh.nnodes PB S n a b := by
            intro x hx
            rcases List.mem_append.mp hx with hx | hx
            · rcases childPush_mem hcount hx with rfl | rfl
              · exact ⟨a, m, hL⟩
              · exact ⟨m, b, hR⟩
            · exact hrest x hx
          have hmch : stackMeasure sh.nnodes (childPush (sh.nodes nid) d ++ rest) <
              3 ^ (sh.nnodes - nid) + stackMeasure sh.nnodes rest := by
            rw [stackMeasure_append]
            have := childPush_measure (sh.nodes nid) d hcount (fun _ _ => trivial)
              hid hstart
            omega
          exact ih f'' _ hnew (by omega) (by omega)

theorem shapeTravGo_split (sh : ShapeBVH) (d : Vec3) (PB : ℕ → Range3)
    (S : ℕ → Prop) :
    ∀ (f : ℕ) (st1 st2 : List ℕ),
      (∀ n ∈ st1 ++ st2, ∃ a b, GoodTree sh.nodes sh.nnodes PB S n a b) →
      stackMeasure sh.nnodes (st1 ++ st2) < f →
      shapeTravGo sh d f (st1 ++ st2) =
        shapeTravGo sh d f st1 ++ shapeTravGo sh d f st2 := by
  intro f
  induction f with
  | zero =>
    intro st1 st2 _ hm
    omega
  | succ f ih =>
    intro st1 st2 hst hm
    cases st1 with
    | nil =>
      simp only [List.nil_append]
      rw [show shapeTravGo sh d (f + 1) [] = [] from rfl, List.nil_append]
    | cons nid rest =>
      rw [List.cons_append] at hst hm ⊢
      obtain ⟨a, b, GT⟩ := hst nid (List.mem_cons_self _ _)
      rw [stackMeasure_cons] at hm
      have h3 : 0 < 3 ^ (sh.nnodes - nid) := pow_pos (by norm_num) _
      have hrest : ∀ n ∈ rest ++ st2, ∃ a b, GoodTree sh.nodes sh.nnodes PB S n a b :=
        fun x hx => hst x (List.mem_cons_of_mem nid hx)
      have hst2 : ∀ n ∈ st2, ∃ a b, GoodTree sh.nodes sh.nnodes PB S n a b :=
        fun x hx => hrest x (List.mem_append_right rest hx)
      have hm2 : stackMeasure sh.nnodes st2 ≤ stackMeasure sh.nnodes (rest ++ st2) := by
        rw [stackMeasure_append]
        omega
      simp only [shapeTravGo]
      cases GT with
      | leaf nid a b hS hlt hleaf hstart hcount hse hsub =>
        simp only [hleaf, if_true]
        rw [ih rest st2 hrest (by omega), List.append_assoc]
        rw [shapeTravGo_stable sh d PB S f (f + 1) st2 hst2 (by omega) (by omega)]
      | internal nid a m b hS hlt hleaf hcount hid hstart hL hR hs1 hs2 =>
        simp only [hleaf, Bool.false_eq_true, if_false]
        have hnew : ∀ n ∈ (childPush (sh.nodes nid) d ++ rest) ++ st2,
            ∃ a b, GoodTree sh.nodes sh.nnodes PB S n a b := by
          intro x hx
          rcases List.mem_append.mp hx with hx | hx
          · rcases List.mem_append.mp hx with hx | hx
            · rcases childPush_mem hcount hx with rfl | rfl
              · exact ⟨a, m, hL⟩
              · exact ⟨m, b, hR⟩
            · exact hrest x (List.mem_append_left _ hx)
          · exact hst2 x hx
        have hmch : stackMeasure sh.nnodes (childPush (sh.nodes nid) d) <
            3 ^ (sh.nnodes - nid) :=
          childPush_measure (sh.nodes nid) d hcount (fun _ _ => trivial) hid hstart
        rw [stackMeasure_append] at hm
        have hgoal := ih (childPush (sh.nodes nid) d ++ rest) st2 hnew
          (by rw [stackMeasure_append, stackMeasure_append]; omega)
        rw [← List.append_assoc, hgoal,
          show shapeTravGo sh d (f + 1) st2 = shapeTravGo sh d f st2 from
            (shapeTravGo_stable sh d PB S f (f + 1) st2 hst2
              (by rw [stackMeasure_append] at hm2; omega)
              (by rw [stackMeasure_append] at hm2; omega)).symm]

theorem shapeTravGo_mem (sh : ShapeBVH) (d : Vec3) (PB : ℕ → Range3)
    (S : ℕ → Prop) (N : ℕ) :
    ∀ (f : ℕ) (st : List ℕ),
      (∀ n ∈ st, ∃ a b, GoodTree sh.nodes sh.nnodes PB S n a b ∧ b ≤ N) →
      stackMeasure sh.nnodes st < f →
      ∀ x ∈ shapeTravGo sh d f st, ∃ n ∈ st, ∃ k, k < N ∧
        x = sh.sorted_prim.getD k 0 ∧ subR (PB k) ((sh.nodes n).bbox) := by
  intro f
  induction f with
  | zero =>
    intro st _ hm
    omega
  | succ f ih =>
    intro st hst hm
    cases st with
    | nil =>
      intro x hx
      exact absurd hx (by simp [shapeTravGo])
    | cons nid rest =>
      obtain ⟨a, b, GT, hbN⟩ := hst nid (List.mem_cons_self _ _)
      rw [stackMeasure_cons] at hm
      have h3 : 0 < 3 ^ (sh.nnodes - nid) := pow_pos (by norm_num) _
      have hrest : ∀ n ∈ rest, ∃ a b,
          GoodTree sh.nodes sh.nnodes PB S n a b ∧ b ≤ N :=
        fun x hx => hst x (List.mem_cons_of_mem nid hx)
      simp only [shapeTravGo]
      cases GT with
      | leaf nid a b hS hlt hleaf hstart hcount hse hsub =>
        simp only [hleaf, if_true]
        intro x hx
        rcases List.mem_append.mp hx with hx | hx
        · unfold leafPrims at hx
          obtain ⟨i, hi, hxe⟩ := List.mem_map.mp hx
          have hi' : i < (sh.nodes nid).count := List.mem_range.mp hi
          refine ⟨nid, List.mem_cons_self _ _, (sh.nodes nid).start + i, ?_, hxe.symm, ?_⟩
          · rw [hcount] at hi'
            rw [hstart]
            omega
          · apply hsub
            · rw [hstart]
              omega
            · rw [hcount] at hi'
              rw [hstart]
              omega
        · obtain ⟨n, hn, k, hk, hxe, hsubk⟩ := ih rest hrest (by omega) x hx
          exact ⟨n, List.mem_cons_of_mem nid hn, k, hk, hxe, hsubk⟩
      | internal nid a m b hS hlt hleaf hcount hid hstart hL hR hs1 hs2 =>
        simp only [hleaf, Bool.false_eq_true, if_false]
        intro x hx
        have hmb : m ≤ b := GoodTree_le hR
        have hnew : ∀ n ∈ childPush (sh.nodes nid) d ++ rest,
            ∃ a b, GoodTree sh.nodes sh.nnodes PB S n a b ∧ b ≤ N := by
          intro y hy
          rcases List.mem_append.mp hy with hy | hy
          · rcases childPush_mem hcount hy with rfl | rfl
            · exact ⟨a, m, hL, by omega⟩
            · exact ⟨m, b, hR, hbN⟩
          · exact hrest y hy
        have hmch : stackMeasure sh.nnodes (childPush (sh.nodes nid) d) <
            3 ^ (sh.nnodes - nid) :=
          childPush_measure (sh.nodes nid) d hcount (fun _ _ => trivial) hid hstart
        obtain ⟨n, hn, k, hk, hxe, hsubk⟩ := ih _ hnew
          (by rw [stackMeasure_append]; omega) x hx
        rcases List.mem_append.mp hn with hn | hn
        · rcases childPush_mem hcount hn with rfl | rfl
          · exact ⟨nid, List.mem_cons_self _ _, k, hk, hxe, subR_trans hsubk hs1⟩
          · exact ⟨nid, List.mem_cons_self _ _, k, hk, hxe, subR_trans hsubk hs2⟩
        · exact ⟨n, List.mem_cons_of_mem nid hn, k, hk, hxe, hsubk⟩

theorem shapeILoop_eq_fold (sh : ShapeBVH) (PB : ℕ → Range3) (S : ℕ → Prop) (N : ℕ)
    (hrad : radOk sh)
    (hprim : ∀ k (r : Ray3) t uv, k < N →
      primIsect sh r (sh.sorted_prim.getD k 0) = some (t, uv) →
      memR (r.eval t) (PB k)) :
    ∀ (f : ℕ) (st : List ℕ) (s : SITState),
      (∀ n ∈ st, ∃ a b, GoodTree sh.nodes sh.nnodes PB S n a b ∧ b ≤ N) →
      stackMeasure sh.nnodes st < f →
      shapeILoop sh false f st s =
        .ok (shapeFold sh (shapeTravGo sh s.ray.d f st) s) := by
  intro f
  induction f with
  | zero =>
    intro st s _ hm
    omega
  | succ f ih =>
    intro st s hst hm
    cases st with
    | nil => rfl
    | cons nid rest =>
      obtain ⟨a, b, GT, hbN⟩ := hst nid (List.mem_cons_self _ _)
      rw [stackMeasure_cons] at hm
      have h3 : 0 < 3 ^ (sh.nnodes - nid) := pow_pos (by norm_num) _
      have hrest : ∀ n ∈ rest, ∃ a b,
          GoodTree sh.nodes sh.nnodes PB S n a b ∧ b ≤ N :=
        fun x hx => hst x (List.mem_cons_of_mem nid hx)
      have hstW : ∀ n ∈ nid :: rest, ∃ a b, GoodTree sh.nodes sh.nnodes PB S n a b := by
        intro x hx
        obtain ⟨a', b', h', _⟩ := hst x hx
        exact ⟨a', b', h'⟩
      have hrestW : ∀ n ∈ rest, ∃ a b, GoodTree sh.nodes sh.nnodes PB S n a b :=
        fun x hx => hstW x (List.mem_cons_of_mem nid hx)
      have htrav_cons : shapeTravGo sh s.ray.d (f + 1) (nid :: rest) =
          if (sh.nodes nid).isleaf then
            leafPrims sh.sorted_prim (sh.nodes nid) ++ shapeTravGo sh s.ray.d f rest
          else shapeTravGo sh s.ray.d f (childPush (sh.nodes nid) s.ray.d ++ rest) := rfl
      simp only [shapeILoop, Bool.false_and, Bool.false_eq_true, if_false]
      cases hbb : yb__intersect_check_bbox s.ray (sh.nodes nid).bbox with
      | false =>
        simp only [hbb, Bool.not_false, if_true]
        have hsplit := shapeTravGo_split sh s.ray.d PB S (f + 1) [nid] rest
          (by rw [List.singleton_append]; exact hstW)
          (by rw [List.singleton_append, stackMeasure_cons]; omega)
        rw [List.singleton_append] at hsplit
        rw [hsplit,
          show shapeFold sh (shapeTravGo sh s.ray.d (f + 1) [nid] ++
              shapeTravGo sh s.ray.d (f + 1) rest) s =
            shapeFold sh (shapeTravGo sh s.ray.d (f + 1) rest)
              (shapeFold sh (shapeTravGo sh s.ray.d (f + 1) [nid]) s) from by
            unfold shapeFold
            rw [List.foldl_append]]
        have hid1 : shapeFold sh (shapeTravGo sh s.ray.d (f + 1) [nid]) s = s := by
          apply shapeFold_id
          intro e he
          rcases hp : primIsect sh s.ray e with _ | ⟨t, uv⟩
          · rfl
          · exfalso
            obtain ⟨n, hn, k, hk, hxe, hsubk⟩ :=
              shapeTravGo_mem sh s.ray.d PB S N (f + 1) [nid]
                (by intro x hx
                    rw [List.mem_singleton] at hx
                    subst hx
                    exact ⟨a, b, GT, hbN⟩)
                (by rw [show ([nid] : List ℕ) = nid :: [] from rfl, stackMeasure_cons]
                    unfold stackMeasure
                    simp only [List.map_nil, List.sum_nil]
                    omega) e he
            rw [List.mem_singleton] at hn
            subst hn
            subst hxe
            have hmem := hprim k s.ray t uv hk hp
            have hin := memR_mono hmem hsubk
            obtain ⟨ht1, ht2⟩ := primIsect_range hp
            have hcb := check_bbox_conserv s.ray (sh.nodes n).bbox t ht1 ht2 hin
            rw [hbb] at hcb
            exact absurd hcb (by simp)
        rw [hid1,
          show shapeTravGo sh s.ray.d (f + 1) rest = shapeTravGo sh s.ray.d f rest from
            shapeTravGo_stable sh s.ray.d PB S (f + 1) f rest hrestW (by omega) (by omega)]
        exact ih rest s hrest (by omega)
      | true =>
        simp only [hbb, Bool.not_true, Bool.false_eq_true, if_false]
        cases GT with
        | leaf nid a b hS hlt hleaf hstart hcount hse hsub =>
          simp only [hleaf, if_true]
          rw [crashFold_eq_fold _ _ (shapePrimStep_ok hrad)]
          dsimp only
          rw [htrav_cons]
          simp only [hleaf, if_true]
          rw [show shapeFold sh (leafPrims sh.sorted_prim (sh.nodes nid) ++
              shapeTravGo sh s.ray.d f rest) s =
            shapeFold sh (shapeTravGo sh s.ray.d f rest)
              (shapeFold sh (leafPrims sh.sorted_prim (sh.nodes nid)) s) from by
            unfold shapeFold
            rw [List.foldl_append]]
          have hd' : (shapeFold sh (leafPrims sh.sorted_prim (sh.nodes nid)) s).ray.d =
              s.ray.d := (shapeFold_frame sh _ s).2.1
          rw [← hd']
          exact ih rest _ hrest (by omega)
        | internal nid a m b hS hlt hleaf hcount hid hstart hL hR hs1 hs2 =>
          simp only [hleaf, Bool.false_eq_true, if_false]
          rw [htrav_cons]
          simp only [hleaf, Bool.false_eq_true, if_false]
          have hmb : m ≤ b := GoodTree_le hR
          have hnew : ∀ n ∈ childPush (sh.nodes nid) s.ray.d ++ rest,
              ∃ a b, GoodTree sh.nodes sh.nnodes PB S n a b ∧ b ≤ N := by
            intro x hx
            rcases List.mem_append.mp hx with hx | hx
            · rcases childPush_mem hcount hx with rfl | rfl
              · exact ⟨a, m, hL, by omega⟩
              · exact ⟨m, b, hR, hbN⟩
            · exact hrest x hx
          have hmch : stackMeasure sh.nnodes (childPush (sh.nodes nid) s.ray.d) <
              3 ^ (sh.nnodes - nid) :=
            childPush_measure (sh.nodes nid) s.ray.d hcount (fun _ _ => trivial)
              hid hstart
          exact ih _ s hnew (by rw [stackMeasure_append]; omega)

theorem yb__intersect_shape_eq (sh : ShapeBVH) (PB : ℕ → Range3) (S : ℕ → Prop)
    (N : ℕ) (hrad : radOk sh)
    (hprim : ∀ k (r : Ray3) t uv, k < N →
      primIsect sh r (sh.sorted_prim.getD k 0) = some (t, uv) →
      memR (r.eval t) (PB k))
    (hroot : ∃ a b, GoodTree sh.nodes sh.nnodes PB S 0 a b ∧ b ≤ N)
    (tray : Ray3) (rayt0 : ℚ) (eid0 : ℕ) (euv0 : Vec2) :
    yb__intersect_shape sh false tray rayt0 eid0 euv0 =
      .ok ((shapeFold sh (shapeTravOrder sh tray.d) ⟨tray, false, eid0, euv0⟩).hit,
        (if (shapeFold sh (shapeTravOrder sh tray.d) ⟨tray, false, eid0, euv0⟩).hit
          then (shapeFold sh (shapeTravOrder sh tray.d) ⟨tray, false, eid0, euv0⟩).ray.tmax
          else rayt0),
        (shapeFold sh (shapeTravOrder sh tray.d) ⟨tray, false, eid0, euv0⟩).eid,
        (shapeFold sh (shapeTravOrder sh tray.d) ⟨tray, false, eid0, euv0⟩).euv) := by
  unfold yb__intersect_shape
  rw [shapeILoop_eq_fold sh PB S N hrad hprim (shapeFuel sh) [0] ⟨tray, false, eid0, euv0⟩
    (by intro x hx
        rw [List.mem_singleton] at hx
        subst hx
        exact hroot)
    (by unfold shapeFuel
        rw [show ([0] : List ℕ) = 0 :: [] from rfl, stackMeasure_cons]
        unfold stackMeasure
        simp only [List.map_nil, List.sum_nil, Nat.sub_zero]
        have : (3:ℕ) ^ sh.nnodes < 3 ^ (sh.nnodes + 1) :=
          Nat.pow_lt_pow_right (by norm_num) (by omega)
        omega)]
  rfl

theorem shapeILoop_early_exit (sh : ShapeBVH) :
    ∀ (f : ℕ) (st : List ℕ) (s : SITState), s.hit = true → 1 ≤ f →
      shapeILoop sh true f st s = .ok s := by
  intro f st s hs hf
  cases f with
  | zero => omega
  | succ f =>
    cases st with
    | nil => rfl
    | cons nid rest =>
      simp only [shapeILoop, hs, Bool.true_and, if_true]

theorem shapeILoop_early (sh : ShapeBVH) (PB : ℕ → Range3) (S : ℕ → Prop) (N : ℕ)
    (hrad : radOk sh)
    (hprim : ∀ k (r : Ray3) t uv, k < N →
      primIsect sh r (sh.sorted_prim.getD k 0) = some (t, uv) →
      memR (r.eval t) (PB k)) :
    ∀ (f : ℕ) (st : List ℕ) (s : SITState),
      (∀ n ∈ st, ∃ a b, GoodTree sh.nodes sh.nnodes PB S n a b ∧ b ≤ N) →
      stackMeasure sh.nnodes st < f →
      ∃ s', shapeILoop sh true f st s = .ok s' ∧
        (s'.hit = true ↔ s.hit = true ∨
          ∃ e ∈ shapeTravGo sh s.ray.d f st, primIsect sh s.ray e ≠ none) ∧
        (s' = s ∨ s'.hit = true) := by
  intro f
  induction f with
  | zero =>
    intro st s _ hm
    omega
  | succ f ih =>
    intro st s hst hm
    cases st with
    | nil =>
      refine ⟨s, rfl, ?_, Or.inl rfl⟩
      simp [shapeTravGo]
    | cons nid rest =>
      obtain ⟨a, b, GT, hbN⟩ := hst nid (List.mem_cons_self _ _)
      rw [stackMeasure_cons] at hm
      have h3 : 0 < 3 ^ (sh.nnodes - nid) := pow_pos (by norm_num) _
      have hrest : ∀ n ∈ rest, ∃ a b,
          GoodTree sh.nodes sh.nnodes PB S n a b ∧ b ≤ N :=
        fun x hx => hst x (List.mem_cons_of_mem nid hx)
      have hstW : ∀ n ∈ nid :: rest, ∃ a b, GoodTree sh.nodes sh.nnodes PB S n a b := by
        intro x hx
        obtain ⟨a', b', h', _⟩ := hst x hx
        exact ⟨a', b', h'⟩
      have hrestW : ∀ n ∈ rest, ∃ a b, GoodTree sh.nodes sh.nnodes PB S n a b :=
        fun x hx => hstW x (List.mem_cons_of_mem nid hx)
      have htrav_cons : shapeTravGo sh s.ray.d (f + 1) (nid :: rest) =
          if (sh.nodes nid).isleaf then
            leafPrims sh.sorted_prim (sh.nodes nid) ++ shapeTravGo sh s.ray.d f rest
          else shapeTravGo sh s.ray.d f (childPush (sh.nodes nid) s.ray.d ++ rest) := rfl
      cases hsh : s.hit with
      | true =>
        refine ⟨s, shapeILoop_early_exit sh (f + 1) (nid :: rest) s hsh (by omega), ?_,
          Or.inl rfl⟩
        simp [hsh]
      | false =>
        have hprune : yb__intersect_check_bbox s.ray (sh.nodes nid).bbox = false →
            ∀ e ∈ shapeTravGo sh s.ray.d (f + 1) [nid], primIsect sh s.ray e = none := by
          intro hbb e he
          rcases hp : primIsect sh s.ray e with _ | ⟨t, uv⟩
          · rfl
          · exfalso
            obtain ⟨n, hn, k, hk, hxe, hsubk⟩ :=
              shapeTravGo_mem sh s.ray.d PB S N (f + 1) [nid]
                (by intro x hx
                    rw [List.mem_singleton] at hx
                    subst hx
                    exact ⟨a, b, GT, hbN⟩)
                (by rw [show ([nid] : List ℕ) = nid :: [] from rfl, stackMeasure_cons]
                    unfold stackMeasure
                    simp only [List.map_nil, List.sum_nil]
                    omega) e he
            rw [List.mem_singleton] at hn
            subst hn
            subst hxe
            have hin := memR_mono (hprim k s.ray t uv hk hp) hsubk
            obtain ⟨ht1, ht2⟩ := primIsect_range hp
            have hcb := check_bbox_conserv s.ray (sh.nodes n).bbox t ht1 ht2 hin
            rw [hbb] at hcb
            exact absurd hcb (by simp)
        simp only [shapeILoop, hsh, Bool.and_false, Bool.false_eq_true, if_false]
        cases hbb : yb__intersect_check_bbox s.ray (sh.nodes nid).bbox with
        | false =>
          simp only [hbb, Bool.not_false, if_true]
          obtain ⟨s', hs', hiff, hcase⟩ := ih rest s hrest (by omega)
          refine ⟨s', hs', ?_, hcase⟩
          rw [hiff, hsh]
          simp only [Bool.false_eq_true, false_or]
          have hsplit := shapeTravGo_split sh s.ray.d PB S (f + 1) [nid] rest
            (by rw [List.singleton_append]; exact hstW)
            (by rw [List.singleton_append, stackMeasure_cons]; omega)
          rw [List.singleton_append] at hsplit
          rw [hsplit,
            show shapeTravGo sh s.ray.d (f + 1) rest = shapeTravGo sh s.ray.d f rest from
              shapeTravGo_stable sh s.ray.d PB S (f + 1) f rest hrestW (by omega) (by omega)]
          constructor
          · rintro ⟨e, he, hne⟩
            exact ⟨e, List.mem_append_right _ he, hne⟩
          · rintro ⟨e, he, hne⟩
            rcases List.mem_append.mp he with he | he
            · exact absurd (hprune hbb e he) hne
            · exact ⟨e, he, hne⟩
        | true =>
          simp only [hbb, Bool.not_true, Bool.false_eq_true, if_false]
          cases GT with
          | leaf nid a b hS hlt hleaf hstart hcount hse hsub =>
            simp only [hleaf, if_true]
            rw [crashFold_eq_fold _ _ (shapePrimStep_ok hrad)]
            dsimp only
            cases hfold : (shapeFold sh (leafPrims sh.sorted_prim (sh.nodes nid)) s).hit with
            | true =>
              refine ⟨shapeFold sh (leafPrims sh.sorted_prim (sh.nodes nid)) s,
                shapeILoop_early_exit sh f rest _ hfold (by omega), ?_, Or.inr hfold⟩
              rw [hfold]
              simp only [true_iff]
              have hh := (shapeFold_hit sh (leafPrims sh.sorted_prim (sh.nodes nid)) s).mp hfold
              rcases hh with h | ⟨e, he, hne⟩
              · rw [hsh] at h
                exact absurd h (by simp)
              · refine Or.inr ⟨e, ?_, hne⟩
                rw [htrav_cons]
                simp only [hleaf, if_true]
                exact List.mem_append_left _ he
            | false =>
              have hall : ∀ e ∈ leafPrims sh.sorted_prim (sh.nodes nid),
                  primIsect sh s.ray e = none := by
                intro e he
                rcases hp : primIsect sh s.ray e with _ | ⟨t, uv⟩
                · rfl
                · exfalso
                  have hcontra : (shapeFold sh (leafPrims sh.sorted_prim (sh.nodes nid)) s).hit
                      = true := by
                    rw [shapeFold_hit]
                    exact Or.inr ⟨e, he, by rw [hp]; simp⟩
                  rw [hfold] at hcontra
                  exact absurd hcontra (by simp)
              have hid1 : List.foldl (shapeFoldStep sh) s
                  (leafPrims sh.sorted_prim (sh.nodes nid)) = s :=
                shapeFold_id sh _ s hall
              rw [hid1]
              obtain ⟨s', hs', hiff, hcase⟩ := ih rest s hrest (by omega)
              refine ⟨s', hs', ?_, hcase⟩
              rw [hiff, hsh]
              simp only [Bool.false_eq_true, false_or]
              rw [htrav_cons]
              simp only [hleaf, if_true]
              constructor
              · rintro ⟨e, he, hne⟩
                exact ⟨e, List.mem_append_right _ he, hne⟩
              · rintro ⟨e, he, hne⟩
                rcases List.mem_append.mp he with he | he
                · exact absurd (hall e he) hne
                · exact ⟨e, he, hne⟩
          | internal nid a m b hS hlt hleaf hcount hid hstart hL hR hs1 hs2 =>
            simp only [hleaf, Bool.false_eq_true, if_false]
            have hmb : m ≤ b := GoodTree_le hR
            have hnew : ∀ n ∈ childPush (sh.nodes nid) s.ray.d ++ rest,
                ∃ a b, GoodTree sh.nodes sh.nnodes PB S n a b ∧ b ≤ N := by
              intro x hx
              rcases List.mem_append.mp hx with hx | hx
              · rcases childPush_mem hcount hx with rfl | rfl
                · exact ⟨a, m, hL, by omega⟩
                · exact ⟨m, b, hR, hbN⟩
              · exact hrest x hx
            have hmch : stackMeasure sh.nnodes (childPush (sh.nodes nid) s.ray.d) <
                3 ^ (sh.nnodes - nid) :=
              childPush_measure (sh.nodes nid) s.ray.d hcount (fun _ _ => trivial)
                hid hstart
            obtain ⟨s', hs', hiff, hcase⟩ := ih _ s hnew (by rw [stackMeasure_append]; omega)
            refine ⟨s', hs', ?_, hcase⟩
            rw [hiff, hsh, htrav_cons]
            simp only [Bool.false_eq_true, false_or, hleaf, if_false]

/-! ### Scene-level reference fold -/

theorem scenePrimIsect_range {scene : SceneBVH} {ray : Ray3} {sid eid : ℕ} {t : ℚ}
    {uv : Vec2} (h : scenePrimIsect scene ray sid eid = some (t, uv)) :
    ray.tmin ≤ t ∧ t ≤ ray.tmax := by
  unfold scenePrimIsect at h
  have h2 := primIsect_range h
  unfold localRay at h2
  dsimp only at h2
  exact h2

theorem bruteStep_frame (scene : SceneBVH) (s : SceneITState) (p : ℕ × ℕ) :
    (bruteStep scene s p).ray.o = s.ray.o ∧ (bruteStep scene s p).ray.d = s.ray.d ∧
    (bruteStep scene s p).ray.tmin = s.ray.tmin ∧
    (bruteStep scene s p).ray.tmax ≤ s.ray.tmax ∧
    (s.hit = true → (bruteStep scene s p).hit = true) := by
  unfold bruteStep
  rcases hp : scenePrimIsect scene s.ray p.1 p.2 with _ | ⟨t, uv⟩
  · exact ⟨rfl, rfl, rfl, le_refl _, fun h => h⟩
  · dsimp only
    exact ⟨rfl, rfl, rfl, (scenePrimIsect_range hp).2, fun _ => rfl⟩

theorem bruteFold_frame (scene : SceneBVH) :
    ∀ (L : List (ℕ × ℕ)) (s : SceneITState),
      (bruteFold scene L s).ray.o = s.ray.o ∧ (bruteFold scene L s).ray.d = s.ray.d ∧
      (bruteFold scene L s).ray.tmin = s.ray.tmin ∧
      (bruteFold scene L s).ray.tmax ≤ s.ray.tmax ∧
      (s.hit = true → (bruteFold scene L s).hit = true) := by
  intro L
  induction L with
  | nil => intro s; exact ⟨rfl, rfl, rfl, le_refl _, fun h => h⟩
  | cons p ps ih =>
    intro s
    unfold bruteFold at *
    rw [List.foldl_cons]
    obtain ⟨io, id', imin, imax, ihit⟩ := ih (bruteStep scene s p)
    obtain ⟨so, sd, smin, smax, shit⟩ := bruteStep_frame scene s p
    exact ⟨io.trans so, id'.trans sd, imin.trans smin, le_trans imax smax,
      fun h => ihit (shit h)⟩

theorem bruteFold_hit (scene : SceneBVH) :
    ∀ (L : List (ℕ × ℕ)) (s : SceneITState),
      (bruteFold scene L s).hit = true ↔
        s.hit = true ∨ ∃ p ∈ L, scenePrimIsect scene s.ray p.1 p.2 ≠ none := by
  intro L
  induction L with
  | nil =>
    intro s
    simp [bruteFold]
  | cons p ps ih =>
    intro s
    unfold bruteFold at *
    rw [List.foldl_cons]
    rcases hp : scenePrimIsect scene s.ray p.1 p.2 with _ | ⟨t, uv⟩
    · have hstep : bruteStep scene s p = s := by
        unfold bruteStep
        rw [hp]
      rw [hstep, ih s]
      simp only [List.mem_cons]
      constructor
      · rintro (h | ⟨x, hx, hne⟩)
        · exact Or.inl h
        · exact Or.inr ⟨x, Or.inr hx, hne⟩
      · rintro (h | ⟨x, hx | hx, hne⟩)
        · exact Or.inl h
        · subst hx
          exact absurd hp hne
        · exact Or.inr ⟨x, hx, hne⟩
    · have hstep : bruteStep scene s p =
          ⟨{ s.ray with tmax := t }, true, p.1, p.2, uv⟩ := by
        unfold bruteStep
        rw [hp]
      rw [hstep, ih _]
      constructor
      · intro _
        exact Or.inr ⟨p, List.mem_cons_self p ps, by rw [hp]; simp⟩
      · intro _
        exact Or.inl rfl

theorem bruteFold_id (scene : SceneBVH) :
    ∀ (L : List (ℕ × ℕ)) (s : SceneITState),
      (∀ p ∈ L, scenePrimIsect scene s.ray p.1 p.2 = none) →
      bruteFold scene L s = s := by
  intro L
  induction L with
  | nil => intro s _; rfl
  | cons p ps ih =>
    intro s hall
    unfold bruteFold at *
    rw [List.foldl_cons]
    have hstep : bruteStep scene s p = s := by
      unfold bruteStep
      rw [hall p (List.mem_cons_self p ps)]
    rw [hstep]
    exact ih s (fun x hx => hall x (List.mem_cons_of_mem p hx))

theorem bruteFold_shape_sim (scene : SceneBVH) (idx : ℕ) (sh : ShapeBVH)
    (hsh : scene.shapes.getD idx emptyShape = sh)
    (ray0 : Ray3) (hit0 : Bool) (sid0 : ℕ) :
    ∀ (E : List ℕ) (I : SITState),
      I.ray.o = (localRay scene idx ray0).o →
      I.ray.d = (localRay scene idx ray0).d →
      I.ray.tmin = (localRay scene idx ray0).tmin →
      bruteFold scene (E.map (fun e => (idx, e)))
        ⟨{ ray0 with tmax := I.ray.tmax }, hit0 || I.hit,
          if I.hit then idx else sid0, I.eid, I.euv⟩ =
      ⟨{ ray0 with tmax := (shapeFold sh E I).ray.tmax }, hit0 || (shapeFold sh E I).hit,
        if (shapeFold sh E I).hit then idx else sid0,
        (shapeFold sh E I).eid, (shapeFold sh E I).euv⟩ := by
  intro E
  induction E with
  | nil => intro I _ _ _; rfl
  | cons e E' ih =>
    intro I ho hd htmin
    have hloc : localRay scene idx ({ ray0 with tmax := I.ray.tmax } : Ray3) = I.ray := by
      conv_rhs => rw [show I.ray = ⟨I.ray.o, I.ray.d, I.ray.tmin, I.ray.tmax⟩ from rfl]
      rw [ho, hd, htmin]
      rfl
    rw [List.map_cons]
    show bruteFold scene ((idx, e) :: E'.map (fun e => (idx, e))) _ = _
    unfold bruteFold shapeFold
    rw [List.foldl_cons, List.foldl_cons]
    have hstep : bruteStep scene
        ⟨{ ray0 with tmax := I.ray.tmax }, hit0 || I.hit,
          if I.hit then idx else sid0, I.eid, I.euv⟩ (idx, e) =
        ⟨{ ray0 with tmax := (shapeFoldStep sh I e).ray.tmax },
          hit0 || (shapeFoldStep sh I e).hit,
          if (shapeFoldStep sh I e).hit then idx else sid0,
          (shapeFoldStep sh I e).eid, (shapeFoldStep sh I e).euv⟩ := by
      unfold bruteStep scenePrimIsect shapeFoldStep
      dsimp only
      rw [hloc, hsh]
      rcases hp : primIsect sh I.ray e with _ | ⟨t, uv⟩
      · rfl
      · simp [Bool.or_true]
    rw [hstep]
    obtain ⟨so, sd, smin, _, _⟩ := shapeFoldStep_frame sh I e
    exact ih (shapeFoldStep sh I e) (so.trans ho) (sd.trans hd) (smin.trans htmin)

/-! ### Scene traversal-order machinery -/

theorem sceneTravGo_stable (sh : SceneBVH) (d : Vec3) (PB : ℕ → Range3)
    (S : ℕ → Prop) :
    ∀ (f f' : ℕ) (st : List ℕ),
      (∀ n ∈ st, ∃ a b, GoodTree sh.nodes sh.nnodes PB S n a b) →
      stackMeasure sh.nnodes st < f → stackMeasure sh.nnodes st < f' →
      sceneTravGo sh d f st = sceneTravGo sh d f' st := by
  intro f
  induction f with
  | zero =>
    intro f' st _ hm _
    omega
  | succ f ih =>
    intro f' st hst hm hm'
    cases st with
    | nil =>
      cases f' with
      | zero => omega
      | succ f'' => rfl
    | cons nid rest =>
      cases f' with
      | zero => omega
      | succ f'' =>
        obtain ⟨a, b, GT⟩ := hst nid (List.mem_cons_self nid rest)
        rw [stackMeasure_cons] at hm hm'
        have h3 : 0 < 3 ^ (sh.nnodes - nid) := pow_pos (by norm_num) _
        have hrest : ∀ n ∈ rest, ∃ a b, GoodTree sh.nodes sh.nnodes PB S n a b :=
          fun x hx => hst x (List.mem_cons_of_mem nid hx)
        simp only [sceneTravGo]
        cases GT with
        | leaf nid a b hS hlt hleaf hstart hcount hse hsub =>
          simp only [hleaf, if_true]
          rw [ih f'' rest hrest (by omega) (by omega)]
        | internal nid a m b hS hlt hleaf hcount hid hstart hL hR hs1 hs2 =>
          simp only [hleaf, Bool.false_eq_true, if_false]
          have hnew : ∀ n ∈ childPush (sh.nodes nid) d ++ rest,
              ∃ a b, GoodTree sh.nodes sh.nnodes PB S n a b := by
            intro x hx
            rcases List.mem_append.mp hx with hx | hx
            · rcases childPush_mem hcount hx with rfl | rfl
              · exact ⟨a, m, hL⟩
              · exact ⟨m, b, hR⟩
            · exact hrest x hx
          have hmch : stackMeasure sh.nnodes (childPush (sh.nodes nid) d ++ rest) <
              3 ^ (sh.nnodes - nid) + stackMeasure sh.nnodes rest := by
            rw [stackMeasure_append]
            have := childPush_measure (sh.nodes nid) d hcount (fun _ _ => trivial)
              hid hstart
            omega
          exact ih f'' _ hnew (by omega) (by omega)

theorem sceneTravGo_split (sh : SceneBVH) (d : Vec3) (PB : ℕ → Range3)
    (S : ℕ → Prop) :
    ∀ (f : ℕ) (st1 st2 : List ℕ),
      (∀ n ∈ st1 ++ st2, ∃ a b, GoodTree sh.nodes sh.nnodes PB S n a b) →
      stackMeasure sh.nnodes (st1 ++ st2) < f →
      sceneTravGo sh d f (st1 ++ st2) =
        sceneTravGo sh d f st1 ++ sceneTravGo sh d f st2 := by
  intro f
  induction f with
  | zero =>
    intro st1 st2 _ hm
    omega
  | succ f ih =>
    intro st1 st2 hst hm
    cases st1 with
    | nil =>
      simp only [List.nil_append]
      rw [show sceneTravGo sh d (f + 1) [] = [] from rfl, List.nil_append]
    | cons nid rest =>
      rw [List.cons_append] at hst hm ⊢
      obtain ⟨a, b, GT⟩ := hst nid (List.mem_cons_self _ _)
      rw [stackMeasure_cons] at hm
      have h3 : 0 < 3 ^ (sh.nnodes - nid) := pow_pos (by norm_num) _
      have hrest : ∀ n ∈ rest ++ st2, ∃ a b, GoodTree sh.nodes sh.nnodes PB S n a b :=
        fun x hx => hst x (List.mem_cons_of_mem nid hx)
      have hst2 : ∀ n ∈ st2, ∃ a b, GoodTree sh.nodes sh.nnodes PB S n a b :=
        fun x hx => hrest x (List.mem_append_right rest hx)
      have hm2 : stackMeasure sh.nnodes st2 ≤ stackMeasure sh.nnodes (rest ++ st2) := by
        rw [stackMeasure_append]
        omega
      simp only [sceneTravGo]
      cases GT with
      | leaf nid a b hS hlt hleaf hstart hcount hse hsub =>
        simp only [hleaf, if_true]
        rw [ih rest st2 hrest (by omega), List.append_assoc]
        rw [sceneTravGo_stable sh d PB S f (f + 1) st2 hst2 (by omega) (by omega)]
      | internal nid a m b hS hlt hleaf hcount hid hstart hL hR hs1 hs2 =>
        simp only [hleaf, Bool.false_eq_true, if_false]
        have hnew : ∀ n ∈ (childPush (sh.nodes nid) d ++ rest) ++ st2,
            ∃ a b, GoodTree sh.nodes sh.nnodes PB S n a b := by
          intro x hx
          rcases List.mem_append.mp hx with hx | hx
          · rcases List.mem_append.mp hx with hx | hx
            · rcases childPush_mem hcount hx with rfl | rfl
              · exact ⟨a, m, hL⟩
              · exact ⟨m, b, hR⟩
            · exact hrest x (List.mem_append_left _ hx)
          · exact hst2 x hx
        have hmch : stackMeasure sh.nnodes (childPush (sh.nodes nid) d) <
            3 ^ (sh.nnodes - nid) :=
          childPush_measure (sh.nodes nid) d hcount (fun _ _ => trivial) hid hstart
        rw [stackMeasure_append] at hm
        have hgoal := ih (childPush (sh.nodes nid) d ++ rest) st2 hnew
          (by rw [stackMeasure_append, stackMeasure_append]; omega)
        rw [← List.append_assoc, hgoal,
          show sceneTravGo sh d (f + 1) st2 = sceneTravGo sh d f st2 from
            (sceneTravGo_stable sh d PB S f (f + 1) st2 hst2
              (by rw [stackMeasure_append] at hm2; omega)
              (by rw [stackMeasure_append] at hm2; omega)).symm]

theorem sceneTravGo_mem (sh : SceneBVH) (d : Vec3) (PB : ℕ → Range3)
    (S : ℕ → Prop) (N : ℕ) :
    ∀ (f : ℕ) (st : List ℕ),
      (∀ n ∈ st, ∃ a b, GoodTree sh.nodes sh.nnodes PB S n a b ∧ b ≤ N) →
      stackMeasure sh.nnodes st < f →
      ∀ x ∈ sceneTravGo sh d f st, ∃ n ∈ st, ∃ k, k < N ∧
        x = sh.sorted_prim.getD k 0 ∧ subR (PB k) ((sh.nodes n).bbox) := by
  intro f
  induction f with
  | zero =>
    intro st _ hm
    omega
  | succ f ih =>
    intro st hst hm
    cases st with
    | nil =>
      intro x hx
      exact absurd hx (by simp [sceneTravGo])
    | cons nid rest =>
      obtain ⟨a, b, GT, hbN⟩ := hst nid (List.mem_cons_self _ _)
      rw [stackMeasure_cons] at hm
      have h3 : 0 < 3 ^ (sh.nnodes - nid) := pow_pos (by norm_num) _
      have hrest : ∀ n ∈ rest, ∃ a b,
          GoodTree sh.nodes sh.nnodes PB S n a b ∧ b ≤ N :=
        fun x hx => hst x (List.mem_cons_of_mem nid hx)
      simp only [sceneTravGo]
      cases GT with
      | leaf nid a b hS hlt hleaf hstart hcount hse hsub =>
        simp only [hleaf, if_true]
        intro x hx
        rcases List.mem_append.mp hx with hx | hx
        · unfold leafPrims at hx
          obtain ⟨i, hi, hxe⟩ := List.mem_map.mp hx
          have hi' : i < (sh.nodes nid).count := List.mem_range.mp hi
          refine ⟨nid, List.mem_cons_self _ _, (sh.nodes nid).start + i, ?_, hxe.symm, ?_⟩
          · rw [hcount] at hi'
            rw [hstart]
            omega
          · apply hsub
            · rw [hstart]
              omega
            · rw [hcount] at hi'
              rw [hstart]
              omega
        · obtain ⟨n, hn, k, hk, hxe, hsubk⟩ := ih rest hrest (by omega) x hx
          exact ⟨n, List.mem_cons_of_mem nid hn, k, hk, hxe, hsubk⟩
      | internal nid a m b hS hlt hleaf hcount hid hstart hL hR hs1 hs2 =>
        simp only [hleaf, Bool.false_eq_true, if_false]
        intro x hx
        have hmb : m ≤ b := GoodTree_le hR
        have hnew : ∀ n ∈ childPush (sh.nodes nid) d ++ rest,
            ∃ a b, GoodTree sh.nodes sh.nnodes PB S n a b ∧ b ≤ N := by
          intro y hy
          rcases List.mem_append.mp hy with hy | hy
          · rcases childPush_mem hcount hy with rfl | rfl
            · exact ⟨a, m, hL, by omega⟩
            · exact ⟨m, b, hR, hbN⟩
          · exact hrest y hy
        have hmch : stackMeasure sh.nnodes (childPush (sh.nodes nid) d) <
            3 ^ (sh.nnodes - nid) :=
          childPush_measure (sh.nodes nid) d hcount (fun _ _ => trivial) hid hstart
        obtain ⟨n, hn, k, hk, hxe, hsubk⟩ := ih _ hnew
          (by rw [stackMeasure_append]; omega) x hx
        rcases List.mem_append.mp hn with hn | hn
        · rcases childPush_mem hcount hn with rfl | rfl
          · exact ⟨nid, List.mem_cons_self _ _, k, hk, hxe, subR_trans hsubk hs1⟩
          · exact ⟨nid, List.mem_cons_self _ _, k, hk, hxe, subR_trans hsubk hs2⟩
        · exact ⟨n, List.mem_cons_of_mem nid hn, k, hk, hxe, hsubk⟩

theorem scenePrimStep_fold (scene : SceneBVH) (idx : ℕ) (sh : ShapeBVH)
    (hsh : scene.shapes.getD idx emptyShape = sh)
    (PB : ℕ → Range3) (S : ℕ → Prop) (N : ℕ) (hrad : radOk sh)
    (hprim : ∀ k (r : Ray3) t uv, k < N →
      primIsect sh r (sh.sorted_prim.getD k 0) = some (t, uv) →
      memR (r.eval t) (PB k))
    (hroot : ∃ a b, GoodTree sh.nodes sh.nnodes PB S 0 a b ∧ b ≤ N)
    (s : SceneITState) :
    scenePrimStep scene false s idx =
      .ok (bruteFold scene
        ((shapeTravOrder sh (localRay scene idx s.ray).d).map (fun e => (idx, e))) s) := by
  unfold scenePrimStep
  dsimp only
  rw [hsh]
  rw [show (⟨ym_transform_point (scene.inv_xforms.getD idx ym_identity_affine3f) s.ray.o,
      ym_transform_vector (scene.inv_xforms.getD idx ym_identity_affine3f) s.ray.d,
      s.ray.tmin, s.ray.tmax⟩ : Ray3) = localRay scene idx s.ray from rfl]
  rw [yb__intersect_shape_eq sh PB S N hrad hprim hroot (localRay scene idx s.ray)
    s.ray.tmax s.eid s.euv]
  dsimp only
  have hsim := bruteFold_shape_sim scene idx sh hsh s.ray s.hit s.sid
    (shapeTravOrder sh (localRay scene idx s.ray).d)
    ⟨localRay scene idx s.ray, false, s.eid, s.euv⟩ rfl rfl rfl
  have hinit : (⟨{ s.ray with
        tmax := (⟨localRay scene idx s.ray, false, s.eid, s.euv⟩ : SITState).ray.tmax },
      s.hit || (⟨localRay scene idx s.ray, false, s.eid, s.euv⟩ : SITState).hit,
      if (⟨localRay scene idx s.ray, false, s.eid, s.euv⟩ : SITState).hit then idx
        else s.sid,
      (⟨localRay scene idx s.ray, false, s.eid, s.euv⟩ : SITState).eid,
      (⟨localRay scene idx s.ray, false, s.eid, s.euv⟩ : SITState).euv⟩ : SceneITState)
      = s := by
    dsimp only
    simp only [Bool.or_false, Bool.false_eq_true, if_false]
    rfl
  rw [hinit] at hsim
  rw [hsim]
  cases hFh : (shapeFold sh (shapeTravOrder sh (localRay scene idx s.ray).d)
      ⟨localRay scene idx s.ray, false, s.eid, s.euv⟩).hit with
  | false =>
    have hFid : shapeFold sh (shapeTravOrder sh (localRay scene idx s.ray).d)
        ⟨localRay scene idx s.ray, false, s.eid, s.euv⟩ =
        ⟨localRay scene idx s.ray, false, s.eid, s.euv⟩ := by
      apply shapeFold_id
      intro e he
      rcases hp : primIsect sh (localRay scene idx s.ray) e with _ | ⟨t, uv⟩
      · rfl
      · exfalso
        have hcontra : (shapeFold sh (shapeTravOrder sh (localRay scene idx s.ray).d)
            ⟨localRay scene idx s.ray, false, s.eid, s.euv⟩).hit = true := by
          rw [shapeFold_hit]
          exact Or.inr ⟨e, he, by rw [show (⟨localRay scene idx s.ray, false, s.eid,
            s.euv⟩ : SITState).ray = localRay scene idx s.ray from rfl, hp]; simp⟩
        rw [hFh] at hcontra
        exact absurd hcontra (by simp)
    simp only [hFh, Bool.false_eq_true, if_false, Bool.or_false]
    rw [hFid]
    rfl
  | true =>
    simp only [hFh, if_true]

theorem localRay_d (scene : SceneBVH) (idx : ℕ) (r : Ray3) :
    (localRay scene idx r).d =
      ym_transform_vector (scene.inv_xforms.getD idx ym_identity_affine3f) r.d := rfl

theorem sceneLeafFold (scene : SceneBVH) :
    ∀ (L : List ℕ) (s : SceneITState),
      (∀ (s' : SceneITState) (idx : ℕ), idx ∈ L →
        scenePrimStep scene false s' idx = .ok (bruteFold scene
          ((shapeTravOrder (scene.shapes.getD idx emptyShape)
            (localRay scene idx s'.ray).d).map (fun e => (idx, e))) s')) →
      crashFold (scenePrimStep scene false) L s =
        .ok (bruteFold scene
          (L.flatMap (fun idx => (shapeTravOrder (scene.shapes.getD idx emptyShape)
            (localRay scene idx s.ray).d).map (fun e => (idx, e)))) s) := by
  intro L
  induction L with
  | nil => intro s _; rfl
  | cons idx L' ih =>
    intro s hstep
    simp only [crashFold]
    rw [hstep s idx (List.mem_cons_self _ _)]
    dsimp only
    rw [ih _ (fun s' i hi => hstep s' i (List.mem_cons_of_mem idx hi))]
    rw [List.flatMap_cons,
      show bruteFold scene
          ((shapeTravOrder (scene.shapes.getD idx emptyShape)
            (localRay scene idx s.ray).d).map (fun e => (idx, e)) ++
          L'.flatMap (fun i => (shapeTravOrder (scene.shapes.getD i emptyShape)
            (localRay scene i s.ray).d).map (fun e => (i, e)))) s =
        bruteFold scene
          (L'.flatMap (fun i => (shapeTravOrder (scene.shapes.getD i emptyShape)
            (localRay scene i s.ray).d).map (fun e => (i, e))))
          (bruteFold scene
            ((shapeTravOrder (scene.shapes.getD idx emptyShape)
              (localRay scene idx s.ray).d).map (fun e => (idx, e))) s) from by
        unfold bruteFold
        rw [List.foldl_append]]
    have hd : (bruteFold scene
        ((shapeTravOrder (scene.shapes.getD idx emptyShape)
          (localRay scene idx s.ray).d).map (fun e => (idx, e))) s).ray.d = s.ray.d :=
      (bruteFold_frame scene _ s).2.1
    have hfun : (fun i => (shapeTravOrder (scene.shapes.getD i emptyShape)
        (localRay scene i (bruteFold scene
          ((shapeTravOrder (scene.shapes.getD idx emptyShape)
            (localRay scene idx s.ray).d).map (fun e => (idx, e))) s).ray).d).map
        (fun e => ((i, e) : ℕ × ℕ))) =
        (fun i => (shapeTravOrder (scene.shapes.getD i emptyShape)
          (localRay scene i s.ray).d).map (fun e => ((i, e) : ℕ × ℕ))) := by
      funext i
      rw [localRay_d, localRay_d, localRay_d]
      rw [localRay_d] at hd
      rw [hd]
    rw [hfun]

/-! ### Build packaging: the facts a built BVH carries into traversal -/

theorem perm_getD_lt {l : List ℕ} {N : ℕ} (hp : l.Perm (List.range N)) {k : ℕ}
    (hk : k < N) : l.getD k 0 < N := by
  have hlen : l.length = N := by rw [hp.length_eq, List.length_range]
  have hmem : l.getD k 0 ∈ l := by
    rw [List.getD_eq_getElem?_getD, List.getElem?_eq_getElem (by omega)]
    exact List.getElem_mem _
  exact List.mem_range.mp (hp.subset hmem)

theorem built_shape_pack (sh sh' : ShapeBVH) (hh : heuristicOk sh.heuristic)
    (hn : 1 ≤ sh.nelems) (hb : yb_build_shape_bvh sh = some sh') :
    sh'.elems = sh.elems ∧ sh'.pos = sh.pos ∧ sh'.radius = sh.radius ∧
    sh'.sorted_prim.Perm (List.range sh.nelems) ∧
    GoodTree sh'.nodes sh'.nnodes
      (fun k => primBuildBBox sh' (sh'.sorted_prim.getD k 0)) (fun _ => True)
      0 0 sh.nelems := by
  unfold yb_build_shape_bvh at hb
  dsimp only at hb
  split at hb
  · exact absurd hb (by simp)
  · rename_i nodes nn bps' heq
    cases hb
    refine ⟨rfl, rfl, rfl, ?_, ?_⟩
    · have hp : bps'.Perm (boundPrimsOfShape sh) :=
        yb__make_node_perm _ _ _ _ _ _ _ _ _ _ _ heq
      have hmap : (boundPrimsOfShape sh).map (·.pid) = List.range sh.nelems := by
        rcases helems : sh.elems with elem | elem | elem <;>
          simp [boundPrimsOfShape, helems, List.map_map, Function.comp_def,
            ShapeBVH.nelems, ShapeElems.nelems]
      exact (hp.map (·.pid)).trans (by rw [hmap])
    · have hlen : sh.nelems ≤ (boundPrimsOfShape sh).length := by
        rw [boundPrimsOfShape_length]
      obtain ⟨h1, h2, h3, h4, h5, h6⟩ :=
        yb__make_node_spec _ _ _ _ _ _ _ _ _ _ _ hh (by omega) hlen (by omega) heq
      have hG : GoodTree nodes nn
          (fun k => primBuildBBox sh ((bps'.map (fun b => b.pid)).getD k 0))
          (fun j => j = 0 ∨ (1 ≤ j ∧ j < nn)) 0 0 sh.nelems := by
        refine GoodTree_congr_PB _ h5 ?_
        intro k hk1 hk2
        have hk' : k < bps'.length := by
          rw [h2.1, boundPrimsOfShape_length]; exact hk2
        rw [getD_map_pid bps' k hk']
        have hmem : bps'.getD k default ∈ boundPrimsOfShape sh := by
          have hsl : subList (boundPrimsOfShape sh) 0 (sh.nelems - 0) =
              boundPrimsOfShape sh := by
            rw [Nat.sub_zero, ← boundPrimsOfShape_length sh, subList_all]
          have := h2.2.2 k (by omega) hk2
          rw [hsl] at this
          exact this
        exact primBuildBBox_of_mem sh hmem
      exact GoodTree_mono_S (fun _ _ => trivial) hG

theorem built_scene_pack (scene scene' : SceneBVH) (hh : heuristicOk scene.heuristic)
    (hn : 1 ≤ scene.shapes.length) (hb : yb_build_scene_bvh scene = some scene') :
    yb_build_scene_bvh.buildShapes scene.shapes = some scene'.shapes ∧
    scene'.xforms = scene.xforms ∧ scene'.inv_xforms = scene.inv_xforms ∧
    scene'.sorted_prim.Perm (List.range scene.shapes.length) ∧
    GoodTree scene'.nodes scene'.nnodes
      (fun k => ((boundPrimsOfScene scene'.shapes scene'.xforms).getD
        (scene'.sorted_prim.getD k 0) default).bbox) (fun _ => True)
      0 0 scene.shapes.length := by
  unfold yb_build_scene_bvh at hb
  dsimp only at hb
  split at hb
  · exact absurd hb (by simp)
  · rename_i shapes' heqS
    split at hb
    · exact absurd hb (by simp)
    · rename_i nodes nn bps' heq
      cases hb
      have hshlen : shapes'.length = scene.shapes.length := buildShapes_length _ _ heqS
      refine ⟨heqS, rfl, rfl, ?_, ?_⟩
      · have hp : bps'.Perm (boundPrimsOfScene shapes' scene.xforms) :=
          yb__make_node_perm _ _ _ _ _ _ _ _ _ _ _ heq
        have hmap : (boundPrimsOfScene shapes' scene.xforms).map (·.pid) =
            List.range scene.shapes.length := by
          simp [boundPrimsOfScene, List.map_map, Function.comp_def, hshlen]
        exact (hp.map (·.pid)).trans (by rw [hmap])
      · have hlen : scene.shapes.length ≤
            (boundPrimsOfScene shapes' scene.xforms).length := by
          rw [boundPrimsOfScene_length, hshlen]
        obtain ⟨h1, h2, h3, h4, h5, h6⟩ :=
          yb__make_node_spec _ _ _ _ _ _ _ _ _ _ _ hh (by omega) hlen (by omega) heq
        have hG : GoodTree nodes nn
            (fun k => ((boundPrimsOfScene shapes' scene.xforms).getD
              ((bps'.map (fun b => b.pid)).getD k 0) default).bbox)
            (fun j => j = 0 ∨ (1 ≤ j ∧ j < nn)) 0 0 scene.shapes.length := by
          refine GoodTree_congr_PB _ h5 ?_
          intro k hk1 hk2
          have hk' : k < bps'.length := by
            rw [h2.1, boundPrimsOfScene_length, hshlen]; exact hk2
          rw [getD_map_pid bps' k hk']
          have hmem : bps'.getD k default ∈ boundPrimsOfScene shapes' scene.xforms := by
            have hsl : subList (boundPrimsOfScene shapes' scene.xforms) 0
                (scene.shapes.length - 0) = boundPrimsOfScene shapes' scene.xforms := by
              rw [Nat.sub_zero, ← hshlen,
                ← boundPrimsOfScene_length shapes' scene.xforms, subList_all]
            have := h2.2.2 k (by omega) hk2
            rw [hsl] at this
            exact this
          rw [boundPrimsOfScene_getD_pid shapes' scene.xforms hmem]
        exact GoodTree_mono_S (fun _ _ => trivial) hG

theorem buildShapes_nth :
    ∀ (l l' : List ShapeBVH), yb_build_scene_bvh.buildShapes l = some l' →
      ∀ i, i < l.length →
        yb_build_shape_bvh (l.getD i emptyShape) = some (l'.getD i emptyShape) := by
  intro l
  induction l with
  | nil =>
    intro l' _ i hi
    exact absurd hi (by simp)
  | cons sh rest ih =>
    intro l' h i hi
    rw [yb_build_scene_bvh.buildShapes] at h
    split at h
    · exact absurd h (by simp)
    · rename_i sh' heq
      split at h
      · exact absurd h (by simp)
      · rename_i rest' heq'
        cases h
        cases i with
        | zero => exact heq
        | succ i =>
          exact ih rest' heq' i (by simpa using hi)

/-! ### Scene loop = reference fold -/

theorem travPairsD_eq (scene : SceneBVH) (r : Ray3) (L : List ℕ) :
    L.flatMap (fun idx =>
      (shapeTravOrder (scene.shapes.getD idx emptyShape)
        (localRay scene idx r).d).map (fun e => (idx, e))) =
      travPairsD scene r.d L := by
  unfold travPairsD
  simp only [localRay_d]

theorem travPairsD_append (scene : SceneBVH) (d : Vec3) (A B : List ℕ) :
    travPairsD scene d (A ++ B) = travPairsD scene d A ++ travPairsD scene d B := by
  unfold travPairsD
  rw [List.flatMap_append]

theorem travPairsD_mem {scene : SceneBVH} {d : Vec3} {L : List ℕ} {p : ℕ × ℕ}
    (hp : p ∈ travPairsD scene d L) :
    ∃ idx ∈ L, ∃ e ∈ shapeTravOrder (scene.shapes.getD idx emptyShape)
      (ym_transform_vector (scene.inv_xforms.getD idx ym_identity_affine3f) d),
      p = (idx, e) := by
  unfold travPairsD at hp
  obtain ⟨idx, hidx, hpe⟩ := List.mem_flatMap.mp hp
  obtain ⟨e, he, hpe'⟩ := List.mem_map.mp hpe
  exact ⟨idx, hidx, e, he, hpe'.symm⟩

theorem sceneTravPairs_eq (scene : SceneBVH) (ray : Ray3) :
    sceneTravPairs scene ray =
      travPairsD scene ray.d (sceneTravGo scene ray.d (sceneFuel scene) [0]) := by
  unfold sceneTravPairs
  exact travPairsD_eq scene ray _

theorem sceneILoop_eq_fold (scene : SceneBVH) (PB : ℕ → Range3) (S : ℕ → Prop) (N : ℕ)
    (hstep : ∀ (s' : SceneITState) (idx : ℕ),
      (∃ k, k < N ∧ scene.sorted_prim.getD k 0 = idx) →
      scenePrimStep scene false s' idx = .ok (bruteFold scene
        ((shapeTravOrder (scene.shapes.getD idx emptyShape)
          (localRay scene idx s'.ray).d).map (fun e => (idx, e))) s'))
    (hprim : ∀ k (r : Ray3) (e : ℕ) t uv, k < N →
      e ∈ shapeTravOrder (scene.shapes.getD (scene.sorted_prim.getD k 0) emptyShape)
        (localRay scene (scene.sorted_prim.getD k 0) r).d →
      scenePrimIsect scene r (scene.sorted_prim.getD k 0) e = some (t, uv) →
      memR (r.eval t) (PB k)) :
    ∀ (f : ℕ) (st : List ℕ) (s : SceneITState),
      (∀ n ∈ st, ∃ a b, GoodTree scene.nodes scene.nnodes PB S n a b ∧ b ≤ N) →
      stackMeasure scene.nnodes st < f →
      sceneILoop scene false f st s = .ok (bruteFold scene
        (travPairsD scene s.ray.d (sceneTravGo scene s.ray.d f st)) s) := by
  intro f
  induction f with
  | zero =>
    intro st s _ hm
    omega
  | succ f ih =>
    intro st s hst hm
    cases st with
    | nil => rfl
    | cons nid rest =>
      obtain ⟨a, b, GT, hbN⟩ := hst nid (List.mem_cons_self _ _)
      rw [stackMeasure_cons] at hm
      have h3 : 0 < 3 ^ (scene.nnodes - nid) := pow_pos (by norm_num) _
      have hrest : ∀ n ∈ rest, ∃ a b,
          GoodTree scene.nodes scene.nnodes PB S n a b ∧ b ≤ N :=
        fun x hx => hst x (List.mem_cons_of_mem nid hx)
      have hstW : ∀ n ∈ nid :: rest, ∃ a b,
          GoodTree scene.nodes scene.nnodes PB S n a b := by
        intro x hx
        obtain ⟨a', b', h', _⟩ := hst x hx
        exact ⟨a', b', h'⟩
      have hrestW : ∀ n ∈ rest, ∃ a b, GoodTree scene.nodes scene.nnodes PB S n a b :=
        fun x hx => hstW x (List.mem_cons_of_mem nid hx)
      have htrav_cons : sceneTravGo scene s.ray.d (f + 1) (nid :: rest) =
          if (scene.nodes nid).isleaf then
            leafPrims scene.sorted_prim (scene.nodes nid) ++
              sceneTravGo scene s.ray.d f rest
          else sceneTravGo scene s.ray.d f
            (childPush (scene.nodes nid) s.ray.d ++ rest) := rfl
      simp only [sceneILoop, Bool.false_and, Bool.false_eq_true, if_false]
      cases hbb : yb__intersect_check_bbox s.ray (scene.nodes nid).bbox with
      | false =>
        simp only [hbb, Bool.not_false, if_true]
        have hsplit := sceneTravGo_split scene s.ray.d PB S (f + 1) [nid] rest
          (by rw [List.singleton_append]; exact hstW)
          (by rw [List.singleton_append, stackMeasure_cons]; omega)
        rw [List.singleton_append] at hsplit
        rw [hsplit, travPairsD_append,
          show bruteFold scene
              (travPairsD scene s.ray.d (sceneTravGo scene s.ray.d (f + 1) [nid]) ++
                travPairsD scene s.ray.d (sceneTravGo scene s.ray.d (f + 1) rest)) s =
            bruteFold scene
              (travPairsD scene s.ray.d (sceneTravGo scene s.ray.d (f + 1) rest))
              (bruteFold scene
                (travPairsD scene s.ray.d (sceneTravGo scene s.ray.d (f + 1) [nid])) s)
            from by
            unfold bruteFold
            rw [List.foldl_append]]
        have hid1 : bruteFold scene
            (travPairsD scene s.ray.d (sceneTravGo scene s.ray.d (f + 1) [nid])) s = s := by
          apply bruteFold_id
          intro p hp
          obtain ⟨idx, hidx, e, he, rfl⟩ := travPairsD_mem hp
          show scenePrimIsect scene s.ray idx e = none
          rcases hq : scenePrimIsect scene s.ray idx e with _ | ⟨t, uv⟩
          · rfl
          · exfalso
            obtain ⟨n, hn, k, hk, hxe, hsubk⟩ :=
              sceneTravGo_mem scene s.ray.d PB S N (f + 1) [nid]
                (by intro x hx
                    rw [List.mem_singleton] at hx
                    subst hx
                    exact ⟨a, b, GT, hbN⟩)
                (by rw [show ([nid] : List ℕ) = nid :: [] from rfl, stackMeasure_cons]
                    unfold stackMeasure
                    simp only [List.map_nil, List.sum_nil]
                    omega) idx hidx
            rw [List.mem_singleton] at hn
            subst hn
            subst hxe
            rw [← localRay_d] at he
            have hmem := hprim k s.ray e t uv hk he hq
            have hin := memR_mono hmem hsubk
            obtain ⟨ht1, ht2⟩ := scenePrimIsect_range hq
            have hcb := check_bbox_conserv s.ray (scene.nodes n).bbox t ht1 ht2 hin
            rw [hbb] at hcb
            exact absurd hcb (by simp)
        rw [hid1,
          show sceneTravGo scene s.ray.d (f + 1) rest = sceneTravGo scene s.ray.d f rest
            from sceneTravGo_stable scene s.ray.d PB S (f + 1) f rest hrestW
              (by omega) (by omega)]
        exact ih rest s hrest (by omega)
      | true =>
        simp only [hbb, Bool.not_true, Bool.false_eq_true, if_false]
        cases GT with
        | leaf nid a b hS hlt hleaf hstart hcount hse hsub =>
          simp only [hleaf, if_true]
          have hkex : ∀ idx ∈ leafPrims scene.sorted_prim (scene.nodes nid),
              ∃ k, k < N ∧ scene.sorted_prim.getD k 0 = idx := by
            intro idx hidx
            unfold leafPrims at hidx
            obtain ⟨i, hi, hxe⟩ := List.mem_map.mp hidx
            have hi' : i < (scene.nodes nid).count := List.mem_range.mp hi
            refine ⟨(scene.nodes nid).start + i, ?_, hxe⟩
            rw [hcount] at hi'
            rw [hstart]
            omega
          have hlf := sceneLeafFold scene (leafPrims scene.sorted_prim (scene.nodes nid)) s
            (fun s' idx hidx => hstep s' idx (hkex idx hidx))
          rw [travPairsD_eq] at hlf
          rw [hlf]
          dsimp only
          rw [htrav_cons]
          simp only [hleaf, if_true]
          rw [travPairsD_append,
            show bruteFold scene
                (travPairsD scene s.ray.d (leafPrims scene.sorted_prim (scene.nodes nid)) ++
                  travPairsD scene s.ray.d (sceneTravGo scene s.ray.d f rest)) s =
              bruteFold scene
                (travPairsD scene s.ray.d (sceneTravGo scene s.ray.d f rest))
                (bruteFold scene (travPairsD scene s.ray.d
                  (leafPrims scene.sorted_prim (scene.nodes nid))) s)
              from by
              unfold bruteFold
              rw [List.foldl_append]]
          have hd2 : (bruteFold scene (travPairsD scene s.ray.d
              (leafPrims scene.sorted_prim (scene.nodes nid))) s).ray.d = s.ray.d :=
            (bruteFold_frame scene _ s).2.1
          have hrec := ih rest (bruteFold scene (travPairsD scene s.ray.d
            (leafPrims scene.sorted_prim (scene.nodes nid))) s) hrest (by omega)
          rw [hd2] at hrec
          exact hrec
        | internal nid a m b hS hlt hleaf hcount hid hstart hL hR hs1 hs2 =>
          simp only [hleaf, Bool.false_eq_true, if_false]
          rw [htrav_cons]
          simp only [hleaf, Bool.false_eq_true, if_false]
          have hmb : m ≤ b := GoodTree_le hR
          have hnew : ∀ n ∈ childPush (scene.nodes nid) s.ray.d ++ rest,
              ∃ a b, GoodTree scene.nodes scene.nnodes PB S n a b ∧ b ≤ N := by
            intro x hx
            rcases List.mem_append.mp hx with hx | hx
            · rcases childPush_mem hcount hx with rfl | rfl
              · exact ⟨a, m, hL, by omega⟩
              · exact ⟨m, b, hR, hbN⟩
            · exact hrest x hx
          have hmch : stackMeasure scene.nnodes (childPush (scene.nodes nid) s.ray.d) <
              3 ^ (scene.nnodes - nid) :=
            childPush_measure (scene.nodes nid) s.ray.d hcount (fun _ _ => trivial)
              hid hstart
          exact ih _ s hnew (by rw [stackMeasure_append]; omega)

theorem yb_intersect_scene_eq (scene : SceneBVH) (PB : ℕ → Range3) (S : ℕ → Prop)
    (N : ℕ)
    (hstep : ∀ (s' : SceneITState) (idx : ℕ),
      (∃ k, k < N ∧ scene.sorted_prim.getD k 0 = idx) →
      scenePrimStep scene false s' idx = .ok (bruteFold scene
        ((shapeTravOrder (scene.shapes.getD idx emptyShape)
          (localRay scene idx s'.ray).d).map (fun e => (idx, e))) s'))
    (hprim : ∀ k (r : Ray3) (e : ℕ) t uv, k < N →
      e ∈ shapeTravOrder (scene.shapes.getD (scene.sorted_prim.getD k 0) emptyShape)
        (localRay scene (scene.sorted_prim.getD k 0) r).d →
      scenePrimIsect scene r (scene.sorted_prim.getD k 0) e = some (t, uv) →
      memR (r.eval t) (PB k))
    (hroot : ∃ a b, GoodTree scene.nodes scene.nnodes PB S 0 a b ∧ b ≤ N)
    (ray : Ray3) (cells : Isect) :
    yb_intersect_scene_bvh scene ray cells = .ok
      ((bruteFold scene (sceneTravPairs scene ray)
          ⟨ray, false, cells.sid, cells.eid, cells.euv⟩).hit,
        ⟨if (bruteFold scene (sceneTravPairs scene ray)
              ⟨ray, false, cells.sid, cells.eid, cells.euv⟩).hit
            then (bruteFold scene (sceneTravPairs scene ray)
              ⟨ray, false, cells.sid, cells.eid, cells.euv⟩).ray.tmax
            else cells.ray_t,
          (bruteFold scene (sceneTravPairs scene ray)
            ⟨ray, false, cells.sid, cells.eid, cells.euv⟩).sid,
          (bruteFold scene (sceneTravPairs scene ray)
            ⟨ray, false, cells.sid, cells.eid, cells.euv⟩).eid,
          (bruteFold scene (sceneTravPairs scene ray)
            ⟨ray, false, cells.sid, cells.eid, cells.euv⟩).euv⟩) := by
  unfold yb_intersect_scene_bvh
  rw [sceneILoop_eq_fold scene PB S N hstep hprim (sceneFuel scene) [0]
    ⟨ray, false, cells.sid, cells.eid, cells.euv⟩
    (by intro x hx
        rw [List.mem_singleton] at hx
        subst hx
        exact hroot)
    (by unfold sceneFuel
        rw [show ([0] : List ℕ) = 0 :: [] from rfl, stackMeasure_cons]
        unfold stackMeasure
        simp only [List.map_nil, List.sum_nil, Nat.sub_zero]
        have : (3:ℕ) ^ scene.nnodes < 3 ^ (scene.nnodes + 1) :=
          Nat.pow_lt_pow_right (by norm_num) (by omega)
        omega)]
  rw [sceneTravPairs_eq]

/-! ### Scene any-hit loop -/

theorem sceneILoop_early_exit (scene : SceneBVH) :
    ∀ (f : ℕ) (st : List ℕ) (s : SceneITState), s.hit = true → 1 ≤ f →
      sceneILoop scene true f st s = .ok s := by
  intro f st s hs hf
  cases f with
  | zero => omega
  | succ f =>
    cases st with
    | nil => rfl
    | cons nid rest =>
      simp only [sceneILoop, hs, Bool.true_and, if_true]

theorem yb__intersect_shape_early (sh : ShapeBVH) (PB : ℕ → Range3) (S : ℕ → Prop)
    (N : ℕ) (hrad : radOk sh)
    (hprim : ∀ k (r : Ray3) t uv, k < N →
      primIsect sh r (sh.sorted_prim.getD k 0) = some (t, uv) →
      memR (r.eval t) (PB k))
    (hroot : ∃ a b, GoodTree sh.nodes sh.nnodes PB S 0 a b ∧ b ≤ N)
    (tray : Ray3) (rayt0 : ℚ) (eid0 : ℕ) (euv0 : Vec2) :
    ∃ hb : Bool × ℚ × ℕ × Vec2,
      yb__intersect_shape sh true tray rayt0 eid0 euv0 = .ok hb ∧
      (hb.1 = true ↔ ∃ e ∈ shapeTravOrder sh tray.d, primIsect sh tray e ≠ none) ∧
      (hb.1 = false → hb = (false, rayt0, eid0, euv0)) := by
  unfold yb__intersect_shape
  obtain ⟨s', hs', hiff, hcase⟩ := shapeILoop_early sh PB S N hrad hprim
    (shapeFuel sh) [0] ⟨tray, false, eid0, euv0⟩
    (by intro x hx
        rw [List.mem_singleton] at hx
        subst hx
        exact hroot)
    (by unfold shapeFuel
        rw [show ([0] : List ℕ) = 0 :: [] from rfl, stackMeasure_cons]
        unfold stackMeasure
        simp only [List.map_nil, List.sum_nil, Nat.sub_zero]
        have : (3:ℕ) ^ sh.nnodes < 3 ^ (sh.nnodes + 1) :=
          Nat.pow_lt_pow_right (by norm_num) (by omega)
        omega)
  rw [hs']
  refine ⟨_, rfl, ?_, ?_⟩
  · show s'.hit = true ↔ _
    rw [hiff]
    show (false = true ∨ ∃ e ∈ shapeTravGo sh tray.d (shapeFuel sh) [0],
      primIsect sh tray e ≠ none) ↔ _
    simp only [Bool.false_eq_true, false_or]
    exact Iff.rfl
  · intro hfalse
    dsimp only at hfalse
    rcases hcase with rfl | hhit
    · simp only [Bool.false_eq_true, if_false]
    · rw [hhit] at hfalse
      exact absurd hfalse (by simp)

theorem scenePrimStep_early (scene : SceneBVH) (idx : ℕ) (sh : ShapeBVH)
    (hsh : scene.shapes.getD idx emptyShape = sh)
    (PB : ℕ → Range3) (S : ℕ → Prop) (N : ℕ) (hrad : radOk sh)
    (hprim : ∀ k (r : Ray3) t uv, k < N →
      primIsect sh r (sh.sorted_prim.getD k 0) = some (t, uv) →
      memR (r.eval t) (PB k))
    (hroot : ∃ a b, GoodTree sh.nodes sh.nnodes PB S 0 a b ∧ b ≤ N)
    (s : SceneITState) :
    ∃ s', scenePrimStep scene true s idx = .ok s' ∧
      (s'.hit = true ↔ s.hit = true ∨
        ∃ e ∈ shapeTravOrder (scene.shapes.getD idx emptyShape)
          (localRay scene idx s.ray).d,
          scenePrimIsect scene s.ray idx e ≠ none) ∧
      (s' = s ∨ s'.hit = true) := by
  have hconv : ∀ e, scenePrimIsect scene s.ray idx e =
      primIsect sh (localRay scene idx s.ray) e := by
    intro e
    unfold scenePrimIsect
    rw [hsh]
  unfold scenePrimStep
  dsimp only
  rw [hsh]
  rw [show (⟨ym_transform_point (scene.inv_xforms.getD idx ym_identity_affine3f) s.ray.o,
      ym_transform_vector (scene.inv_xforms.getD idx ym_identity_affine3f) s.ray.d,
      s.ray.tmin, s.ray.tmax⟩ : Ray3) = localRay scene idx s.ray from rfl]
  obtain ⟨hb, hhb, hiff, hmiss⟩ := yb__intersect_shape_early sh PB S N hrad hprim hroot
    (localRay scene idx s.ray) s.ray.tmax s.eid s.euv
  obtain ⟨b1, t1, e1, u1⟩ := hb
  rw [hhb]
  dsimp only
  dsimp only at hiff hmiss
  cases b1 with
  | false =>
    have hmiss' := hmiss rfl
    simp only [Prod.mk.injEq, true_and] at hmiss'
    obtain ⟨ht1, he1, hu1⟩ := hmiss'
    subst ht1
    subst he1
    subst hu1
    refine ⟨_, rfl, ?_, Or.inl ?_⟩
    · simp only [Bool.or_false, Bool.false_eq_true, if_false]
      constructor
      · intro h
        exact Or.inl h
      · rintro (h | ⟨e, he, hne⟩)
        · exact h
        · exfalso
          refine absurd (hiff.mpr ⟨e, he, ?_⟩) (by simp)
          rw [← hconv e]
          exact hne
    · simp only [Bool.or_false, Bool.false_eq_true, if_false]
  | true =>
    refine ⟨_, rfl, ?_, Or.inr (by simp [Bool.or_true])⟩
    simp only [Bool.or_true, true_iff]
    refine Or.inr ?_
    obtain ⟨e, he, hne⟩ := hiff.mp rfl
    refine ⟨e, he, ?_⟩
    rw [hconv e]
    exact hne

theorem travPairsD_cons (scene : SceneBVH) (d : Vec3) (idx : ℕ) (L : List ℕ) :
    travPairsD scene d (idx :: L) =
      (shapeTravOrder (scene.shapes.getD idx emptyShape)
        (ym_transform_vector (scene.inv_xforms.getD idx ym_identity_affine3f) d)).map
        (fun e => (idx, e)) ++ travPairsD scene d L := by
  unfold travPairsD
  rw [List.flatMap_cons]

theorem sceneLeafEarlyHit (scene : SceneBVH) :
    ∀ (L : List ℕ) (s : SceneITState),
      (∀ (s' : SceneITState) (idx : ℕ), idx ∈ L →
        ∃ s'', scenePrimStep scene true s' idx = .ok s'' ∧
          (s''.hit = true ↔ s'.hit = true ∨
            ∃ e ∈ shapeTravOrder (scene.shapes.getD idx emptyShape)
              (localRay scene idx s'.ray).d,
              scenePrimIsect scene s'.ray idx e ≠ none) ∧
          (s'' = s' ∨ s''.hit = true)) →
      s.hit = true →
      ∃ s', crashFold (scenePrimStep scene true) L s = .ok s' ∧ s'.hit = true := by
  intro L
  induction L with
  | nil =>
    intro s _ hs
    exact ⟨s, rfl, hs⟩
  | cons idx L' ih =>
    intro s hstep hs
    obtain ⟨s₁, h1, hiff1, _⟩ := hstep s idx (List.mem_cons_self _ _)
    simp only [crashFold]
    rw [h1]
    exact ih s₁ (fun s'' i hi => hstep s'' i (List.mem_cons_of_mem idx hi))
      (hiff1.mpr (Or.inl hs))

theorem sceneLeafEarly (scene : SceneBVH) :
    ∀ (L : List ℕ) (s : SceneITState),
      (∀ (s' : SceneITState) (idx : ℕ), idx ∈ L →
        ∃ s'', scenePrimStep scene true s' idx = .ok s'' ∧
          (s''.hit = true ↔ s'.hit = true ∨
            ∃ e ∈ shapeTravOrder (scene.shapes.getD idx emptyShape)
              (localRay scene idx s'.ray).d,
              scenePrimIsect scene s'.ray idx e ≠ none) ∧
          (s'' = s' ∨ s''.hit = true)) →
      ∃ s', crashFold (scenePrimStep scene true) L s = .ok s' ∧
        (s'.hit = true ↔ s.hit = true ∨
          ∃ p ∈ travPairsD scene s.ray.d L,
            scenePrimIsect scene s.ray p.1 p.2 ≠ none) ∧
        (s' = s ∨ s'.hit = true) := by
  intro L
  induction L with
  | nil =>
    intro s _
    refine ⟨s, rfl, ?_, Or.inl rfl⟩
    simp [travPairsD]
  | cons idx L' ih =>
    intro s hstep
    obtain ⟨s₁, h1, hiff1, hcase1⟩ := hstep s idx (List.mem_cons_self _ _)
    rw [localRay_d] at hiff1
    simp only [crashFold]
    rw [h1]
    rcases hcase1 with rfl | hhit1
    · obtain ⟨s', h', hiff', hcase'⟩ :=
        ih s₁ (fun s'' i hi => hstep s'' i (List.mem_cons_of_mem idx hi))
      refine ⟨s', h', ?_, hcase'⟩
      rw [hiff', travPairsD_cons]
      constructor
      · rintro (h | ⟨p, hp, hne⟩)
        · exact Or.inl h
        · exact Or.inr ⟨p, List.mem_append_right _ hp, hne⟩
      · rintro (h | ⟨p, hp, hne⟩)
        · exact Or.inl h
        · rcases List.mem_append.mp hp with hp | hp
          · obtain ⟨e, he, hpe⟩ := List.mem_map.mp hp
            subst hpe
            exact Or.inl (hiff1.mpr (Or.inr ⟨e, he, hne⟩))
          · exact Or.inr ⟨p, hp, hne⟩
    · obtain ⟨s', h', hhit'⟩ := sceneLeafEarlyHit scene L' s₁
        (fun s'' i hi => hstep s'' i (List.mem_cons_of_mem idx hi)) hhit1
      refine ⟨s', h', ?_, Or.inr hhit'⟩
      simp only [hhit', true_iff]
      rcases hiff1.mp hhit1 with h | ⟨e, he, hne⟩
      · exact Or.inl h
      · refine Or.inr ⟨(idx, e), ?_, hne⟩
        rw [travPairsD_cons]
        exact List.mem_append_left _ (List.mem_map.mpr ⟨e, he, rfl⟩)

theorem sceneILoop_early (scene : SceneBVH) (PB : ℕ → Range3) (S : ℕ → Prop) (N : ℕ)
    (hpk : ∀ (s' : SceneITState) (idx : ℕ),
      (∃ k, k < N ∧ scene.sorted_prim.getD k 0 = idx) →
      ∃ s'', scenePrimStep scene true s' idx = .ok s'' ∧
        (s''.hit = true ↔ s'.hit = true ∨
          ∃ e ∈ shapeTravOrder (scene.shapes.getD idx emptyShape)
            (localRay scene idx s'.ray).d,
            scenePrimIsect scene s'.ray idx e ≠ none) ∧
        (s'' = s' ∨ s''.hit = true))
    (hprim : ∀ k (r : Ray3) (e : ℕ) t uv, k < N →
      e ∈ shapeTravOrder (scene.shapes.getD (scene.sorted_prim.getD k 0) emptyShape)
        (localRay scene (scene.sorted_prim.getD k 0) r).d →
      scenePrimIsect scene r (scene.sorted_prim.getD k 0) e = some (t, uv) →
      memR (r.eval t) (PB k)) :
    ∀ (f : ℕ) (st : List ℕ) (s : SceneITState),
      (∀ n ∈ st, ∃ a b, GoodTree scene.nodes scene.nnodes PB S n a b ∧ b ≤ N) →
      stackMeasure scene.nnodes st < f →
      ∃ s', sceneILoop scene true f st s = .ok s' ∧
        (s'.hit = true ↔ s.hit = true ∨
          ∃ p ∈ travPairsD scene s.ray.d (sceneTravGo scene s.ray.d f st),
            scenePrimIsect scene s.ray p.1 p.2 ≠ none) ∧
        (s' = s ∨ s'.hit = true) := by
  intro f
  induction f with
  | zero =>
    intro st s _ hm
    omega
  | succ f ih =>
    intro st s hst hm
    cases st with
    | nil =>
      refine ⟨s, rfl, ?_, Or.inl rfl⟩
      simp [sceneTravGo, travPairsD]
    | cons nid rest =>
      obtain ⟨a, b, GT, hbN⟩ := hst nid (List.mem_cons_self _ _)
      rw [stackMeasure_cons] at hm
      have h3 : 0 < 3 ^ (scene.nnodes - nid) := pow_pos (by norm_num) _
      have hrest : ∀ n ∈ rest, ∃ a b,
          GoodTree scene.nodes scene.nnodes PB S n a b ∧ b ≤ N :=
        fun x hx => hst x (List.mem_cons_of_mem nid hx)
      have hstW : ∀ n ∈ nid :: rest, ∃ a b,
          GoodTree scene.nodes scene.nnodes PB S n a b := by
        intro x hx
        obtain ⟨a', b', h', _⟩ := hst x hx
        exact ⟨a', b', h'⟩
      have hrestW : ∀ n ∈ rest, ∃ a b, GoodTree scene.nodes scene.nnodes PB S n a b :=
        fun x hx => hstW x (List.mem_cons_of_mem nid hx)
      have htrav_cons : sceneTravGo scene s.ray.d (f + 1) (nid :: rest) =
          if (scene.nodes nid).isleaf then
            leafPrims scene.sorted_prim (scene.nodes nid) ++
              sceneTravGo scene s.ray.d f rest
          else sceneTravGo scene s.ray.d f
            (childPush (scene.nodes nid) s.ray.d ++ rest) := rfl
      cases hsh : s.hit with
      | true =>
        refine ⟨s, sceneILoop_early_exit scene (f + 1) (nid :: rest) s hsh (by omega), ?_,
          Or.inl rfl⟩
        simp [hsh]
      | false =>
        have hprune : yb__intersect_check_bbox s.ray (scene.nodes nid).bbox = false →
            ∀ p ∈ travPairsD scene s.ray.d (sceneTravGo scene s.ray.d (f + 1) [nid]),
              scenePrimIsect scene s.ray p.1 p.2 = none := by
          intro hbb p hp
          obtain ⟨idx, hidx, e, he, rfl⟩ := travPairsD_mem hp
          show scenePrimIsect scene s.ray idx e = none
          rcases hq : scenePrimIsect scene s.ray idx e with _ | ⟨t, uv⟩
          · rfl
          · exfalso
            obtain ⟨n, hn, k, hk, hxe, hsubk⟩ :=
              sceneTravGo_mem scene s.ray.d PB S N (f + 1) [nid]
                (by intro x hx
                    rw [List.mem_singleton] at hx
                    subst hx
                    exact ⟨a, b, GT, hbN⟩)
                (by rw [show ([nid] : List ℕ) = nid :: [] from rfl, stackMeasure_cons]
                    unfold stackMeasure
                    simp only [List.map_nil, List.sum_nil]
                    omega) idx hidx
            rw [List.mem_singleton] at hn
            subst hn
            subst hxe
            rw [← localRay_d] at he
            have hmem := hprim k s.ray e t uv hk he hq
            have hin := memR_mono hmem hsubk
            obtain ⟨ht1, ht2⟩ := scenePrimIsect_range hq
            have hcb := check_bbox_conserv s.ray (scene.nodes n).bbox t ht1 ht2 hin
            rw [hbb] at hcb
            exact absurd hcb (by simp)
        simp only [sceneILoop, hsh, Bool.and_false, Bool.false_eq_true, if_false]
        cases hbb : yb__intersect_check_bbox s.ray (scene.nodes nid).bbox with
        | false =>
          simp only [hbb, Bool.not_false, if_true]
          obtain ⟨s', hs', hiff, hcase⟩ := ih rest s hrest (by omega)
          refine ⟨s', hs', ?_, hcase⟩
          rw [hiff, hsh]
          simp only [Bool.false_eq_true, false_or]
          have hsplit := sceneTravGo_split scene s.ray.d PB S (f + 1) [nid] rest
            (by rw [List.singleton_append]; exact hstW)
            (by rw [List.singleton_append, stackMeasure_cons]; omega)
          rw [List.singleton_append] at hsplit
          rw [hsplit, travPairsD_append,
            show sceneTravGo scene s.ray.d (f + 1) rest = sceneTravGo scene s.ray.d f rest
              from sceneTravGo_stable scene s.ray.d PB S (f + 1) f rest hrestW
                (by omega) (by omega)]
          constructor
          · rintro ⟨p, hp, hne⟩
            exact ⟨p, List.mem_append_right _ hp, hne⟩
          · rintro ⟨p, hp, hne⟩
            rcases List.mem_append.mp hp with hp | hp
            · exact absurd (hprune hbb p hp) hne
            · exact ⟨p, hp, hne⟩
        | true =>
          simp only [hbb, Bool.not_true, Bool.false_eq_true, if_false]
          cases GT with
          | leaf nid a b hS hlt hleaf hstart hcount hse hsub =>
            simp only [hleaf, if_true]
            have hkex : ∀ idx ∈ leafPrims scene.sorted_prim (scene.nodes nid),
                ∃ k, k < N ∧ scene.sorted_prim.getD k 0 = idx := by
              intro idx hidx
              unfold leafPrims at hidx
              obtain ⟨i, hi, hxe⟩ := List.mem_map.mp hidx
              have hi' : i < (scene.nodes nid).count := List.mem_range.mp hi
              refine ⟨(scene.nodes nid).start + i, ?_, hxe⟩
              rw [hcount] at hi'
              rw [hstart]
              omega
            obtain ⟨s₁, hcf, hiff1, hcase1⟩ := sceneLeafEarly scene
              (leafPrims scene.sorted_prim (scene.nodes nid)) s
              (fun s' idx hidx => hpk s' idx (hkex idx hidx))
            rw [hcf]
            dsimp only
            rcases hcase1 with rfl | hhit1
            · obtain ⟨s', hs', hiff, hcase⟩ := ih rest s₁ hrest (by omega)
              refine ⟨s', hs', ?_, hcase⟩
              rw [hiff, hsh]
              simp only [Bool.false_eq_true, false_or]
              rw [htrav_cons]
              simp only [hleaf, if_true]
              rw [travPairsD_append]
              constructor
              · rintro ⟨p, hp, hne⟩
                exact ⟨p, List.mem_append_right _ hp, hne⟩
              · rintro ⟨p, hp, hne⟩
                rcases List.mem_append.mp hp with hp | hp
                · exact absurd (hiff1.mpr (Or.inr ⟨p, hp, hne⟩)) (by simp [hsh])
                · exact ⟨p, hp, hne⟩
            · refine ⟨s₁, sceneILoop_early_exit scene f rest s₁ hhit1 (by omega), ?_,
                Or.inr hhit1⟩
              simp only [hhit1, true_iff]
              rcases hiff1.mp hhit1 with h | ⟨p, hp, hne⟩
              · rw [hsh] at h
                exact absurd h (by simp)
              · refine Or.inr ⟨p, ?_, hne⟩
                rw [htrav_cons]
                simp only [hleaf, if_true]
                rw [travPairsD_append]
                exact List.mem_append_left _ hp
          | internal nid a m b hS hlt hleaf hcount hid hstart hL hR hs1 hs2 =>
            simp only [hleaf, Bool.false_eq_true, if_false]
            have hmb : m ≤ b := GoodTree_le hR
            have hnew : ∀ n ∈ childPush (scene.nodes nid) s.ray.d ++ rest,
                ∃ a b, GoodTree scene.nodes scene.nnodes PB S n a b ∧ b ≤ N := by
              intro x hx
              rcases List.mem_append.mp hx with hx | hx
              · rcases childPush_mem hcount hx with rfl | rfl
                · exact ⟨a, m, hL, by omega⟩
                · exact ⟨m, b, hR, hbN⟩
              · exact hrest x hx
            have hmch : stackMeasure scene.nnodes (childPush (scene.nodes nid) s.ray.d) <
                3 ^ (scene.nnodes - nid) :=
              childPush_measure (scene.nodes nid) s.ray.d hcount (fun _ _ => trivial)
                hid hstart
            obtain ⟨s', hs', hiff, hcase⟩ := ih _ s hnew (by rw [stackMeasure_append]; omega)
            refine ⟨s', hs', ?_, hcase⟩
            rw [hiff, hsh, htrav_cons]
            simp only [Bool.false_eq_true, false_or, hleaf, if_false]

/-! ### Traversal order is a permutation of the slot range -/

theorem shapeTravGo_nil (sh : ShapeBVH) (d : Vec3) :
    ∀ f, shapeTravGo sh d f [] = [] := by
  intro f
  cases f <;> rfl

theorem sceneTravGo_nil (scene : SceneBVH) (d : Vec3) :
    ∀ f, sceneTravGo scene d f [] = [] := by
  intro f
  cases f <;> rfl

theorem range_getD_eq (l : List ℕ) :
    (List.range l.length).map (fun k => l.getD k 0) = l := by
  apply List.ext_getElem
  · simp
  · intro i h1 h2
    simp only [List.getElem_map, List.getElem_range]
    rw [List.getD_eq_getElem?_getD, List.getElem?_eq_getElem h2]
    rfl

theorem shapeTravGo_perm (sh : ShapeBVH) (d : Vec3) (PB : ℕ → Range3) (S : ℕ → Prop) :
    ∀ (f nid a b : ℕ), GoodTree sh.nodes sh.nnodes PB S nid a b →
      3 ^ (sh.nnodes - nid) < f →
      (shapeTravGo sh d f [nid]).Perm
        ((List.range (b - a)).map (fun i => sh.sorted_prim.getD (a + i) 0)) := by
  intro f
  induction f with
  | zero => intro nid a b _ hm; exact absurd hm (Nat.not_lt_zero _)
  | succ f ih =>
    intro nid a b GT hm
    have htrav : shapeTravGo sh d (f + 1) [nid] =
        if (sh.nodes nid).isleaf then
          leafPrims sh.sorted_prim (sh.nodes nid) ++ shapeTravGo sh d f []
        else shapeTravGo sh d f (childPush (sh.nodes nid) d ++ []) := rfl
    cases GT with
    | leaf nid a b hS hlt hleaf hstart hcount hse hsub =>
      rw [htrav]
      simp only [hleaf, if_true]
      rw [shapeTravGo_nil, List.append_nil]
      unfold leafPrims
      rw [hstart, hcount]
    | internal nid a m b hS hlt hleaf hcount hid hstart hL hR hs1 hs2 =>
      rw [htrav]
      simp only [hleaf, Bool.false_eq_true, if_false]
      rw [List.append_nil]
      have ham : a ≤ m := GoodTree_le hL
      have hmb : m ≤ b := GoodTree_le hR
      have h31 : 0 < 3 ^ (sh.nnodes - (sh.nodes nid).start) := pow_pos (by norm_num) _
      have h32 : 0 < 3 ^ (sh.nnodes - ((sh.nodes nid).start + 1)) :=
        pow_pos (by norm_num) _
      have hcm := children_measure_lt hid hstart
      have htarget : (List.range (b - a)).map (fun i => sh.sorted_prim.getD (a + i) 0) =
          (List.range (m - a)).map (fun i => sh.sorted_prim.getD (a + i) 0) ++
          (List.range (b - m)).map (fun i => sh.sorted_prim.getD (m + i) 0) := by
        rw [show b - a = (m - a) + (b - m) from by omega, List.range_add,
          List.map_append, List.map_map]
        congr 1
        apply List.map_congr_left
        intro i hi
        show sh.sorted_prim.getD (a + (m - a + i)) 0 = sh.sorted_prim.getD (m + i) 0
        congr 1
        omega
      rw [htarget]
      have ihL := ih (sh.nodes nid).start a m hL (by omega)
      have ihR := ih ((sh.nodes nid).start + 1) m b hR (by omega)
      rcases childPush_eq (sh.nodes nid) d hcount with hcp | hcp
      · rw [hcp,
          show ([(sh.nodes nid).start + 1, (sh.nodes nid).start] : List ℕ) =
            [(sh.nodes nid).start + 1] ++ [(sh.nodes nid).start] from rfl,
          shapeTravGo_split sh d PB S f [(sh.nodes nid).start + 1] [(sh.nodes nid).start]
            (by intro x hx
                rcases List.mem_append.mp hx with hx | hx
                · rw [List.mem_singleton] at hx
                  subst hx
                  exact ⟨m, b, hR⟩
                · rw [List.mem_singleton] at hx
                  subst hx
                  exact ⟨a, m, hL⟩)
            (by rw [show ([(sh.nodes nid).start + 1] ++ [(sh.nodes nid).start] : List ℕ) =
                  ((sh.nodes nid).start + 1) :: (sh.nodes nid).start :: [] from rfl,
                stackMeasure_cons, stackMeasure_cons]
                unfold stackMeasure
                simp only [List.map_nil, List.sum_nil]
                omega)]
        exact (ihR.append ihL).trans List.perm_append_comm
      · rw [hcp,
          show ([(sh.nodes nid).start, (sh.nodes nid).start + 1] : List ℕ) =
            [(sh.nodes nid).start] ++ [(sh.nodes nid).start + 1] from rfl,
          shapeTravGo_split sh d PB S f [(sh.nodes nid).start] [(sh.nodes nid).start + 1]
            (by intro x hx
                rcases List.mem_append.mp hx with hx | hx
                · rw [List.mem_singleton] at hx
                  subst hx
                  exact ⟨a, m, hL⟩
                · rw [List.mem_singleton] at hx
                  subst hx
                  exact ⟨m, b, hR⟩)
            (by rw [show ([(sh.nodes nid).start] ++ [(sh.nodes nid).start + 1] : List ℕ) =
                  (sh.nodes nid).start :: ((sh.nodes nid).start + 1) :: [] from rfl,
                stackMeasure_cons, stackMeasure_cons]
                unfold stackMeasure
                simp only [List.map_nil, List.sum_nil]
                omega)]
        exact ihL.append ihR

theorem sceneTravGo_perm (scene : SceneBVH) (d : Vec3) (PB : ℕ → Range3)
    (S : ℕ → Prop) :
    ∀ (f nid a b : ℕ), GoodTree scene.nodes scene.nnodes PB S nid a b →
      3 ^ (scene.nnodes - nid) < f →
      (sceneTravGo scene d f [nid]).Perm
        ((List.range (b - a)).map (fun i => scene.sorted_prim.getD (a + i) 0)) := by
  intro f
  induction f with
  | zero => intro nid a b _ hm; exact absurd hm (Nat.not_lt_zero _)
  | succ f ih =>
    intro nid a b GT hm
    have htrav : sceneTravGo scene d (f + 1) [nid] =
        if (scene.nodes nid).isleaf then
          leafPrims scene.sorted_prim (scene.nodes nid) ++ sceneTravGo scene d f []
        else sceneTravGo scene d f (childPush (scene.nodes nid) d ++ []) := rfl
    cases GT with
    | leaf nid a b hS hlt hleaf hstart hcount hse hsub =>
      rw [htrav]
      simp only [hleaf, if_true]
      rw [sceneTravGo_nil, List.append_nil]
      unfold leafPrims
      rw [hstart, hcount]
    | internal nid a m b hS hlt hleaf hcount hid hstart hL hR hs1 hs2 =>
      rw [htrav]
      simp only [hleaf, Bool.false_eq_true, if_false]
      rw [List.append_nil]
      have ham : a ≤ m := GoodTree_le hL
      have hmb : m ≤ b := GoodTree_le hR
      have h31 : 0 < 3 ^ (scene.nnodes - (scene.nodes nid).start) :=
        pow_pos (by norm_num) _
      have h32 : 0 < 3 ^ (scene.nnodes - ((scene.nodes nid).start + 1)) :=
        pow_pos (by norm_num) _
      have hcm := children_measure_lt hid hstart
      have htarget : (List.range (b - a)).map
            (fun i => scene.sorted_prim.getD (a + i) 0) =
          (List.range (m - a)).map (fun i => scene.sorted_prim.getD (a + i) 0) ++
          (List.range (b - m)).map (fun i => scene.sorted_prim.getD (m + i) 0) := by
        rw [show b - a = (m - a) + (b - m) from by omega, List.range_add,
          List.map_append, List.map_map]
        congr 1
        apply List.map_congr_left
        intro i hi
        show scene.sorted_prim.getD (a + (m - a + i)) 0 = scene.sorted_prim.getD (m + i) 0
        congr 1
        omega
      rw [htarget]
      have ihL := ih (scene.nodes nid).start a m hL (by omega)
      have ihR := ih ((scene.nodes nid).start + 1) m b hR (by omega)
      rcases childPush_eq (scene.nodes nid) d hcount with hcp | hcp
      · rw [hcp,
          show ([(scene.nodes nid).start + 1, (scene.nodes nid).start] : List ℕ) =
            [(scene.nodes nid).start + 1] ++ [(scene.nodes nid).start] from rfl,
          sceneTravGo_split scene d PB S f [(scene.nodes nid).start + 1]
            [(scene.nodes nid).start]
            (by intro x hx
                rcases List.mem_append.mp hx with hx | hx
                · rw [List.mem_singleton] at hx
                  subst hx
                  exact ⟨m, b, hR⟩
                · rw [List.mem_singleton] at hx
                  subst hx
                  exact ⟨a, m, hL⟩)
            (by rw [show ([(scene.nodes nid).start + 1] ++ [(scene.nodes nid).start] :
                    List ℕ) =
                  ((scene.nodes nid).start + 1) :: (scene.nodes nid).start :: [] from rfl,
                stackMeasure_cons, stackMeasure_cons]
                unfold stackMeasure
                simp only [List.map_nil, List.sum_nil]
                omega)]
        exact (ihR.append ihL).trans List.perm_append_comm
      · rw [hcp,
          show ([(scene.nodes nid).start, (scene.nodes nid).start + 1] : List ℕ) =
            [(scene.nodes nid).start] ++ [(scene.nodes nid).start + 1] from rfl,
          sceneTravGo_split scene d PB S f [(scene.nodes nid).start]
            [(scene.nodes nid).start + 1]
            (by intro x hx
                rcases List.mem_append.mp hx with hx | hx
                · rw [List.mem_singleton] at hx
                  subst hx
                  exact ⟨a, m, hL⟩
                · rw [List.mem_singleton] at hx
                  subst hx
                  exact ⟨m, b, hR⟩)
            (by rw [show ([(scene.nodes nid).start] ++ [(scene.nodes nid).start + 1] :
                    List ℕ) =
                  (scene.nodes nid).start :: ((scene.nodes nid).start + 1) :: [] from rfl,
                stackMeasure_cons, stackMeasure_cons]
                unfold stackMeasure
                simp only [List.map_nil, List.sum_nil]
                omega)]
        exact ihL.append ihR

/-! ### Running-minimum characterisation of the closest-hit fold -/

theorem scenePrimIsect_tighten (scene : SceneBVH) (r : Ray3) (T' : ℚ)
    (hT : T' ≤ r.tmax) (idx e : ℕ) :
    scenePrimIsect scene { r with tmax := T' } idx e =
      (match scenePrimIsect scene r idx e with
       | none => none
       | some (t, uv) => if t ≤ T' then some (t, uv) else none) := by
  unfold scenePrimIsect localRay
  dsimp only
  exact primIsect_tighten _ _ _ _ _ _ hT e

theorem pairTs_tighten (scene : SceneBVH) (r : Ray3) (T' : ℚ) (hT : T' ≤ r.tmax) :
    ∀ L : List (ℕ × ℕ), pairTs scene { r with tmax := T' } L =
      (pairTs scene r L).filter (fun t => t ≤ T') := by
  intro L
  induction L with
  | nil => rfl
  | cons p ps ih =>
    unfold pairTs at *
    rcases hq : scenePrimIsect scene r p.1 p.2 with _ | ⟨t, uv⟩
    · rw [List.filterMap_cons_none
          (by rw [scenePrimIsect_tighten scene r T' hT p.1 p.2, hq]; rfl),
        List.filterMap_cons_none (by rw [hq]; rfl), ih]
    · by_cases hle : t ≤ T'
      · rw [List.filterMap_cons_some (show _ = some t from by
            rw [scenePrimIsect_tighten scene r T' hT p.1 p.2, hq]
            dsimp only
            rw [if_pos hle]
            rfl),
          List.filterMap_cons_some (show _ = some t from by rw [hq]; rfl),
          List.filter_cons, if_pos (by simpa using hle), ih]
      · rw [List.filterMap_cons_none (by
            rw [scenePrimIsect_tighten scene r T' hT p.1 p.2, hq]
            dsimp only
            rw [if_neg hle]
            rfl),
          List.filterMap_cons_some (show _ = some t from by rw [hq]; rfl),
          List.filter_cons, if_neg (by simpa using hle), ih]

theorem foldl_min_filter (T' : ℚ) :
    ∀ (l : List ℚ) (u : ℚ), u ≤ T' →
      (l.filter (fun t => t ≤ T')).foldl min u = l.foldl min u := by
  intro l
  induction l with
  | nil => intro u _; rfl
  | cons a l ih =>
    intro u hu
    rw [List.filter_cons]
    by_cases ha : a ≤ T'
    · rw [if_pos (by simpa using ha), List.foldl_cons, List.foldl_cons]
      exact ih (min u a) (le_trans (min_le_left u a) hu)
    · rw [if_neg (by simpa using ha), List.foldl_cons,
        show min u a = u from min_eq_left (hu.trans (le_of_lt (lt_of_not_le ha)))]
      exact ih u hu

theorem bruteFold_tmax (scene : SceneBVH) :
    ∀ (L : List (ℕ × ℕ)) (s : SceneITState),
      (bruteFold scene L s).ray.tmax = (pairTs scene s.ray L).foldl min s.ray.tmax := by
  intro L
  induction L with
  | nil => intro s; rfl
  | cons p ps ih =>
    intro s
    unfold bruteFold at *
    rw [List.foldl_cons]
    unfold pairTs
    rcases hq : scenePrimIsect scene s.ray p.1 p.2 with _ | ⟨t, uv⟩
    · have hstep : bruteStep scene s p = s := by
        unfold bruteStep
        rw [hq]
      rw [List.filterMap_cons_none (by rw [hq]; rfl), hstep]
      exact ih s
    · have hstep : bruteStep scene s p =
          ⟨{ s.ray with tmax := t }, true, p.1, p.2, uv⟩ := by
        unfold bruteStep
        rw [hq]
      rw [List.filterMap_cons_some (show _ = some t from by rw [hq]; rfl), hstep]
      rw [ih ⟨{ s.ray with tmax := t }, true, p.1, p.2, uv⟩]
      have htle : t ≤ s.ray.tmax := (scenePrimIsect_range hq).2
      rw [show (⟨{ s.ray with tmax := t }, true, p.1, p.2, uv⟩ : SceneITState).ray =
          { s.ray with tmax := t } from rfl]
      rw [show pairTs scene { s.ray with tmax := t } ps =
          (pairTs scene s.ray ps).filter (fun x => x ≤ t) from
        pairTs_tighten scene s.ray t htle ps]
      rw [show ({ s.ray with tmax := t } : Ray3).tmax = t from rfl]
      rw [foldl_min_filter t (pairTs scene s.ray ps) t (le_refl t), List.foldl_cons,
        show min s.ray.tmax t = t from min_eq_right htle]
      rfl

theorem bruteTs_eq (scene : SceneBVH) (ray : Ray3) :
    bruteTs scene ray = pairTs scene ray (scenePairs scene) := by
  unfold bruteTs pairTs scenePairs
  rw [List.filterMap_flatMap]
  apply List.flatMap_congr
  intro sid _
  rw [List.filterMap_map]
  rfl

theorem bruteTs_le (scene : SceneBVH) (ray : Ray3) :
    ∀ t ∈ bruteTs scene ray, ray.tmin ≤ t ∧ t ≤ ray.tmax := by
  intro t ht
  unfold bruteTs at ht
  obtain ⟨sid, _, ht⟩ := List.mem_flatMap.mp ht
  obtain ⟨eid, _, hq⟩ := List.mem_filterMap.mp ht
  rcases ho : scenePrimIsect scene ray sid eid with _ | ⟨t', uv⟩
  · rw [ho] at hq
    exact absurd hq (by simp)
  · rw [ho] at hq
    obtain rfl : t' = t := by
      have hq' : some t' = some t := hq
      injection hq'
    exact scenePrimIsect_range ho

theorem anyHitBrute_iff (scene : SceneBVH) (ray : Ray3) :
    anyHitBrute scene ray = true ↔
      ∃ p ∈ scenePairs scene, scenePrimIsect scene ray p.1 p.2 ≠ none := by
  unfold anyHitBrute scenePairs
  rw [List.any_eq_true]
  constructor
  · rintro ⟨sid, hsid, h⟩
    rw [List.any_eq_true] at h
    obtain ⟨eid, heid, h⟩ := h
    refine ⟨(sid, eid), ?_, ?_⟩
    · exact List.mem_flatMap.mpr ⟨sid, hsid, List.mem_map.mpr ⟨eid, heid, rfl⟩⟩
    · simpa [Option.isSome_iff_ne_none] using h
  · rintro ⟨p, hp, hne⟩
    obtain ⟨sid, hsid, hmem⟩ := List.mem_flatMap.mp hp
    obtain ⟨eid, heid, rfl⟩ := List.mem_map.mp hmem
    refine ⟨sid, hsid, ?_⟩
    rw [List.any_eq_true]
    exact ⟨eid, heid, by simpa [Option.isSome_iff_ne_none] using hne⟩

/-! ### Per-shape query facts of a built shape -/

theorem built_shape_query_pack (sh0 sh' : ShapeBVH) (hh : heuristicOk sh0.heuristic)
    (hn : 1 ≤ sh0.nelems) (hrad0 : radOk sh0)
    (hb : yb_build_shape_bvh sh0 = some sh') :
    radOk sh' ∧ sh'.nelems = sh0.nelems ∧
    sh'.sorted_prim.Perm (List.range sh0.nelems) ∧
    (∀ k (r : Ray3) t uv, k < sh0.nelems →
      primIsect sh' r (sh'.sorted_prim.getD k 0) = some (t, uv) →
      memR (r.eval t) (primBuildBBox sh' (sh'.sorted_prim.getD k 0))) ∧
    (∃ a b, GoodTree sh'.nodes sh'.nnodes
      (fun k => primBuildBBox sh' (sh'.sorted_prim.getD k 0)) (fun _ => True) 0 a b ∧
      b ≤ sh0.nelems) := by
  obtain ⟨helems, hpos, hradius, hperm, hGT⟩ := built_shape_pack sh0 sh' hh hn hb
  have hnel : sh'.nelems = sh0.nelems := by
    unfold ShapeBVH.nelems
    rw [helems]
  refine ⟨?_, hnel, hperm, ?_, ⟨0, sh0.nelems, hGT, le_refl _⟩⟩
  · unfold radOk at hrad0 ⊢
    rw [helems, hradius]
    exact hrad0
  · intro k r t uv hk hq
    have he : sh'.sorted_prim.getD k 0 < sh0.nelems := perm_getD_lt hperm hk
    exact primIsect_hit_in_bbox (by rw [hnel]; exact he) hq

theorem built_shapeTravOrder_perm (sh0 sh' : ShapeBVH) (hh : heuristicOk sh0.heuristic)
    (hn : 1 ≤ sh0.nelems) (hb : yb_build_shape_bvh sh0 = some sh') (d : Vec3) :
    (shapeTravOrder sh' d).Perm (List.range sh0.nelems) := by
  obtain ⟨helems, hpos, hradius, hperm, hGT⟩ := built_shape_pack sh0 sh' hh hn hb
  have hfuel : 3 ^ (sh'.nnodes - 0) < shapeFuel sh' := by
    unfold shapeFuel
    rw [Nat.sub_zero]
    exact Nat.pow_lt_pow_right (by norm_num) (by omega)
  have h1 := shapeTravGo_perm sh' d
    (fun k => primBuildBBox sh' (sh'.sorted_prim.getD k 0)) (fun _ => True)
    (shapeFuel sh') 0 0 sh0.nelems hGT hfuel
  have hlen : sh'.sorted_prim.length = sh0.nelems := by
    rw [hperm.length_eq, List.length_range]
  have h2 : (List.range (sh0.nelems - 0)).map (fun i => sh'.sorted_prim.getD (0 + i) 0) =
      sh'.sorted_prim := by
    simp only [Nat.sub_zero, Nat.zero_add]
    rw [← hlen, range_getD_eq]
  rw [h2] at h1
  exact h1.trans hperm

theorem yb_hit_scene_eq (scene : SceneBVH) (PB : ℕ → Range3) (S : ℕ → Prop) (N : ℕ)
    (hpk : ∀ (s' : SceneITState) (idx : ℕ),
      (∃ k, k < N ∧ scene.sorted_prim.getD k 0 = idx) →
      ∃ s'', scenePrimStep scene true s' idx = .ok s'' ∧
        (s''.hit = true ↔ s'.hit = true ∨
          ∃ e ∈ shapeTravOrder (scene.shapes.getD idx emptyShape)
            (localRay scene idx s'.ray).d,
            scenePrimIsect scene s'.ray idx e ≠ none) ∧
        (s'' = s' ∨ s''.hit = true))
    (hprim : ∀ k (r : Ray3) (e : ℕ) t uv, k < N →
      e ∈ shapeTravOrder (scene.shapes.getD (scene.sorted_prim.getD k 0) emptyShape)
        (localRay scene (scene.sorted_prim.getD k 0) r).d →
      scenePrimIsect scene r (scene.sorted_prim.getD k 0) e = some (t, uv) →
      memR (r.eval t) (PB k))
    (hroot : ∃ a b, GoodTree scene.nodes scene.nnodes PB S 0 a b ∧ b ≤ N)
    (ray : Ray3) :
    ∃ b : Bool, yb_hit_scene_bvh scene ray = .ok b ∧
      (b = true ↔ ∃ p ∈ sceneTravPairs scene ray,
        scenePrimIsect scene ray p.1 p.2 ≠ none) := by
  unfold yb_hit_scene_bvh
  obtain ⟨s', hs', hiff, _⟩ := sceneILoop_early scene PB S N hpk hprim
    (sceneFuel scene) [0] ⟨ray, false, 0, 0, ⟨0, 0⟩⟩
    (by intro x hx
        rw [List.mem_singleton] at hx
        subst hx
        exact hroot)
    (by unfold sceneFuel
        rw [show ([0] : List ℕ) = 0 :: [] from rfl, stackMeasure_cons]
        unfold stackMeasure
        simp only [List.map_nil, List.sum_nil, Nat.sub_zero]
        have : (3:ℕ) ^ scene.nnodes < 3 ^ (scene.nnodes + 1) :=
          Nat.pow_lt_pow_right (by norm_num) (by omega)
        omega)
  rw [hs']
  refine ⟨s'.hit, rfl, ?_⟩
  rw [hiff]
  dsimp only
  rw [sceneTravPairs_eq]
  simp only [Bool.false_eq_true, false_or]

theorem built_scene_main (scene0 scene : SceneBVH)
    (hb : yb_build_scene_bvh scene0 = some scene)
    (hns : 1 ≤ scene0.shapes.length) (hheu : heuristicOk scene0.heuristic)
    (hsh0 : ∀ sh ∈ scene0.shapes, heuristicOk sh.heuristic ∧ 1 ≤ sh.nelems ∧ radOk sh)
    (hinv : ∀ i, i < scene0.shapes.length →
      isInvPair (scene0.xforms.getD i ym_identity_affine3f)
        (scene0.inv_xforms.getD i ym_identity_affine3f))
    (ray : Ray3) (cells : Isect) :
    yb_intersect_scene_bvh scene ray cells = .ok
      ((bruteFold scene (sceneTravPairs scene ray)
          ⟨ray, false, cells.sid, cells.eid, cells.euv⟩).hit,
        ⟨if (bruteFold scene (sceneTravPairs scene ray)
              ⟨ray, false, cells.sid, cells.eid, cells.euv⟩).hit
            then (bruteFold scene (sceneTravPairs scene ray)
              ⟨ray, false, cells.sid, cells.eid, cells.euv⟩).ray.tmax
            else cells.ray_t,
          (bruteFold scene (sceneTravPairs scene ray)
            ⟨ray, false, cells.sid, cells.eid, cells.euv⟩).sid,
          (bruteFold scene (sceneTravPairs scene ray)
            ⟨ray, false, cells.sid, cells.eid, cells.euv⟩).eid,
          (bruteFold scene (sceneTravPairs scene ray)
            ⟨ray, false, cells.sid, cells.eid, cells.euv⟩).euv⟩) ∧
    (sceneTravPairs scene ray).Perm (scenePairs scene) ∧
    (∃ b : Bool, yb_hit_scene_bvh scene ray = .ok b ∧
      (b = true ↔ ∃ p ∈ sceneTravPairs scene ray,
        scenePrimIsect scene ray p.1 p.2 ≠ none)) := by
  obtain ⟨hbs, hxf, hixf, hperm, hGT⟩ := built_scene_pack scene0 scene hheu hns hb
  have hshlen : scene.shapes.length = scene0.shapes.length := buildShapes_length _ _ hbs
  have hsplen : scene.sorted_prim.length = scene0.shapes.length := by
    rw [hperm.length_eq, List.length_range]
  have hmem0 : ∀ idx, idx < scene0.shapes.length →
      scene0.shapes.getD idx emptyShape ∈ scene0.shapes := by
    intro idx hidx
    rw [List.getD_eq_getElem?_getD, List.getElem?_eq_getElem hidx]
    exact List.getElem_mem _
  have hbuilt : ∀ idx, idx < scene0.shapes.length →
      yb_build_shape_bvh (scene0.shapes.getD idx emptyShape) =
        some (scene.shapes.getD idx emptyShape) :=
    fun idx hidx => buildShapes_nth scene0.shapes scene.shapes hbs idx hidx
  have hQ : ∀ idx, idx < scene0.shapes.length →
      radOk (scene.shapes.getD idx emptyShape) ∧
      (scene.shapes.getD idx emptyShape).nelems =
        (scene0.shapes.getD idx emptyShape).nelems ∧
      (scene.shapes.getD idx emptyShape).sorted_prim.Perm
        (List.range (scene0.shapes.getD idx emptyShape).nelems) ∧
      (∀ k (r : Ray3) t uv, k < (scene0.shapes.getD idx emptyShape).nelems →
        primIsect (scene.shapes.getD idx emptyShape) r
          ((scene.shapes.getD idx emptyShape).sorted_prim.getD k 0) = some (t, uv) →
        memR (r.eval t) (primBuildBBox (scene.shapes.getD idx emptyShape)
          ((scene.shapes.getD idx emptyShape).sorted_prim.getD k 0))) ∧
      (∃ a b, GoodTree (scene.shapes.getD idx emptyShape).nodes
        (scene.shapes.getD idx emptyShape).nnodes
        (fun k => primBuildBBox (scene.shapes.getD idx emptyShape)
          ((scene.shapes.getD idx emptyShape).sorted_prim.getD k 0))
        (fun _ => True) 0 a b ∧ b ≤ (scene0.shapes.getD idx emptyShape).nelems) := by
    intro idx hidx
    obtain ⟨h1, h2, h3⟩ := hsh0 _ (hmem0 idx hidx)
    exact built_shape_query_pack _ _ h1 h2 h3 (hbuilt idx hidx)
  have hstep : ∀ (s' : SceneITState) (idx : ℕ),
      (∃ k, k < scene0.shapes.length ∧ scene.sorted_prim.getD k 0 = idx) →
      scenePrimStep scene false s' idx = .ok (bruteFold scene
        ((shapeTravOrder (scene.shapes.getD idx emptyShape)
          (localRay scene idx s'.ray).d).map (fun e => (idx, e))) s') := by
    intro s' idx hkex
    obtain ⟨k, hk, hke⟩ := hkex
    have hidx : idx < scene0.shapes.length := by
      rw [← hke]
      exact perm_getD_lt hperm hk
    obtain ⟨q1, q2, q3, q4, q5⟩ := hQ idx hidx
    exact scenePrimStep_fold scene idx (scene.shapes.getD idx emptyShape) rfl
      (fun k => primBuildBBox (scene.shapes.getD idx emptyShape)
        ((scene.shapes.getD idx emptyShape).sorted_prim.getD k 0))
      (fun _ => True) (scene0.shapes.getD idx emptyShape).nelems q1 q4 q5 s'
  have hpk : ∀ (s' : SceneITState) (idx : ℕ),
      (∃ k, k < scene0.shapes.length ∧ scene.sorted_prim.getD k 0 = idx) →
      ∃ s'', scenePrimStep scene true s' idx = .ok s'' ∧
        (s''.hit = true ↔ s'.hit = true ∨
          ∃ e ∈ shapeTravOrder (scene.shapes.getD idx emptyShape)
            (localRay scene idx s'.ray).d,
            scenePrimIsect scene s'.ray idx e ≠ none) ∧
        (s'' = s' ∨ s''.hit = true) := by
    intro s' idx hkex
    obtain ⟨k, hk, hke⟩ := hkex
    have hidx : idx < scene0.shapes.length := by
      rw [← hke]
      exact perm_getD_lt hperm hk
    obtain ⟨q1, q2, q3, q4, q5⟩ := hQ idx hidx
    exact scenePrimStep_early scene idx (scene.shapes.getD idx emptyShape) rfl
      (fun k => primBuildBBox (scene.shapes.getD idx emptyShape)
        ((scene.shapes.getD idx emptyShape).sorted_prim.getD k 0))
      (fun _ => True) (scene0.shapes.getD idx emptyShape).nelems q1 q4 q5 s'
  have hprim : ∀ k (r : Ray3) (e : ℕ) t uv, k < scene0.shapes.length →
      e ∈ shapeTravOrder (scene.shapes.getD (scene.sorted_prim.getD k 0) emptyShape)
        (localRay scene (scene.sorted_prim.getD k 0) r).d →
      scenePrimIsect scene r (scene.sorted_prim.getD k 0) e = some (t, uv) →
      memR (r.eval t)
        (((boundPrimsOfScene scene.shapes scene.xforms).getD
          (scene.sorted_prim.getD k 0) default).bbox) := by
    intro k r e t uv hk he hq
    have hidx : scene.sorted_prim.getD k 0 < scene0.shapes.length :=
      perm_getD_lt hperm hk
    obtain ⟨q1, q2, q3, q4, q5⟩ := hQ _ hidx
    obtain ⟨n, hn, k2, hk2, hxe, hsubk⟩ := shapeTravGo_mem
      (scene.shapes.getD (scene.sorted_prim.getD k 0) emptyShape)
      (localRay scene (scene.sorted_prim.getD k 0) r).d
      (fun k2 => primBuildBBox
        (scene.shapes.getD (scene.sorted_prim.getD k 0) emptyShape)
        ((scene.shapes.getD (scene.sorted_prim.getD k 0)
          emptyShape).sorted_prim.getD k2 0))
      (fun _ => True)
      (scene0.shapes.getD (scene.sorted_prim.getD k 0) emptyShape).nelems
      (shapeFuel (scene.shapes.getD (scene.sorted_prim.getD k 0) emptyShape)) [0]
      (by intro x hx
          rw [List.mem_singleton] at hx
          subst hx
          exact q5)
      (by unfold shapeFuel
          rw [show ([0] : List ℕ) = 0 :: [] from rfl, stackMeasure_cons]
          unfold stackMeasure
          simp only [List.map_nil, List.sum_nil, Nat.sub_zero]
          have : (3:ℕ) ^ (scene.shapes.getD (scene.sorted_prim.getD k 0)
              emptyShape).nnodes < 3 ^ ((scene.shapes.getD (scene.sorted_prim.getD k 0)
              emptyShape).nnodes + 1) :=
            Nat.pow_lt_pow_right (by norm_num) (by omega)
          omega)
      e he
    rw [List.mem_singleton] at hn
    subst hn
    subst hxe
    have hq' : primIsect (scene.shapes.getD (scene.sorted_prim.getD k 0) emptyShape)
        (localRay scene (scene.sorted_prim.getD k 0) r)
        ((scene.shapes.getD (scene.sorted_prim.getD k 0) emptyShape).sorted_prim.getD
          k2 0) = some (t, uv) := hq
    have hein : (scene.shapes.getD (scene.sorted_prim.getD k 0)
        emptyShape).sorted_prim.getD k2 0 <
        (scene.shapes.getD (scene.sorted_prim.getD k 0) emptyShape).nelems := by
      rw [q2]
      exact perm_getD_lt q3 hk2
    have hhit := primIsect_hit_in_bbox hein hq'
    have hroot := memR_mono hhit hsubk
    have hev : (localRay scene (scene.sorted_prim.getD k 0) r).eval t =
        ym_transform_point (scene.inv_xforms.getD (scene.sorted_prim.getD k 0)
          ym_identity_affine3f) (r.eval t) :=
      transform_eval _ r t r.tmin r.tmax
    rw [hev] at hroot
    have hhull := transform_mem_hull
      (scene.xforms.getD (scene.sorted_prim.getD k 0) ym_identity_affine3f) hroot
    have hpt := hinv (scene.sorted_prim.getD k 0) hidx (r.eval t)
    rw [← hxf, ← hixf] at hpt
    rw [hpt] at hhull
    unfold boundPrimsOfScene
    rw [range_map_getD _ (by rw [hshlen]; exact hidx)]
    exact hhull
  have hroot_sc : ∃ a b, GoodTree scene.nodes scene.nnodes
      (fun k => ((boundPrimsOfScene scene.shapes scene.xforms).getD
        (scene.sorted_prim.getD k 0) default).bbox) (fun _ => True) 0 a b ∧
      b ≤ scene0.shapes.length :=
    ⟨0, scene0.shapes.length, hGT, le_refl _⟩
  refine ⟨?_, ?_, ?_⟩
  · exact yb_intersect_scene_eq scene _ _ scene0.shapes.length hstep hprim hroot_sc
      ray cells
  · have hfuel : 3 ^ (scene.nnodes - 0) < sceneFuel scene := by
      unfold sceneFuel
      rw [Nat.sub_zero]
      exact Nat.pow_lt_pow_right (by norm_num) (by omega)
    have h1 := sceneTravGo_perm scene ray.d
      (fun k => ((boundPrimsOfScene scene.shapes scene.xforms).getD
        (scene.sorted_prim.getD k 0) default).bbox) (fun _ => True)
      (sceneFuel scene) 0 0 scene0.shapes.length hGT hfuel
    have h2 : (List.range (scene0.shapes.length - 0)).map
        (fun i => scene.sorted_prim.getD (0 + i) 0) = scene.sorted_prim := by
      simp only [Nat.sub_zero, Nat.zero_add]
      rw [← hsplen, range_getD_eq]
    rw [h2] at h1
    have hscene : (sceneTravGo scene ray.d (sceneFuel scene) [0]).Perm
        (List.range scene0.shapes.length) := h1.trans hperm
    rw [sceneTravPairs_eq]
    unfold travPairsD scenePairs
    refine (hscene.flatMap_right _).trans ?_
    have hN : scene.nshapes = scene0.shapes.length := by
      unfold SceneBVH.nshapes
      rw [hshlen]
    rw [hN]
    apply List.Perm.flatMap_left
    intro sid hsid
    have hsid' : sid < scene0.shapes.length := List.mem_range.mp hsid
    refine List.Perm.map _ ?_
    obtain ⟨h1', h2', _⟩ := hsh0 _ (hmem0 sid hsid')
    have hto := built_shapeTravOrder_perm (scene0.shapes.getD sid emptyShape)
      (scene.shapes.getD sid emptyShape) h1' h2' (hbuilt sid hsid')
      (ym_transform_vector (scene.inv_xforms.getD sid ym_identity_affine3f) ray.d)
    rw [show (scene.shapes.getD sid emptyShape).nelems =
      (scene0.shapes.getD sid emptyShape).nelems from (hQ sid hsid').2.1]
    exact hto
  · exact yb_hit_scene_eq scene _ _ scene0.shapes.length hpk hprim hroot_sc ray

theorem isInvPair_identity : isInvPair ym_identity_affine3f ym_identity_affine3f := by
  intro p
  obtain ⟨px, py, pz⟩ := p
  unfold ym_transform_point ym_identity_affine3f ym_dot
  dsimp only
  simp only [Vec3.mk.injEq]
  have h0x : (0 : Vec3).x = 0 := rfl
  have h0y : (0 : Vec3).y = 0 := rfl
  have h0z : (0 : Vec3).z = 0 := rfl
  refine ⟨by rw [h0x]; ring, by rw [h0y]; ring, by rw [h0z]; ring⟩

/-- C1: for every built scene BVH (well-formed heuristics, at least one
shape, at least one primitive per shape, a radius view wherever the ray
tests read one, and cached inverses that really invert the stored
transforms) and every ray, `yb_intersect_scene_bvh` returns exactly the
outcome of the brute-force closest-hit fold over all `(shape, element)`
pairs taken in traversal order — so the returned `(sid, eid, ray_t, euv)`
are those of the minimum-`t` primitive, with ties at exactly equal `t`
resolved by the traversal order; in particular it reports a hit exactly
when some primitive of some shape intersects the ray within
`[tmin, tmax]` (the brute-force any-hit test), and on a hit the written
`ray_t` is the minimum hit parameter over all primitives of all shapes. -/
theorem c1_closest_hit_brute_force :
    ∀ (scene0 scene : SceneBVH), yb_build_scene_bvh scene0 = some scene →
      1 ≤ scene0.shapes.length → heuristicOk scene0.heuristic →
      (∀ sh ∈ scene0.shapes, heuristicOk sh.heuristic ∧ 1 ≤ sh.nelems ∧ radOk sh) →
      (∀ i, i < scene0.shapes.length →
        isInvPair (scene0.xforms.getD i ym_identity_affine3f)
          (scene0.inv_xforms.getD i ym_identity_affine3f)) →
      ∀ (ray : Ray3) (cells : Isect),
      yb_intersect_scene_bvh scene ray cells = .ok
        ((bruteFold scene (sceneTravPairs scene ray)
            ⟨ray, false, cells.sid, cells.eid, cells.euv⟩).hit,
          ⟨if (bruteFold scene (sceneTravPairs scene ray)
                ⟨ray, false, cells.sid, cells.eid, cells.euv⟩).hit
              then (bruteFold scene (sceneTravPairs scene ray)
                ⟨ray, false, cells.sid, cells.eid, cells.euv⟩).ray.tmax
              else cells.ray_t,
            (bruteFold scene (sceneTravPairs scene ray)
              ⟨ray, false, cells.sid, cells.eid, cells.euv⟩).sid,
            (bruteFold scene (sceneTravPairs scene ray)
              ⟨ray, false, cells.sid, cells.eid, cells.euv⟩).eid,
            (bruteFold scene (sceneTravPairs scene ray)
              ⟨ray, false, cells.sid, cells.eid, cells.euv⟩).euv⟩) ∧
      ((bruteFold scene (sceneTravPairs scene ray)
          ⟨ray, false, cells.sid, cells.eid, cells.euv⟩).hit = true ↔
        anyHitBrute scene ray = true) ∧
      ((bruteFold scene (sceneTravPairs scene ray)
          ⟨ray, false, cells.sid, cells.eid, cells.euv⟩).hit = true →
        minHitT scene ray = some (bruteFold scene (sceneTravPairs scene ray)
          ⟨ray, false, cells.sid, cells.eid, cells.euv⟩).ray.tmax) := by
  intro scene0 scene hb hns hheu hsh0 hinv ray cells
  obtain ⟨hq, hpermp, _⟩ := built_scene_main scene0 scene hb hns hheu hsh0 hinv ray cells
  refine ⟨hq, ?_, ?_⟩
  · rw [bruteFold_hit, anyHitBrute_iff]
    dsimp only
    simp only [Bool.false_eq_true, false_or]
    constructor
    · rintro ⟨p, hp, hne⟩
      exact ⟨p, hpermp.subset hp, hne⟩
    · rintro ⟨p, hp, hne⟩
      exact ⟨p, hpermp.symm.subset hp, hne⟩
  · intro hhit
    have hTsperm : (pairTs scene ray (sceneTravPairs scene ray)).Perm
        (bruteTs scene ray) := by
      rw [bruteTs_eq]
      exact hpermp.filterMap _
    have htmax : (bruteFold scene (sceneTravPairs scene ray)
        ⟨ray, false, cells.sid, cells.eid, cells.euv⟩).ray.tmax =
        (pairTs scene ray (sceneTravPairs scene ray)).foldl min ray.tmax :=
      bruteFold_tmax scene (sceneTravPairs scene ray) _
    unfold minHitT
    rcases hbl : bruteTs scene ray with _ | ⟨t0, ts⟩
    · exfalso
      have hhit' := (bruteFold_hit scene (sceneTravPairs scene ray)
        ⟨ray, false, cells.sid, cells.eid, cells.euv⟩).mp hhit
      rcases hhit' with h | ⟨p, hp, hne2⟩
      · exact absurd h (by simp)
      · rcases ho : scenePrimIsect scene ray p.1 p.2 with _ | ⟨tv, uv⟩
        · exact hne2 ho
        · have htv : tv ∈ pairTs scene ray (sceneTravPairs scene ray) :=
            List.mem_filterMap.mpr ⟨p, hp, by rw [ho]; rfl⟩
          have hmem := hTsperm.subset htv
          rw [hbl] at hmem
          exact absurd hmem (by simp)
    · dsimp only
      haveI : RightCommutative (min : ℚ → ℚ → ℚ) :=
        ⟨fun b a₁ a₂ => min_right_comm b a₁ a₂⟩
      have hfold : (pairTs scene ray (sceneTravPairs scene ray)).foldl min ray.tmax =
          (bruteTs scene ray).foldl min ray.tmax := hTsperm.foldl_eq ray.tmax
      rw [htmax, hfold, hbl, List.foldl_cons]
      have ht0 : t0 ≤ ray.tmax :=
        (bruteTs_le scene ray t0 (by rw [hbl]; exact List.mem_cons_self _ _)).2
      rw [show min ray.tmax t0 = t0 from min_eq_right ht0]

/-- C1 (witness): on Scenario A — the one-triangle scene built with the
SAH heuristic under identity transforms — and its hitting ray, the
traversal's hit flag agrees with the brute-force any-hit test. -/
theorem c1_closest_hit_brute_force_witness :
    ((bruteFold ((yb_build_scene_bvh sceneA).getD sceneA)
        (sceneTravPairs ((yb_build_scene_bvh sceneA).getD sceneA) rayA)
        ⟨rayA, false, 0, 0, ⟨0, 0⟩⟩).hit = true ↔
      anyHitBrute ((yb_build_scene_bvh sceneA).getD sceneA) rayA = true) :=
  (c1_closest_hit_brute_force sceneA ((yb_build_scene_bvh sceneA).getD sceneA) rfl
    (by decide) (by decide) (by decide)
    (by intro i hi
        have h1 : sceneA.shapes.length = 1 := rfl
        obtain rfl : i = 0 := by omega
        exact isInvPair_identity) rayA ⟨0, 0, 0, ⟨0, 0⟩⟩).2.1

/-- C4: for every built scene BVH (same well-formedness as C1) and every
ray, the any-hit query `yb_hit_scene_bvh` succeeds and returns `true`
exactly when the closest-hit query `yb_intersect_scene_bvh` reports a
hit. -/
theorem c4_any_hit_iff_closest_hit :
    ∀ (scene0 scene : SceneBVH), yb_build_scene_bvh scene0 = some scene →
      1 ≤ scene0.shapes.length → heuristicOk scene0.heuristic →
      (∀ sh ∈ scene0.shapes, heuristicOk sh.heuristic ∧ 1 ≤ sh.nelems ∧ radOk sh) →
      (∀ i, i < scene0.shapes.length →
        isInvPair (scene0.xforms.getD i ym_identity_affine3f)
          (scene0.inv_xforms.getD i ym_identity_affine3f)) →
      ∀ (ray : Ray3) (cells : Isect),
      ∃ (b hit : Bool) (out : Isect),
        yb_hit_scene_bvh scene ray = .ok b ∧
        yb_intersect_scene_bvh scene ray cells = .ok (hit, out) ∧
        (b = true ↔ hit = true) := by
  intro scene0 scene hb hns hheu hsh0 hinv ray cells
  obtain ⟨hq, hpermp, b, hbq, hbiff⟩ :=
    built_scene_main scene0 scene hb hns hheu hsh0 hinv ray cells
  refine ⟨b, _, _, hbq, hq, ?_⟩
  rw [hbiff, bruteFold_hit]
  dsimp only
  simp only [Bool.false_eq_true, false_or]

/-- C4 (witness): on Scenario A's built scene and hitting ray, both
queries return `.ok` and agree on the hit flag. -/
theorem c4_any_hit_iff_closest_hit_witness :
    ∃ (b hit : Bool) (out : Isect),
      yb_hit_scene_bvh ((yb_build_scene_bvh sceneA).getD sceneA) rayA = .ok b ∧
      yb_intersect_scene_bvh ((yb_build_scene_bvh sceneA).getD sceneA) rayA
        ⟨0, 0, 0, ⟨0, 0⟩⟩ = .ok (hit, out) ∧
      (b = true ↔ hit = true) :=
  c4_any_hit_iff_closest_hit sceneA ((yb_build_scene_bvh sceneA).getD sceneA) rfl
    (by decide) (by decide) (by decide)
    (by intro i hi
        have h1 : sceneA.shapes.length = 1 := rfl
        obtain rfl : i = 0 := by omega
        exact isInvPair_identity) rayA ⟨0, 0, 0, ⟨0, 0⟩⟩

end YoctoBVH
